import Mathlib

/-!
# Virtual-memory core of PintOS (vm/frame.c, vm/page.c, vm/swap.c, userprog/syscall.c)

A shallow embedding of the frame table, the supplemental page table, the swap
store and the user-pointer validation path, with the properties of the
specification stated over it.

Conventions of the embedding.

* Addresses, sizes and indices are natural numbers; 32-bit wrap-around is
  written out (`% WORD`) where the C arithmetic can overflow.
* `struct spt_entry` blocks live in a heap indexed by their address; a pointer
  to an entry is that address and `NULL` is `none`.  The contents of a block
  that was never written are whatever the heap holds there.  `free` marks the
  block as released: the allocator fills a released block with the byte 0xcc,
  so a pointer field read through a pointer to such a block is 0xcccccccc,
  whatever the kernel code had stored there.
* A `struct frame_table_entry *` is the position of the entry in the frame
  list.
* `PANIC`, a failed `ASSERT`, `exit` and a `NULL` dereference end the run of a
  function with a `Fault`.
* A loop whose number of turns is not bounded by its arguments takes a `fuel`
  argument and ends with `Fault.out_of_fuel` when it is used up; the theorems
  say how much fuel is enough.
* The interfaces of the host kernel that are not among the sources (page
  directory, file system, disk, user pool, bitmap and hash libraries) are
  modelled from the specification; their own assertions are not modelled.
-/

namespace Pintos

/-! ## Constants -/

/-- Size of a machine word's value range: pointers and `size_t` are 32 bits. -/
def WORD : Nat := 2 ^ 32

/-- Bytes in a page (threads/vaddr.h). -/
def PGSIZE : Nat := 4096

/-- Bytes in a disk sector (devices/disk.h). -/
def DISK_SECTOR_SIZE : Nat := 512

/-- Modelled from the spec: the constant `SECTORS_PER_PAGE` of vm/swap.h, a
header that is not among the sources.  A swap slot is the fixed number of
contiguous sectors that holds one page. -/
def SECTORS_PER_PAGE : Nat := PGSIZE / DISK_SECTOR_SIZE

/-- The error value of the bitmap library, `SIZE_MAX`. -/
def BITMAP_ERROR : Nat := WORD - 1

/-- Start of kernel virtual memory (threads/vaddr.h). -/
def PHYS_BASE : Nat := 0xC0000000

/-- Modelled from the spec: `STACK_HEURISTIC = 32 bytes`; the header that
defines it is not among the sources. -/
def STACK_HEURISTIC : Nat := 32

/-- Modelled from the spec: `MAX_STACK_SIZE = 8 MiB`; the header that defines
it is not among the sources. -/
def MAX_STACK_SIZE : Nat := 8 * 1024 * 1024

/-- Flag of `palloc_get_page`: zero the page (threads/palloc.h). -/
def PAL_ZERO : Nat := 2

/-- Flag of `palloc_get_page`: take the page from the user pool. -/
def PAL_USER : Nat := 4

/-- Round an address down to the start of its page (`pg_round_down`). -/
def pg_round_down (va : Nat) : Nat := va / PGSIZE * PGSIZE

/-- Offset of an address within its page (`pg_ofs`). -/
def pg_ofs (va : Nat) : Nat := va % PGSIZE

/-- An address below `PHYS_BASE` (`is_user_vaddr`). -/
def is_user_vaddr (va : Nat) : Bool := decide (va < PHYS_BASE)

/-- Conversion of a 32-bit pattern to `int`. -/
def to_int32 (n : Int) : Int := (n + 2 ^ 31) % 2 ^ 32 - 2 ^ 31

/-! ## Data model -/

/-- The `enum spte_type` of vm/page.h. -/
inductive spte_type where
  | CODE
  | FILE
  | MMAP
  deriving DecidableEq, Repr

/-- The `struct spt_entry` of vm/page.h (the hash element is the membership of
the entry's address in the owner's table). -/
@[ext]
structure spt_entry where
  type : spte_type
  upage : Nat
  frame : Option Nat
  file : Nat
  ofs : Int
  writable : Bool
  page_read_bytes : Nat
  page_zero_bytes : Nat
  pinned : Bool
  is_in_swap : Bool
  idx : Nat
  deriving DecidableEq, Repr

/-- The `struct frame_table_entry` of vm/frame.h: the frame, the address of the
tenant's `spt_entry` and the owning thread. -/
structure frame_table_entry where
  frame : Nat
  spte : Nat
  t : Nat
  deriving DecidableEq, Repr

/-- A present page-table entry of a page directory. -/
structure pte where
  kpage : Nat
  writable : Bool
  dirty : Bool
  accessed : Bool
  deriving DecidableEq, Repr

/-- Ways in which a kernel function does not return to its caller. -/
inductive Fault where
  | panic
  | exit (status : Int)
  | null_deref
  | out_of_fuel
  deriving DecidableEq, Repr

/-- The state the virtual-memory core works on. -/
@[ext]
structure Kernel where
  /-- The running thread, `thread_current ()`. -/
  cur : Nat
  /-- The page directory of each thread, by page address. -/
  pagedir : Nat → Nat → Option pte
  /-- The elements of each thread's `supp_page_table` (entry addresses). -/
  supp_page_table : Nat → List Nat
  /-- The `malloc` heap holding the `spt_entry` blocks: what the kernel code
  last stored in each block. -/
  heap : Nat → spt_entry
  /-- The address the next `malloc` returns. -/
  brk : Nat
  /-- The list `frame_table` of vm/frame.c. -/
  frame_table : List frame_table_entry
  /-- The free pages of the user pool. -/
  pool : List Nat
  /-- The bitmap `swap_table` of vm/swap.c; `none` when there is no swap disk. -/
  swap_table : Option (List Bool)
  /-- The sectors of the swap disk: sector, byte offset, byte. -/
  swap_disk : Nat → Nat → Nat
  /-- Kernel virtual memory, byte by byte. -/
  mem : Nat → Nat
  /-- The length of each open file, by `struct file *`. -/
  file_len : Nat → Nat
  /-- The bytes of each open file: file, offset, byte. -/
  file_data : Nat → Nat → Nat
  /-- The position of each open file. -/
  file_pos : Nat → Nat
  /-- The blocks that `free` has released; the allocator has overwritten their
  bytes with 0xcc. -/
  freed : Nat → Bool := fun _ => false
  /-- The pages (thread, page address) at which installing a mapping fails:
  the page directory cannot get memory for the page table. -/
  install_fails : Nat → Nat → Bool := fun _ _ => false

/-! ## Swap store (vm/swap.c) -/

/-- Modelled from the spec: the scan of the bitmap library for the first clear
bit; `i` is the index of the head of the list, `none` when every bit is set. -/
def bitmap_scan : List Bool → Nat → Option Nat
  | [], _ => none
  | b :: bs, i => if b = false then some i else bitmap_scan bs (i + 1)

/-- Modelled from the spec: `bitmap_scan_and_flip (b, 0, 1, false)` of the
bitmap library, which is not among the sources: find the first clear bit, set
it and return its index, or return `BITMAP_ERROR` and change nothing. -/
def bitmap_scan_and_flip (b : List Bool) : Nat × List Bool :=
  match bitmap_scan b 0 with
  | some i => (i, b.set i true)
  | none => (BITMAP_ERROR, b)

/-- Modelled from the spec: `bitmap_reset (b, idx)` of the bitmap library, which
clears one bit. -/
def bitmap_reset (b : List Bool) (idx : Nat) : List Bool := b.set idx false

/-- Modelled from the spec: `disk_write (d, sec, buf)` of the disk driver, which
copies one sector from memory to the disk. -/
def disk_write (d : Nat → Nat → Nat) (sec buf : Nat) (mem : Nat → Nat) :
    Nat → Nat → Nat :=
  fun s o => if s = sec ∧ o < DISK_SECTOR_SIZE then mem (buf + o) else d s o

/-- Modelled from the spec: `disk_read (d, sec, buf)` of the disk driver, which
copies one sector from the disk into memory. -/
def disk_read (d : Nat → Nat → Nat) (sec buf : Nat) (mem : Nat → Nat) :
    Nat → Nat :=
  fun a => if buf ≤ a ∧ a < buf + DISK_SECTOR_SIZE then d sec (a - buf) else mem a

/-- The address held in a frame pointer; `NULL` is address 0. -/
def frame_addr (f : Option Nat) : Nat := f.getD 0

/-- The sector loop of `swap_out`: sectors `i .. SECTORS_PER_PAGE - 1` of slot
`idx` are written from the frame (`n` counts the sectors still to write). -/
def swap_out_sectors (idx frame : Nat) (mem : Nat → Nat) :
    Nat → Nat → (Nat → Nat → Nat) → (Nat → Nat → Nat)
  | 0, _, d => d
  | n + 1, i, d =>
    swap_out_sectors idx frame mem n (i + 1)
      (disk_write d (idx * SECTORS_PER_PAGE + i) (frame + i * DISK_SECTOR_SIZE) mem)

/-- The function `swap_out`: the slot index (or `BITMAP_ERROR`) and the new
state. -/
def swap_out (spte : spt_entry) (k : Kernel) : Nat × Kernel :=
  match k.swap_table with
  | some b =>
    let r := bitmap_scan_and_flip b
    let idx := r.1
    if idx ≠ BITMAP_ERROR then
      (idx, { k with
        swap_table := some r.2
        swap_disk := swap_out_sectors idx (frame_addr spte.frame) k.mem
          SECTORS_PER_PAGE 0 k.swap_disk })
    else (idx, { k with swap_table := some r.2 })
  | none => (BITMAP_ERROR, k)

/-- The sector loop of `swap_in`: sectors `i .. SECTORS_PER_PAGE - 1` of slot
`idx` are read into the frame. -/
def swap_in_sectors (idx frame : Nat) (d : Nat → Nat → Nat) :
    Nat → Nat → (Nat → Nat) → (Nat → Nat)
  | 0, _, m => m
  | n + 1, i, m =>
    swap_in_sectors idx frame d n (i + 1)
      (disk_read d (idx * SECTORS_PER_PAGE + i) (frame + i * DISK_SECTOR_SIZE) m)

/-- The function `swap_in`. -/
def swap_in (spte : spt_entry) (k : Kernel) : Kernel :=
  match k.swap_table with
  | some b =>
    let idx := spte.idx
    { k with
      mem := swap_in_sectors idx (frame_addr spte.frame) k.swap_disk
        SECTORS_PER_PAGE 0 k.mem
      swap_table := some (bitmap_reset b idx) }
  | none => k

/-! ## Page directories, files and the user pool (host-kernel interfaces) -/

/-- Modelled from the spec: `pagedir_get_page`, the kernel address a user
address is mapped to, from userprog/pagedir.c, which is not among the
sources. -/
def pagedir_get_page (k : Kernel) (t va : Nat) : Option Nat :=
  (k.pagedir t (pg_round_down va)).map (fun e => e.kpage + pg_ofs va)

/-- Modelled from the spec: `pagedir_is_dirty`, the dirty bit of a page in a
page directory (false when the page is not mapped). -/
def pagedir_is_dirty (k : Kernel) (t va : Nat) : Bool :=
  match k.pagedir t (pg_round_down va) with
  | some e => e.dirty
  | none => false

/-- Modelled from the spec: `pagedir_is_accessed`, the accessed bit of a page
in a page directory (false when the page is not mapped). -/
def pagedir_is_accessed (k : Kernel) (t va : Nat) : Bool :=
  match k.pagedir t (pg_round_down va) with
  | some e => e.accessed
  | none => false

/-- Replace the page-table entry of one page of one thread. -/
def pagedir_put (k : Kernel) (t page : Nat) (e : Option pte) : Kernel :=
  { k with pagedir := fun t1 p => if t1 = t ∧ p = page then e else k.pagedir t1 p }

/-- Modelled from the spec: `pagedir_set_dirty`. -/
def pagedir_set_dirty (k : Kernel) (t va : Nat) (d : Bool) : Kernel :=
  pagedir_put k t (pg_round_down va)
    ((k.pagedir t (pg_round_down va)).map (fun e => { e with dirty := d }))

/-- Modelled from the spec: `pagedir_set_accessed`. -/
def pagedir_set_accessed (k : Kernel) (t va : Nat) (a : Bool) : Kernel :=
  pagedir_put k t (pg_round_down va)
    ((k.pagedir t (pg_round_down va)).map (fun e => { e with accessed := a }))

/-- Modelled from the spec: `pagedir_clear_page`, which removes the mapping of
a page. -/
def pagedir_clear_page (k : Kernel) (t va : Nat) : Kernel :=
  pagedir_put k t (pg_round_down va) none

/-- Modelled from the spec: `install_page (upage, frame, writable) → bool` of
userprog/process.c, which is not among the sources: map the page in the
running thread's page directory.  The result is false, and nothing is changed,
when the page is mapped already and when the installation fails (`failed MMU
installation`: the page directory has no memory for the page table). -/
def install_page (upage kpage : Nat) (writable : Bool) (k : Kernel) : Bool × Kernel :=
  match k.pagedir k.cur (pg_round_down upage) with
  | some _ => (false, k)
  | none =>
    if k.install_fails k.cur (pg_round_down upage) then (false, k)
    else
      (true, pagedir_put k k.cur (pg_round_down upage)
        (some { kpage := kpage, writable := writable, dirty := false, accessed := false }))

/-- A byte of user memory as thread `t` sees it (0 where nothing is mapped). -/
def user_byte (k : Kernel) (t va : Nat) : Nat :=
  match pagedir_get_page k t va with
  | some a => k.mem a
  | none => 0

/-- Modelled from the spec: `file_length`. -/
def file_length (k : Kernel) (file : Nat) : Nat := k.file_len file

/-- Modelled from the spec: `file_write_at (file, buffer, size, ofs)` of the
file system, which is not among the sources: bytes are written up to the end
of the file (files do not grow) and their number is returned.  `src j` is byte
`j` of the buffer. -/
def file_write_at (k : Kernel) (file : Nat) (src : Nat → Nat) (size : Nat) (ofs : Int) :
    Nat × Kernel :=
  let n := if ofs < 0 then 0 else min size (file_length k file - ofs.toNat)
  (n, { k with file_data := fun f j =>
    if f = file ∧ ofs.toNat ≤ j ∧ j < ofs.toNat + n then src (j - ofs.toNat)
    else k.file_data f j })

/-- Modelled from the spec: `file_seek`. -/
def file_seek (k : Kernel) (file : Nat) (ofs : Int) : Kernel :=
  { k with file_pos := fun f => if f = file then ofs.toNat else k.file_pos f }

/-- Modelled from the spec: `file_read (file, buffer, size)`: bytes are read
from the file's position up to the end of the file into kernel memory at
`buf`, the position advances and the number of bytes read is returned. -/
def file_read (k : Kernel) (file buf size : Nat) : Nat × Kernel :=
  let pos := k.file_pos file
  let n := min size (file_length k file - pos)
  (n, { k with
    mem := fun a => if buf ≤ a ∧ a < buf + n then k.file_data file (pos + (a - buf))
      else k.mem a
    file_pos := fun f => if f = file then pos + n else k.file_pos f })

/-- The library call `memset (dst, 0, n)`. -/
def memset_zero (k : Kernel) (dst n : Nat) : Kernel :=
  { k with mem := fun a => if dst ≤ a ∧ a < dst + n then 0 else k.mem a }

/-- Modelled from the spec: `palloc_get_page (flags)` on the user pool
(`alloc_user_frame`): a free page, zeroed on `PAL_ZERO`, or `NULL`. -/
def palloc_get_page (flags : Nat) (k : Kernel) : Option Nat × Kernel :=
  match k.pool with
  | [] => (none, k)
  | f :: rest =>
    let k1 := { k with pool := rest }
    (some f, if flags &&& PAL_ZERO ≠ 0 then memset_zero k1 f PGSIZE else k1)

/-- Modelled from the spec: `palloc_free_page` (`free_user_frame`). -/
def palloc_free_page (frame : Nat) (k : Kernel) : Kernel :=
  { k with pool := frame :: k.pool }

/-! ## Supplemental page table: lookup and write-back (vm/page.c) -/

/-- Overwrite the `spt_entry` block at address `p`. -/
def heap_set (k : Kernel) (p : Nat) (e : spt_entry) : Kernel :=
  { k with heap := fun q => if q = p then e else k.heap q }

/-- The function `uvaddr_to_spt_entry`: the entry of the running thread's table
whose key is the page of `uvaddr`, or `NULL` (`hash_find` compares `upage`). -/
def uvaddr_to_spt_entry (k : Kernel) (uvaddr : Nat) : Option Nat :=
  (k.supp_page_table k.cur).find? (fun p => (k.heap p).upage == pg_round_down uvaddr)

/-- Modelled from the spec: `hash_insert` of the hash library, which adds the
element unless the table already holds one with an equal key (`cmp_spt` and
`supp_hashing` compare `upage`). -/
def hash_insert (k : Kernel) (t p : Nat) : Kernel :=
  if (k.supp_page_table t).any (fun q => (k.heap q).upage == (k.heap p).upage) then k
  else { k with supp_page_table := fun t1 =>
    if t1 = t then k.supp_page_table t ++ [p] else k.supp_page_table t1 }

/-- Modelled from the spec: `hash_delete` of the hash library, which removes
the element whose key equals that of `p`, if there is one. -/
def hash_delete (k : Kernel) (t p : Nat) : Kernel :=
  { k with supp_page_table := fun t1 =>
    if t1 = t then (k.supp_page_table t).eraseP (fun q => (k.heap q).upage == (k.heap p).upage)
    else k.supp_page_table t1 }

/-- The function `write_to_disk`: the test of the dirty bit and the source of
the bytes both go through the running thread, `thread_current ()`. -/
def write_to_disk (spte : Nat) (k : Kernel) : Bool × Kernel :=
  let e := k.heap spte
  if pagedir_is_dirty k k.cur e.upage then
    let r := file_write_at k e.file (fun j => user_byte k k.cur (e.upage + j))
      e.page_read_bytes e.ofs
    if r.1 ≠ e.page_read_bytes then (false, r.2) else (true, r.2)
  else (true, k)

/-! ## Frame table (vm/frame.c) -/

/-- First loop of `get_victim_frame`; `i` is the position of the head of the
list that is still to scan. -/
def get_victim_pass1 : List frame_table_entry → Nat → Kernel → Option Nat × Kernel
  | [], _, k => (none, k)
  | fte :: rest, i, k =>
    let spte := k.heap fte.spte
    let is_dirty := pagedir_is_dirty k fte.t spte.upage
    let is_accessed := pagedir_is_accessed k fte.t spte.upage
    if !spte.pinned then
      if spte.type ≠ spte_type.CODE then
        if is_dirty then
          let r := write_to_disk fte.spte k
          if r.1 then get_victim_pass1 rest (i + 1) (pagedir_set_dirty r.2 fte.t spte.upage false)
          else get_victim_pass1 rest (i + 1) r.2
        else if !is_accessed then (some i, k)
        else get_victim_pass1 rest (i + 1) k
      else
        if !is_dirty && !is_accessed then (some i, k)
        else get_victim_pass1 rest (i + 1) k
    else get_victim_pass1 rest (i + 1) k

/-- Second loop of `get_victim_frame`. -/
def get_victim_pass2 : List frame_table_entry → Nat → Kernel → Option Nat × Kernel
  | [], _, k => (none, k)
  | fte :: rest, i, k =>
    let spte := k.heap fte.spte
    let is_dirty := pagedir_is_dirty k fte.t spte.upage
    let is_accessed := pagedir_is_accessed k fte.t spte.upage
    if !spte.pinned then
      if !is_dirty && !is_accessed then (some i, k)
      else get_victim_pass2 rest (i + 1) (pagedir_set_accessed k fte.t spte.upage false)
    else get_victim_pass2 rest (i + 1) k

/-- Third loop of `get_victim_frame`. -/
def get_victim_pass3 : List frame_table_entry → Nat → Kernel → Option Nat
  | [], _, _ => none
  | fte :: rest, i, k =>
    if !(k.heap fte.spte).pinned then some i else get_victim_pass3 rest (i + 1) k

/-- The function `get_victim_frame`: the position of the victim in the frame
list, or `NULL`. -/
def get_victim_frame (k : Kernel) : Except Fault (Option Nat × Kernel) :=
  match get_victim_pass1 k.frame_table 0 k with
  | (some i, k1) => .ok (some i, k1)
  | (none, k1) =>
    match get_victim_pass2 k1.frame_table 0 k1 with
    | (some i, k2) => .ok (some i, k2)
    | (none, k2) =>
      if k2.frame_table.isEmpty then .error Fault.panic
      else .ok (get_victim_pass3 k2.frame_table 0 k2, k2)

/-- The function `clear_frame_entry`, for the entry `fte` at position `i`. -/
def clear_frame_entry (i : Nat) (fte : frame_table_entry) (k : Kernel) : Kernel :=
  let k1 := { k with frame_table := k.frame_table.eraseIdx i }
  let k2 := pagedir_clear_page k1 fte.t (k1.heap fte.spte).upage
  palloc_free_page fte.frame k2

/-- The `CODE` case of `evict_frame`, which the `FILE` case falls through to. -/
def evict_frame_code (i : Nat) (fte : frame_table_entry) (k : Kernel) :
    Except Fault (Bool × Kernel) :=
  if (k.heap fte.spte).frame = none then .error Fault.panic
  else
    let r := swap_out (k.heap fte.spte) k
    if r.1 = BITMAP_ERROR then .error Fault.panic
    else
      let k1 := heap_set r.2 fte.spte
        { r.2.heap fte.spte with idx := r.1, is_in_swap := true, frame := none }
      .ok (true, clear_frame_entry i fte k1)

/-- The function `evict_frame`, for the entry at position `i` of the frame
list. -/
def evict_frame (i : Nat) (k : Kernel) : Except Fault (Bool × Kernel) :=
  match k.frame_table.get? i with
  | none => .error Fault.null_deref
  | some fte =>
    let spte := k.heap fte.spte
    match spte.type with
    | spte_type.MMAP =>
      if pagedir_is_dirty k fte.t spte.upage then
        let r := write_to_disk fte.spte k
        if !r.1 then .error Fault.panic
        else
          .ok (true, clear_frame_entry i fte
            (heap_set r.2 fte.spte { r.2.heap fte.spte with frame := none }))
      else
        .ok (true, clear_frame_entry i fte (heap_set k fte.spte { spte with frame := none }))
    | spte_type.FILE =>
      evict_frame_code i fte (heap_set k fte.spte { spte with type := spte_type.CODE })
    | spte_type.CODE => evict_frame_code i fte k

/-- The eviction loop of `frame_alloc`, entered when the pool is empty. -/
def frame_alloc_loop (flags : Nat) : Nat → Kernel → Except Fault (Option Nat × Kernel)
  | 0, _ => .error Fault.out_of_fuel
  | fuel + 1, k =>
    if k.frame_table.isEmpty then .error Fault.panic
    else
      match get_victim_frame k with
      | .error e => .error e
      | .ok (none, _) => .error Fault.panic
      | .ok (some i, k1) =>
        match k1.frame_table.get? i with
        | none => .error Fault.null_deref
        | some fte =>
          if (k1.heap fte.spte).frame = none then .error Fault.panic
          else
            match evict_frame i k1 with
            | .error e => .error e
            | .ok (false, _) => .error Fault.panic
            | .ok (true, k2) =>
              match palloc_get_page flags k2 with
              | (some f, k3) => .ok (some f, k3)
              | (none, k3) => frame_alloc_loop flags fuel k3

/-- The function `frame_alloc`.  In C, `flags & PAL_USER == 0` is
`flags & (PAL_USER == 0)`.  Every turn of the loop removes one entry of the
frame list, so the list's length plus one bounds the number of turns. -/
def frame_alloc (flags : Nat) (k : Kernel) : Except Fault (Option Nat × Kernel) :=
  if flags &&& (if PAL_USER = 0 then 1 else 0) ≠ 0 then .ok (none, k)
  else
    match palloc_get_page flags k with
    | (some f, k1) => .ok (some f, k1)
    | (none, k1) => frame_alloc_loop flags (k1.frame_table.length + 1) k1

/-- The function `frame_table_add` (with `fill_table_details`): append an entry
owned by the running thread. -/
def frame_table_add (frame spte : Nat) (k : Kernel) : Kernel :=
  { k with frame_table := k.frame_table ++ [{ frame := frame, spte := spte, t := k.cur }] }

/-- The function `retrieve_frame_of_page`. -/
def retrieve_frame_of_page (flags : Nat) (spte : Option Nat) (k : Kernel) :
    Except Fault (Option Nat × Kernel) :=
  match spte with
  | none => .ok (none, k)
  | some p =>
    if flags &&& (if PAL_USER = 0 then 1 else 0) ≠ 0 then .ok (none, k)
    else
      match frame_alloc flags k with
      | .error e => .error e
      | .ok (some f, k1) => .ok (some f, frame_table_add f p k1)
      | .ok (none, _) => .error Fault.panic

/-- The function `free_frame`: drop the first entry of the frame list that
holds `frame` and give the page back to the pool. -/
def free_frame (frame : Nat) (k : Kernel) : Kernel :=
  palloc_free_page frame
    { k with frame_table := k.frame_table.eraseP (fun fte => fte.frame == frame) }

/-! ## Supplemental page table: creation, loading and destruction (vm/page.c) -/

/-- The function `create_spte`: a fresh block from `malloc` with five of its
fields initialised; the other fields keep what the block held. -/
def create_spte (k : Kernel) : Nat × Kernel :=
  let p := k.brk
  (p, { heap_set k p { k.heap p with
          upage := 0, frame := none, is_in_swap := false, idx := BITMAP_ERROR,
          pinned := false } with brk := p + 1 })

/-- The function `spte_details`. -/
def spte_details (k : Kernel) (spte upage f : Nat) (ofs : Int)
    (page_zero_bytes page_read_bytes : Nat) : Kernel :=
  heap_set k spte { k.heap spte with
    upage := upage, file := f, ofs := ofs, writable := true,
    page_zero_bytes := page_zero_bytes, page_read_bytes := page_read_bytes }

/-- The function `create_spte_code`. -/
def create_spte_code (upage : Nat) (k : Kernel) : Nat × Kernel :=
  let r := create_spte k
  let k1 := heap_set r.2 r.1 { r.2.heap r.1 with upage := upage, type := spte_type.CODE }
  (r.1, hash_insert k1 k1.cur r.1)

/-- Modelled from the spec: `free` of the kernel allocator (threads/malloc.c),
which is not among the sources: the block is released.  The allocator fills a
released block with the byte 0xcc. -/
def free (k : Kernel) (p : Nat) : Kernel :=
  { k with freed := fun q => if q = p then true else k.freed q }

/-- The value of `p->file` for a pointer `p` the code has kept across a call
of `free`: the field of the block, or the fill pattern 0xcccccccc if the block
has been released. -/
def deref_file (k : Kernel) (p : Nat) : Nat :=
  if k.freed p then 0xCCCCCCCC else (k.heap p).file

/-- The function `free_spte`. -/
def free_spte (spte : Option Nat) (k : Kernel) : Kernel :=
  match spte with
  | none => k
  | some p =>
    let e := k.heap p
    let k1 :=
      match e.frame with
      | some frame =>
        let k2 :=
          if e.type = spte_type.MMAP ∨ (e.type = spte_type.FILE ∧ e.writable = true) then
            (write_to_disk p k).2
          else k
        free_frame frame (pagedir_clear_page k2 k2.cur e.upage)
      | none => k
    free (hash_delete k1 k1.cur p) p

/-- The loop of `free_spte_mmap`.  The entry `spte` is the one the table holds
for the page.  `first_spte->file` is read again in every turn through the
pointer the function was given; once a turn has handed that block to
`free_spte`, the read is from a released block. -/
def free_spte_mmap_loop (first_spte : Nat) : Nat → Int → Nat → Kernel → Except Fault Kernel
  | 0, _, _, _ => .error Fault.out_of_fuel
  | fuel + 1, read_bytes, upage, k =>
    if read_bytes > 0 then
      match uvaddr_to_spt_entry k upage with
      | none => .error Fault.null_deref
      | some p =>
        let read_bytes1 := to_int32 (read_bytes - (k.heap p).page_read_bytes)
        let k1 :=
          if (k.heap p).file = deref_file k first_spte then free_spte (some p) k else k
        free_spte_mmap_loop first_spte fuel read_bytes1 ((upage + PGSIZE) % WORD) k1
    else .ok k

/-- The function `free_spte_mmap`; `fuel` bounds the turns of its loop. -/
def free_spte_mmap (fuel : Nat) (first_spte : Option Nat) (k : Kernel) : Except Fault Kernel :=
  match first_spte with
  | none => .ok k
  | some fp =>
    free_spte_mmap_loop fp fuel (file_length k (k.heap fp).file) (k.heap fp).upage k

/-- The loop of `create_spte_mmap`; `fuel0` is the fuel of the rollback. -/
def create_spte_mmap_loop (fuel0 f : Nat) :
    Nat → Int → Int → Nat → Nat → Option Nat → Kernel → Except Fault (Option Nat × Kernel)
  | 0, _, _, _, _, _, _ => .error Fault.out_of_fuel
  | fuel + 1, read_bytes, ofs, upage, i, first_spte, k =>
    if read_bytes > 0 then
      let page_read_bytes : Nat := if read_bytes < PGSIZE then read_bytes.toNat else PGSIZE
      let page_zero_bytes : Nat := PGSIZE - page_read_bytes
      match uvaddr_to_spt_entry k upage with
      | some _ =>
        match free_spte_mmap fuel0 first_spte k with
        | .error e => .error e
        | .ok k1 => .ok (none, k1)
      | none =>
        let r := create_spte k
        let k1 := heap_set r.2 r.1 { r.2.heap r.1 with type := spte_type.MMAP }
        let k2 := spte_details k1 r.1 upage f ofs page_zero_bytes page_read_bytes
        let k3 := hash_insert k2 k2.cur r.1
        create_spte_mmap_loop fuel0 f fuel
          (to_int32 (read_bytes - page_read_bytes)) (to_int32 (ofs + page_read_bytes))
          ((upage + PGSIZE) % WORD) (if i = 0 then i + 1 else i)
          (if i = 0 then some r.1 else first_spte) k3
    else .ok (first_spte, k)

/-- The function `create_spte_mmap`; `fuel` bounds the turns of each loop. -/
def create_spte_mmap (fuel f : Nat) (read_bytes : Int) (upage : Nat) (k : Kernel) :
    Except Fault (Option Nat × Kernel) :=
  create_spte_mmap_loop fuel f fuel read_bytes 0 upage 0 none k

/-- The loop of `file_supp_creation`.  `read_bytes` and `zero_bytes` are
`uint32_t`, `ofs` is an `int` and `upage` a pointer.  The result of
`hash_insert` is not looked at. -/
def file_supp_creation_loop (file : Nat) (writable : Bool) :
    Nat → Int → Nat → Nat → Nat → Kernel → Except Fault (Bool × Kernel)
  | 0, _, _, _, _, _ => .error Fault.out_of_fuel
  | fuel + 1, ofs, upage, read_bytes, zero_bytes, k =>
    if zero_bytes > 0 ∨ read_bytes > 0 then
      let page_read_bytes : Nat := if read_bytes < PGSIZE then read_bytes else PGSIZE
      let page_zero_bytes : Nat := PGSIZE - page_read_bytes
      let r := create_spte k
      let k1 := heap_set r.2 r.1 { r.2.heap r.1 with type := spte_type.FILE }
      let k2 := spte_details k1 r.1 upage file ofs page_zero_bytes page_read_bytes
      let k3 := heap_set k2 r.1 { k2.heap r.1 with writable := writable }
      file_supp_creation_loop file writable fuel
        (to_int32 (ofs + page_read_bytes)) ((upage + PGSIZE) % WORD)
        (read_bytes - page_read_bytes) ((zero_bytes + WORD - page_zero_bytes) % WORD)
        (hash_insert k3 k3.cur r.1)
    else .ok (true, k)

/-- The function `file_supp_creation`; `fuel` bounds the turns of its loop and
a failed `ASSERT` is a panic. -/
def file_supp_creation (fuel file : Nat) (ofs : Int) (upage read_bytes zero_bytes : Nat)
    (writable : Bool) (k : Kernel) : Except Fault (Bool × Kernel) :=
  if ofs % (PGSIZE : Int) = 0 ∧ pg_ofs upage = 0 ∧
      ((read_bytes + zero_bytes) % WORD) % PGSIZE = 0 then
    file_supp_creation_loop file writable fuel ofs upage read_bytes zero_bytes k
  else .error Fault.panic

/-- The traversal of `hash_destroy`: every element is taken out of the table
and handed to `free_spte_elem`. -/
def destroy_spt_loop (t : Nat) : Nat → Kernel → Kernel
  | 0, k => k
  | fuel + 1, k =>
    match k.supp_page_table t with
    | [] => k
    | p :: rest =>
      destroy_spt_loop t fuel
        (free_spte (some p)
          { k with supp_page_table := fun t1 => if t1 = t then rest else k.supp_page_table t1 })

/-- The function `destroy_spt`, on the table of thread `t`. -/
def destroy_spt (t : Nat) (k : Kernel) : Kernel :=
  destroy_spt_loop t (k.supp_page_table t).length k

/-- The function `install_load_file`. -/
def install_load_file (spte : Nat) (k : Kernel) : Except Fault (Bool × Kernel) :=
  match retrieve_frame_of_page PAL_USER (some spte) k with
  | .error e => .error e
  | .ok (none, _) => .error Fault.panic
  | .ok (some frame, k1) =>
    let e := k1.heap spte
    let r := file_read (file_seek k1 e.file e.ofs) e.file frame e.page_read_bytes
    if (r.1 : Int) ≠ to_int32 e.page_read_bytes then .ok (false, free_frame frame r.2)
    else
      let k2 := memset_zero r.2 (frame + e.page_read_bytes) e.page_zero_bytes
      let r2 := install_page e.upage frame e.writable k2
      if !r2.1 then .ok (false, free_frame frame r2.2)
      else .ok (true, heap_set r2.2 spte { r2.2.heap spte with frame := some frame })

/-- The function `install_load_mmap`. -/
def install_load_mmap (spte : Nat) (k : Kernel) : Except Fault (Bool × Kernel) :=
  install_load_file spte k

/-- The function `install_load_swap`. -/
def install_load_swap (spte : Nat) (k : Kernel) : Except Fault (Bool × Kernel) :=
  match retrieve_frame_of_page (PAL_USER ||| PAL_ZERO) (some spte) k with
  | .error e => .error e
  | .ok (none, _) => .error Fault.panic
  | .ok (some frame, k1) =>
    let r := install_page (k1.heap spte).upage frame true k1
    if r.1 then
      let k2 := heap_set r.2 spte { r.2.heap spte with frame := some frame }
      if (k2.heap spte).is_in_swap then
        let k3 := swap_in (k2.heap spte) k2
        .ok (true, heap_set k3 spte
          { k3.heap spte with is_in_swap := false, idx := BITMAP_ERROR })
      else .ok (true, k2)
    else .ok (false, free_frame frame r.2)

/-- The function `install_load_page`. -/
def install_load_page (spte : Nat) (k : Kernel) : Except Fault (Bool × Kernel) :=
  match (k.heap spte).type with
  | spte_type.FILE => install_load_file spte k
  | spte_type.MMAP => install_load_mmap spte k
  | spte_type.CODE => install_load_swap spte k

/-- The function `stack_increase`. -/
def stack_increase (uaddr : Nat) (pinned : Bool) (k : Kernel) : Except Fault (Bool × Kernel) :=
  let upage := pg_round_down uaddr
  if (PHYS_BASE + WORD - uaddr) % WORD > MAX_STACK_SIZE then .ok (false, k)
  else
    let r := create_spte_code upage k
    install_load_page r.1 (heap_set r.2 r.1 { r.2.heap r.1 with pinned := pinned })

/-! ## Validation of user pointers (userprog/syscall.c) -/

/-- The function `valid_up`; `exit (NULL)` ends the process with status -1. -/
def valid_up (esp ptr : Nat) (k : Kernel) : Except Fault Kernel :=
  if ptr = 0 ∨ is_user_vaddr ptr = false then .error (Fault.exit (-1))
  else
    match uvaddr_to_spt_entry k ptr with
    | some p =>
      let k1 := heap_set k p { k.heap p with pinned := true }
      if pagedir_get_page k1 k1.cur ptr = none then
        match install_load_page p k1 with
        | .error e => .error e
        | .ok (false, _) => .error (Fault.exit (-1))
        | .ok (true, k2) => .ok k2
      else .ok k1
    | none =>
      if pagedir_get_page k k.cur ptr = none then
        if ptr ≥ (esp + WORD - STACK_HEURISTIC) % WORD then
          match stack_increase ptr true k with
          | .error e => .error e
          | .ok (false, _) => .error (Fault.exit (-1))
          | .ok (true, k1) => .ok k1
        else .error (Fault.exit (-1))
      else .ok k

/-- The `for` loop of `validate`; the counter `i` is kept as a 32-bit
pattern. -/
def validate_loop (esp ptr size : Nat) : Nat → Nat → Kernel → Except Fault Kernel
  | 0, _, _ => .error Fault.out_of_fuel
  | fuel + 1, i, k =>
    if i < size then
      match valid_up esp ((ptr + i) % WORD) k with
      | .error e => .error e
      | .ok k1 => validate_loop esp ptr size fuel ((i + PGSIZE) % WORD) k1
    else .ok k

/-- The function `validate`.  A loop that ends does so before its counter
wraps, within `WORD / PGSIZE` turns. -/
def validate (esp ptr size : Nat) (k : Kernel) : Except Fault Kernel :=
  match valid_up esp ptr k with
  | .error e => .error e
  | .ok k1 =>
    match (if size ≠ 1 then valid_up esp ((ptr + size + WORD - 1) % WORD) k1 else .ok k1) with
    | .error e => .error e
    | .ok k2 => validate_loop esp ptr size (WORD / PGSIZE + 1) PGSIZE k2

/-- The `for` loop of `unpin_buffer`. -/
def unpin_buffer_loop (buffer size : Nat) : Nat → Nat → Kernel → Except Fault Kernel
  | 0, _, _ => .error Fault.out_of_fuel
  | fuel + 1, i, k =>
    if i < size then
      let k1 :=
        match uvaddr_to_spt_entry k ((buffer + i) % WORD) with
        | some p => heap_set k p { k.heap p with pinned := false }
        | none => k
      unpin_buffer_loop buffer size fuel ((i + PGSIZE) % WORD) k1
    else .ok k

/-- The function `unpin_buffer`. -/
def unpin_buffer (buffer size : Nat) (k : Kernel) : Except Fault Kernel :=
  unpin_buffer_loop buffer size (WORD / PGSIZE + 1) 0 k

/-! ## Invariants and auxiliary definitions of the proofs -/

/-- Every entry of the frame list points to an entry of its owner's table. -/
def ft_wf (k : Kernel) : Prop :=
  ∀ fte, fte ∈ k.frame_table → fte.spte ∈ k.supp_page_table fte.t

/-- Well-formed tables: the frame list points into the tables, keys are unique
within a table and page-aligned, and every block of a table was allocated. -/
def vm_wf (k : Kernel) : Prop :=
  ft_wf k ∧
  (∀ t p q, p ∈ k.supp_page_table t → q ∈ k.supp_page_table t →
    (k.heap p).upage = (k.heap q).upage → p = q) ∧
  (∀ t p, p ∈ k.supp_page_table t → p < k.brk) ∧
  (∀ t p, p ∈ k.supp_page_table t → (k.heap p).upage % PGSIZE = 0)

/-- Every entry of thread `t` for `page` is pinned and the page is mapped. -/
def pinned_resident (k : Kernel) (t page : Nat) : Prop :=
  ∀ p, p ∈ k.supp_page_table t → (k.heap p).upage = page →
    (k.heap p).pinned = true ∧ (k.pagedir t page).isSome = true

/-- A step that leaves the tables, the keys, the pinned flags and the frame
list as they are and keeps every mapped page mapped. -/
def same_core (k k1 : Kernel) : Prop :=
  k1.cur = k.cur ∧ k1.supp_page_table = k.supp_page_table ∧ k1.brk = k.brk ∧
  (∀ p, (k1.heap p).upage = (k.heap p).upage ∧ (k1.heap p).pinned = (k.heap p).pinned) ∧
  k1.frame_table = k.frame_table ∧
  (∀ t page, (k1.pagedir t page).isSome = (k.pagedir t page).isSome)

/-- A step of the loading path: tables, keys and pinned flags stay, a page
loses its mapping only if an unpinned entry of its owner has it as key, and the
frame list keeps pointing into the tables. -/
def evolves (k k1 : Kernel) : Prop :=
  k1.cur = k.cur ∧ k1.supp_page_table = k.supp_page_table ∧ k1.brk = k.brk ∧
  (∀ p, (k1.heap p).upage = (k.heap p).upage ∧ (k1.heap p).pinned = (k.heap p).pinned) ∧
  (∀ t page, (k.pagedir t page).isSome = true → (k1.pagedir t page).isSome = true ∨
    ∃ p, p ∈ k.supp_page_table t ∧ pg_round_down (k.heap p).upage = page ∧
      (k.heap p).pinned = false) ∧
  (∀ fte, fte ∈ k1.frame_table → fte.spte ∈ k.supp_page_table fte.t)

/-- The addresses the `for` loop of `validate` passes to `valid_up`. -/
def validate_trace_loop (ptr size : Nat) : Nat → Nat → List Nat
  | 0, _ => []
  | fuel + 1, i =>
    if i < size then
      ((ptr + i) % WORD) :: validate_trace_loop ptr size fuel ((i + PGSIZE) % WORD)
    else []

/-- The addresses `validate (esp, ptr, size)` passes to `valid_up`, in order. -/
def validate_trace (ptr size : Nat) : List Nat :=
  ptr :: ((if size ≠ 1 then [(ptr + size + WORD - 1) % WORD] else []) ++
    validate_trace_loop ptr size (WORD / PGSIZE + 1) PGSIZE)

/-- `valid_up` applied to the addresses of a list, one after the other. -/
def valid_up_all (esp : Nat) : List Nat → Kernel → Except Fault Kernel
  | [], k => .ok k
  | a :: rest, k =>
    match valid_up esp a k with
    | .error e => .error e
    | .ok k1 => valid_up_all esp rest k1

/-- Bytes of a mapping of length `L` that lie at or after page `j`. -/
def mmap_rest (L j : Nat) : Nat := L - j * PGSIZE

/-- Address of page `j` of a mapping that starts at `upage`. -/
def mmap_page (upage j : Nat) : Nat := (upage + j * PGSIZE) % WORD

/-- The entry `create_spte_mmap` writes into block `brk + m` for page `m` of a
mapping of `L` bytes of file `f` at `upage`. -/
def mmap_entry (k : Kernel) (f L upage m : Nat) : spt_entry :=
  { k.heap (k.brk + m) with
    type := spte_type.MMAP
    upage := mmap_page upage m
    frame := none
    file := f
    ofs := ((L - mmap_rest L m : Nat) : Int)
    writable := true
    page_read_bytes := min (mmap_rest L m) PGSIZE
    page_zero_bytes := PGSIZE - min (mmap_rest L m) PGSIZE
    pinned := false
    is_in_swap := false
    idx := BITMAP_ERROR }

/-- The state in which the blocks of pages `0 .. j - 1` of a mapping are
written and the entries of pages `i .. j - 1` are in the running thread's
table. -/
def mmap_state (k : Kernel) (f L upage i j : Nat) : Kernel :=
  { k with
    heap := fun p =>
      if k.brk ≤ p ∧ p < k.brk + j then mmap_entry k f L upage (p - k.brk) else k.heap p
    brk := k.brk + j
    supp_page_table := fun t =>
      if t = k.cur then k.supp_page_table k.cur ++ List.range' (k.brk + i) (j - i)
      else k.supp_page_table t }

/-- The state after the body of the loop of `create_spte_mmap` wrote the block
of page `j`, before `hash_insert`. -/
def mmap_written (k : Kernel) (f L upage j : Nat) : Kernel :=
  spte_details
    (heap_set (create_spte (mmap_state k f L upage 0 j)).2
      (create_spte (mmap_state k f L upage 0 j)).1
      { (create_spte (mmap_state k f L upage 0 j)).2.heap
          (create_spte (mmap_state k f L upage 0 j)).1 with type := spte_type.MMAP })
    (create_spte (mmap_state k f L upage 0 j)).1 (mmap_page upage j) f
    ((L - mmap_rest L j : Nat) : Int) (PGSIZE - min (mmap_rest L j) PGSIZE)
    (min (mmap_rest L j) PGSIZE)

/-- The state of a run that ended without fault. -/
def state_of {α : Type} (r : Except Fault (α × Kernel)) (d : Kernel) : Kernel :=
  match r with
  | .ok (_, k) => k
  | .error _ => d

/-- The state a run that ended without fault returns. -/
def kernel_of (r : Except Fault Kernel) (d : Kernel) : Kernel :=
  match r with
  | .ok k => k
  | .error _ => d

/-- The entry `file_supp_creation` writes for page `j` of a segment. -/
def file_entry (file : Nat) (ofs : Int) (upage read_bytes : Nat) (writable : Bool)
    (j : Nat) : spt_entry :=
  { type := spte_type.FILE
    upage := (upage + j * PGSIZE) % WORD
    frame := none
    file := file
    ofs := to_int32 (ofs + (min (j * PGSIZE) read_bytes : Nat))
    writable := writable
    page_read_bytes := min (read_bytes - j * PGSIZE) PGSIZE
    page_zero_bytes := PGSIZE - min (read_bytes - j * PGSIZE) PGSIZE
    pinned := false
    is_in_swap := false
    idx := BITMAP_ERROR }

/-- The state after the body of the loop of `file_supp_creation` wrote the new
block, before `hash_insert`. -/
def file_written (file : Nat) (writable : Bool) (ofs : Int) (upage read_bytes : Nat)
    (k : Kernel) : Kernel :=
  heap_set
    (spte_details
      (heap_set (create_spte k).2 (create_spte k).1
        { (create_spte k).2.heap (create_spte k).1 with type := spte_type.FILE })
      (create_spte k).1 upage file ofs
      (PGSIZE - (if read_bytes < PGSIZE then read_bytes else PGSIZE))
      (if read_bytes < PGSIZE then read_bytes else PGSIZE))
    (create_spte k).1
    { (spte_details
        (heap_set (create_spte k).2 (create_spte k).1
          { (create_spte k).2.heap (create_spte k).1 with type := spte_type.FILE })
        (create_spte k).1 upage file ofs
        (PGSIZE - (if read_bytes < PGSIZE then read_bytes else PGSIZE))
        (if read_bytes < PGSIZE then read_bytes else PGSIZE)).heap (create_spte k).1
      with writable := writable }

/-- The state after one turn of the loop of `file_supp_creation`. -/
def file_step (file : Nat) (writable : Bool) (ofs : Int) (upage read_bytes : Nat)
    (k : Kernel) : Kernel :=
  hash_insert (file_written file writable ofs upage read_bytes k) k.cur k.brk

/-- The state after one turn of the loop of `create_spte_mmap` that found no
entry at `upage`. -/
def mmap_step (f : Nat) (read_bytes ofs : Int) (upage : Nat) (k : Kernel) : Kernel :=
  hash_insert
    (spte_details
      (heap_set (create_spte k).2 (create_spte k).1
        { (create_spte k).2.heap (create_spte k).1 with type := spte_type.MMAP })
      (create_spte k).1 upage f ofs
      (PGSIZE - (if read_bytes < PGSIZE then read_bytes.toNat else PGSIZE))
      (if read_bytes < PGSIZE then read_bytes.toNat else PGSIZE))
    k.cur k.brk

/-- What an eviction does to the block of its victim: the frame is dropped,
and a victim that is not a memory-mapped page becomes a swapped `CODE` page. -/
def evicted (e e1 : spt_entry) : Prop :=
  e.pinned = false ∧ e.frame ≠ none ∧
  ((e.type = spte_type.MMAP ∧ e1 = { e with frame := none }) ∨
    (e.type ≠ spte_type.MMAP ∧
      ∃ i, e1 = { e with type := spte_type.CODE, idx := i, is_in_swap := true, frame := none }))

/-- A step of the frame allocator: the tables stay, a block is left alone or is
that of an evicted victim, and no page gains a mapping. -/
def alloc_step (k k1 : Kernel) : Prop :=
  k1.cur = k.cur ∧ k1.supp_page_table = k.supp_page_table ∧ k1.brk = k.brk ∧
  (∀ p, k1.heap p = k.heap p ∨ evicted (k.heap p) (k1.heap p)) ∧
  (∀ t pg, k.pagedir t pg = none → k1.pagedir t pg = none)

/-- Two states with the same heap, running thread, tables, allocation mark and
page directories. -/
def same_vm (k k1 : Kernel) : Prop :=
  k1.heap = k.heap ∧ k1.cur = k.cur ∧ k1.supp_page_table = k.supp_page_table ∧
  k1.brk = k.brk ∧ k1.pagedir = k.pagedir

/-- The test under which the first loop of `get_victim_frame` returns a frame:
the entry is not pinned and the dirty and accessed bits of its page in the
owner's page directory are clear. -/
def pass1_victim (k : Kernel) (fte : frame_table_entry) : Bool :=
  !(k.heap fte.spte).pinned && !pagedir_is_dirty k fte.t (k.heap fte.spte).upage &&
    !pagedir_is_accessed k fte.t (k.heap fte.spte).upage

/-- No two entries of the list hold the same page of the same thread. -/
def frames_distinct (k : Kernel) (l : List frame_table_entry) : Prop :=
  l.Pairwise (fun a b =>
    ¬ (a.t = b.t ∧ pg_round_down (k.heap a.spte).upage = pg_round_down (k.heap b.spte).upage))

/-- The state in which the first loop of `get_victim_frame` goes on after an
unpinned dirty frame that is not a `CODE` frame. -/
def pass1_written (k : Kernel) (fte : frame_table_entry) : Kernel :=
  if (write_to_disk fte.spte k).1 then
    pagedir_set_dirty (write_to_disk fte.spte k).2 fte.t (k.heap fte.spte).upage false
  else (write_to_disk fte.spte k).2

/-- The predicate of the specification on swapped entries: an entry of a table
that is in swap is a `CODE` entry without frame. -/
def swap_inv (k : Kernel) : Prop :=
  ∀ t p, p ∈ k.supp_page_table t → (k.heap p).is_in_swap = true →
    (k.heap p).type = spte_type.CODE ∧ (k.heap p).frame = none

/-! ## Concrete machines used to evaluate the model -/

/-- An empty machine: no thread has pages, the pool and the frame list are
empty and there is no swap disk. -/
def k_empty : Kernel :=
  { cur := 0
    pagedir := fun _ _ => none
    supp_page_table := fun _ => []
    heap := fun _ =>
      { type := spte_type.CODE, upage := 0, frame := none, file := 0, ofs := 0,
        writable := false, page_read_bytes := 0, page_zero_bytes := 0, pinned := false,
        is_in_swap := false, idx := 0 }
    brk := 0
    frame_table := []
    pool := []
    swap_table := none
    swap_disk := fun _ _ => 0
    mem := fun _ => 0
    file_len := fun _ => 0
    file_data := fun _ _ => 0
    file_pos := fun _ => 0 }

/-- A resident, clean page of an executable at `upage` in frame `frame`. -/
def file_page (upage frame : Nat) (pinned : Bool) : spt_entry :=
  { type := spte_type.FILE, upage := upage, frame := some frame, file := 3, ofs := 0,
    writable := true, page_read_bytes := 4096, page_zero_bytes := 0, pinned := pinned,
    is_in_swap := false, idx := BITMAP_ERROR }

/-- Thread 0 owns two resident pages, 0x08048000 (block 0) and 0x08049000
(block 1); `pin0` and `pin1` are their pinned flags. -/
def two_pages (pin0 pin1 : Bool) : Kernel :=
  { k_empty with
    pagedir := fun t p =>
      if t = 0 ∧ p = 0x08048000 then
        some { kpage := 0x1000, writable := true, dirty := false, accessed := false }
      else if t = 0 ∧ p = 0x08049000 then
        some { kpage := 0x2000, writable := true, dirty := false, accessed := false }
      else none
    supp_page_table := fun t => if t = 0 then [0, 1] else []
    heap := fun p =>
      if p = 0 then file_page 0x08048000 0x1000 pin0 else file_page 0x08049000 0x2000 pin1
    brk := 2
    frame_table := [{ frame := 0x1000, spte := 0, t := 0 }, { frame := 0x2000, spte := 1, t := 0 }] }

/-- A dirty page of a 4-byte memory-mapped file, owned by thread 0. -/
def c3_spte : spt_entry :=
  { type := spte_type.MMAP, upage := 0x10000000, frame := some 0x1000, file := 7, ofs := 0,
    writable := true, page_read_bytes := 4, page_zero_bytes := 4092, pinned := false,
    is_in_swap := false, idx := BITMAP_ERROR }

/-- Thread 0 has the page of `c3_spte` resident and dirty, with first byte 65;
the file holds zeros; thread `evictor` is running. -/
def c3_state (evictor : Nat) : Kernel :=
  { k_empty with
    cur := evictor
    pagedir := fun t p =>
      if t = 0 ∧ p = 0x10000000 then
        some { kpage := 0x1000, writable := true, dirty := true, accessed := true }
      else none
    supp_page_table := fun t => if t = 0 then [0] else []
    heap := fun _ => c3_spte
    brk := 1
    frame_table := [{ frame := 0x1000, spte := 0, t := 0 }]
    mem := fun a => if a = 0x1000 then 65 else 0
    file_len := fun f => if f = 7 then 4 else 0 }

/-- Eviction as `frame_alloc` runs it: `get_victim_frame`, then `evict_frame`
on the victim. -/
def evict_victim (k : Kernel) : Except Fault (Bool × Kernel) :=
  match get_victim_frame k with
  | .error e => .error e
  | .ok (none, _) => .error Fault.panic
  | .ok (some i, k1) => evict_frame i k1

/-- A frame whose bytes are `a % 251` at address `a`. -/
def c4_spte : spt_entry :=
  { type := spte_type.CODE, upage := 0xBFFFF000, frame := some 0x1000, file := 0, ofs := 0,
    writable := true, page_read_bytes := 0, page_zero_bytes := 0, pinned := false,
    is_in_swap := false, idx := BITMAP_ERROR }

/-- A swap disk of two slots, slot 0 occupied. -/
def c4_state : Kernel :=
  { k_empty with
    swap_table := some [true, false]
    mem := fun a => a % 251 }

/-- Thread 0 has one stack page that was swapped out to slot 0. -/
def c6_state : Kernel :=
  { k_empty with
    supp_page_table := fun t => if t = 0 then [0] else []
    heap := fun _ =>
      { type := spte_type.CODE, upage := 0xBFFFF000, frame := none, file := 0, ofs := 0,
        writable := true, page_read_bytes := 0, page_zero_bytes := 0, pinned := false,
        is_in_swap := true, idx := 0 }
    brk := 1
    swap_table := some [true, false] }

/-- Thread 0 has one lazy page of an executable (file 5) at `upage`; file 9 is
`len` bytes long. -/
def one_lazy_page (upage len : Nat) : Kernel :=
  { k_empty with
    supp_page_table := fun t => if t = 0 then [0] else []
    heap := fun _ =>
      { type := spte_type.FILE, upage := upage, frame := none, file := 5, ofs := 0,
        writable := false, page_read_bytes := 4096, page_zero_bytes := 0, pinned := false,
        is_in_swap := false, idx := BITMAP_ERROR }
    brk := 1
    file_len := fun f => if f = 9 then len else 0 }

/-- Thread 0 has a resident, unpinned data page (block 0, frame 0x1000) and a
stack page that is not resident (block 1); the pool is empty and one swap slot
is free. -/
def c9_state : Kernel :=
  { k_empty with
    pagedir := fun t p =>
      if t = 0 ∧ p = 0x08048000 then
        some { kpage := 0x1000, writable := true, dirty := false, accessed := false }
      else none
    supp_page_table := fun t => if t = 0 then [0, 1] else []
    heap := fun p =>
      if p = 0 then
        { type := spte_type.CODE, upage := 0x08048000, frame := some 0x1000, file := 0, ofs := 0,
          writable := true, page_read_bytes := 0, page_zero_bytes := 0, pinned := false,
          is_in_swap := false, idx := BITMAP_ERROR }
      else
        { type := spte_type.CODE, upage := 0xBFFFF000, frame := none, file := 0, ofs := 0,
          writable := true, page_read_bytes := 0, page_zero_bytes := 0, pinned := false,
          is_in_swap := false, idx := BITMAP_ERROR }
    brk := 2
    frame_table := [{ frame := 0x1000, spte := 0, t := 0 }]
    swap_table := some [false] }

/-- A machine with one free user page, one free swap slot and a file 7 of one
page; no thread has pages. -/
def c16_boot : Kernel :=
  { k_empty with
    pool := [0x1000]
    swap_table := some [false]
    file_len := fun f => if f = 7 then 4096 else 0 }

/-- The state after `file_supp_creation` was called for one page at
0x08048000, where `one_lazy_page` already has an entry. -/
def c12_after : Kernel :=
  state_of (file_supp_creation 2 7 0 0x08048000 4096 0 false (one_lazy_page 0x08048000 0))
    (one_lazy_page 0x08048000 0)

/-- The state after `file_supp_creation` was called on an empty machine for
100 bytes of file 7 followed by 8092 zero bytes. -/
def c13_after : Kernel :=
  state_of (file_supp_creation 3 7 0 0x08048000 100 8092 false k_empty) k_empty

/-- Thread 0 owns two resident, unpinned pages of file 3 (see `two_pages`), the
pool is empty and the swap device has two free slots. -/
def c14_state : Kernel :=
  { two_pages false false with
    swap_table := some [false, false]
    file_len := fun f => if f = 3 then 8192 else 0 }

/-- The state after `install_load_page` was called in `c14_state` for the
entry of block 0, which is resident. -/
def c14_after : Kernel := state_of (install_load_page 0 c14_state) c14_state

/-- The state after `install_load_page` was called in `c9_state` for the stack
page of block 1, which is not resident. -/
def c14_loaded : Kernel := state_of (install_load_page 1 c9_state) c9_state

/-- Thread 0 has one resident `CODE` page that is not pinned; its dirty bit is
set and its accessed bit is clear. -/
def c15_state : Kernel :=
  { c9_state with
    pagedir := fun t p =>
      if t = 0 ∧ p = 0x08048000 then
        some { kpage := 0x1000, writable := true, dirty := true, accessed := false }
      else none }

/-- The two resident pages of file 3 of `two_pages`, the first of them dirty;
the file is two pages long. -/
def c15_pages : Kernel :=
  { two_pages false false with
    pagedir := fun t p =>
      if t = 0 ∧ p = 0x08048000 then
        some { kpage := 0x1000, writable := true, dirty := true, accessed := false }
      else if t = 0 ∧ p = 0x08049000 then
        some { kpage := 0x2000, writable := true, dirty := false, accessed := false }
      else none
    file_len := fun f => if f = 3 then 8192 else 0 }

/-- The machine `c15_pages` with a file 3 that takes no bytes, so that the
write-back of its pages is short. -/
def c15_short : Kernel := { c15_pages with file_len := fun _ => 0 }

/-- The state after `file_supp_creation` made one read-only page of file 7 at
0x08048000 in `c16_boot`. -/
def c16_created : Kernel :=
  state_of (file_supp_creation 2 7 0 0x08048000 4096 0 false c16_boot) c16_boot

/-- The state after the page was loaded for the first time. -/
def c16_loaded : Kernel := state_of (install_load_page 0 c16_created) c16_created

/-- The state after the page was evicted. -/
def c16_evicted : Kernel := state_of (evict_victim c16_loaded) c16_loaded

/-- The state after the page was loaded again. -/
def c16_reloaded : Kernel := state_of (install_load_page 0 c16_evicted) c16_evicted

/-- The machine `one_lazy_page 0x08048000 5000` after file 9 was mapped at
0x10000000. -/
def c8_mapped : Kernel :=
  state_of (create_spte_mmap 3 9 5000 0x10000000 (one_lazy_page 0x08048000 5000)) k_empty

/-- The machine `c8_mapped` after `free_spte_mmap` on the first entry of the
mapping. -/
def c8_unmapped : Kernel := kernel_of (free_spte_mmap 3 (some 1) c8_mapped) k_empty

theorem bitmap_scan_some (b : List Bool) (s r : Nat) (h : bitmap_scan b s = some r) :
    s ≤ r ∧ b[r - s]? = some false ∧ ∀ j, j < r - s → b[j]? = some true := by
  induction b generalizing s with
  | nil => simp [bitmap_scan] at h
  | cons x xs ih =>
    unfold bitmap_scan at h
    split at h
    · rename_i hx
      simp only [Option.some.injEq] at h
      subst h
      simp [hx]
    · rename_i hx
      obtain ⟨h1, h2, h3⟩ := ih (s + 1) h
      have hr : r - s = (r - (s + 1)) + 1 := by omega
      refine ⟨by omega, ?_, ?_⟩
      · rw [hr]; simpa using h2
      · intro j hj
        cases j with
        | zero => simpa using hx
        | succ j => simpa using h3 j (by omega)

theorem bitmap_scan_none (b : List Bool) (s : Nat) (h : ∀ j, j < b.length → b[j]? = some true) :
    bitmap_scan b s = none := by
  induction b generalizing s with
  | nil => simp [bitmap_scan]
  | cons x xs ih =>
    have h0 := h 0 (by simp)
    simp at h0
    unfold bitmap_scan
    simp [h0]
    apply ih
    intro j hj
    have := h (j + 1) (by simpa using hj)
    simpa using this

theorem bitmap_scan_first (b : List Bool) (s i : Nat) (hi : b[i]? = some false)
    (hlt : ∀ j, j < i → b[j]? = some true) : bitmap_scan b s = some (s + i) := by
  induction b generalizing s i with
  | nil => simp at hi
  | cons x xs ih =>
    unfold bitmap_scan
    cases i with
    | zero =>
      simp at hi
      simp [hi]
    | succ i =>
      have h0 := hlt 0 (by omega)
      simp at h0
      simp [h0]
      rw [ih (s + 1) i (by simpa using hi) (fun j hj => by simpa using hlt (j + 1) (by omega))]
      congr 1; omega

theorem swap_out_sectors_spec (idx frame : Nat) (mem : Nat → Nat) (n i : Nat)
    (d : Nat → Nat → Nat) (s o : Nat) :
    swap_out_sectors idx frame mem n i d s o =
      if idx * SECTORS_PER_PAGE + i ≤ s ∧ s < idx * SECTORS_PER_PAGE + i + n ∧
          o < DISK_SECTOR_SIZE then
        mem (frame + (s - idx * SECTORS_PER_PAGE) * DISK_SECTOR_SIZE + o)
      else d s o := by
  induction n generalizing i d with
  | zero =>
    simp only [swap_out_sectors]
    rw [if_neg]; omega
  | succ n ih =>
    simp only [swap_out_sectors]
    rw [ih]
    by_cases h1 : idx * SECTORS_PER_PAGE + (i + 1) ≤ s ∧
        s < idx * SECTORS_PER_PAGE + (i + 1) + n ∧ o < DISK_SECTOR_SIZE
    · rw [if_pos h1, if_pos (by omega)]
    · rw [if_neg h1]
      unfold disk_write
      by_cases h2 : s = idx * SECTORS_PER_PAGE + i ∧ o < DISK_SECTOR_SIZE
      · rw [if_pos h2, if_pos (by omega)]
        obtain ⟨h3, _⟩ := h2
        have : s - idx * SECTORS_PER_PAGE = i := by omega
        rw [this]
      · rw [if_neg h2, if_neg (by omega)]

theorem swap_in_sectors_spec (idx frame : Nat) (d : Nat → Nat → Nat) (n i : Nat)
    (m : Nat → Nat) (a : Nat) :
    swap_in_sectors idx frame d n i m a =
      if frame + i * DISK_SECTOR_SIZE ≤ a ∧ a < frame + (i + n) * DISK_SECTOR_SIZE then
        d (idx * SECTORS_PER_PAGE + (a - frame) / DISK_SECTOR_SIZE)
          ((a - frame) % DISK_SECTOR_SIZE)
      else m a := by
  induction n generalizing i m with
  | zero =>
    simp only [swap_in_sectors]
    rw [if_neg (by simp only [Nat.add_zero]; omega)]
  | succ n ih =>
    simp only [swap_in_sectors]
    rw [ih]
    have hD : DISK_SECTOR_SIZE = 512 := rfl
    by_cases h1 : frame + (i + 1) * DISK_SECTOR_SIZE ≤ a ∧
        a < frame + (i + 1 + n) * DISK_SECTOR_SIZE
    · rw [if_pos h1, if_pos (by rw [hD] at *; omega)]
    · rw [if_neg h1]
      unfold disk_read
      by_cases h2 : frame + i * DISK_SECTOR_SIZE ≤ a ∧
          a < frame + i * DISK_SECTOR_SIZE + DISK_SECTOR_SIZE
      · rw [if_pos h2, if_pos (by rw [hD] at *; omega)]
        rw [hD] at *
        have e1 : (a - frame) / 512 = i := by omega
        have e2 : a - (frame + i * 512) = (a - frame) % 512 := by omega
        rw [e1, e2]
      · rw [if_neg h2, if_neg (by rw [hD] at *; omega)]

theorem swap_out_eq_of_first (spte : spt_entry) (k : Kernel) (b : List Bool) (i : Nat)
    (hb : k.swap_table = some b) (hlen : b.length < WORD) (hi : b[i]? = some false)
    (hlt : ∀ j, j < i → b[j]? = some true) :
    swap_out spte k = (i, { k with
      swap_table := some (b.set i true)
      swap_disk := swap_out_sectors i (frame_addr spte.frame) k.mem
        SECTORS_PER_PAGE 0 k.swap_disk }) := by
  have hs := bitmap_scan_first b 0 i hi hlt
  have hil : i < b.length := by
    by_contra hge
    rw [List.getElem?_eq_none (by omega)] at hi
    simp at hi
  have hne : i ≠ BITMAP_ERROR := by
    unfold BITMAP_ERROR; omega
  simp only [Nat.zero_add] at hs
  simp [swap_out, hb, bitmap_scan_and_flip, hs, hne]

theorem set_same_of_getElem? {α : Type} (l : List α) (i : Nat) (a : α) (h : l[i]? = some a) :
    l.set i a = l := by
  apply List.ext_getElem?
  intro j
  rw [List.getElem?_set]
  split
  · rename_i hij
    subst hij
    split
    · exact h.symm
    · rename_i hlen
      rw [List.getElem?_eq_none (by omega)] at h
      simp at h
  · rfl

theorem exists_first_free (b : List Bool) (h : ∃ j : Nat, b[j]? = some false) :
    ∃ i : Nat, b[i]? = some false ∧ ∀ j : Nat, j < i → b[j]? = some true := by
  classical
  refine ⟨Nat.find h, Nat.find_spec h, ?_⟩
  intro j hj
  have hmin := Nat.find_min h hj
  have hspec := Nat.find_spec h
  have hlen : Nat.find h < b.length := by
    by_contra hge
    rw [List.getElem?_eq_none (by omega)] at hspec
    simp at hspec
  have hjl : j < b.length := by omega
  rw [List.getElem?_eq_getElem hjl] at hmin ⊢
  cases hbj : b[j] with
  | true => rfl
  | false => rw [hbj] at hmin; exact absurd rfl hmin

/-! ## Victim selection, eviction and loading: lemmas -/

theorem same_core_refl (k : Kernel) : same_core k k :=
  ⟨rfl, rfl, rfl, fun _ => ⟨rfl, rfl⟩, rfl, fun _ _ => rfl⟩

theorem same_core_trans {a b c : Kernel} (h1 : same_core a b) (h2 : same_core b c) :
    same_core a c := by
  obtain ⟨cur1, spt1, brk1, heap1, ft1, pd1⟩ := h1
  obtain ⟨cur2, spt2, brk2, heap2, ft2, pd2⟩ := h2
  refine ⟨cur2.trans cur1, spt2.trans spt1, brk2.trans brk1, ?_, ft2.trans ft1, ?_⟩
  · intro p
    exact ⟨(heap2 p).1.trans (heap1 p).1, (heap2 p).2.trans (heap1 p).2⟩
  · intro t page
    exact (pd2 t page).trans (pd1 t page)

theorem same_core_write_to_disk (p : Nat) (k : Kernel) : same_core k (write_to_disk p k).2 := by
  simp only [write_to_disk, file_write_at]
  split_ifs <;> exact same_core_refl k

theorem same_core_pagedir_set_dirty (k : Kernel) (t va : Nat) (d : Bool) :
    same_core k (pagedir_set_dirty k t va d) := by
  refine ⟨rfl, rfl, rfl, fun _ => ⟨rfl, rfl⟩, rfl, ?_⟩
  intro t1 page
  simp only [pagedir_set_dirty, pagedir_put]
  split
  · rename_i h
    obtain ⟨h1, h2⟩ := h
    subst h1 h2
    simp
  · rfl

theorem same_core_pagedir_set_accessed (k : Kernel) (t va : Nat) (d : Bool) :
    same_core k (pagedir_set_accessed k t va d) := by
  refine ⟨rfl, rfl, rfl, fun _ => ⟨rfl, rfl⟩, rfl, ?_⟩
  intro t1 page
  simp only [pagedir_set_accessed, pagedir_put]
  split
  · rename_i h
    obtain ⟨h1, h2⟩ := h
    subst h1 h2
    simp
  · rfl

theorem get_victim_pass1_spec (l : List frame_table_entry) (i : Nat) (k : Kernel) :
    same_core k (get_victim_pass1 l i k).2 ∧
    ∀ r, (get_victim_pass1 l i k).1 = some r →
      ∃ j fte, r = i + j ∧ l[j]? = some fte ∧ (k.heap fte.spte).pinned = false := by
  induction l generalizing i k with
  | nil => exact ⟨same_core_refl k, by simp [get_victim_pass1]⟩
  | cons fte rest ih =>
    have step : ∀ k1 : Kernel, same_core k k1 →
        same_core k (get_victim_pass1 rest (i + 1) k1).2 ∧
        ∀ r, (get_victim_pass1 rest (i + 1) k1).1 = some r →
          ∃ j fte1, r = i + j ∧ (fte :: rest)[j]? = some fte1 ∧
            (k.heap fte1.spte).pinned = false := by
      intro k1 h1
      obtain ⟨a, c⟩ := ih (i + 1) k1
      refine ⟨same_core_trans h1 a, ?_⟩
      intro r hr
      obtain ⟨j, fte1, e1, e2, e3⟩ := c r hr
      exact ⟨j + 1, fte1, by omega, by simpa using e2, by rw [← (h1.2.2.2.1 _).2]; exact e3⟩
    have here : (k.heap fte.spte).pinned = false →
        ∀ r, some i = some r →
          ∃ j fte1, r = i + j ∧ (fte :: rest)[j]? = some fte1 ∧
            (k.heap fte1.spte).pinned = false := by
      intro hp r hr
      simp only [Option.some.injEq] at hr
      exact ⟨0, fte, by omega, by simp, hp⟩
    simp only [get_victim_pass1]
    split
    · rename_i hpin
      have hp : (k.heap fte.spte).pinned = false := by simpa using hpin
      split
      · split
        · split
          · exact step _ (same_core_trans (same_core_write_to_disk _ _)
              (same_core_pagedir_set_dirty _ _ _ _))
          · exact step _ (same_core_write_to_disk _ _)
        · split
          · exact ⟨same_core_refl k, here hp⟩
          · exact step k (same_core_refl k)
      · split
        · exact ⟨same_core_refl k, here hp⟩
        · exact step k (same_core_refl k)
    · exact step k (same_core_refl k)

theorem get_victim_pass2_spec (l : List frame_table_entry) (i : Nat) (k : Kernel) :
    same_core k (get_victim_pass2 l i k).2 ∧
    ∀ r, (get_victim_pass2 l i k).1 = some r →
      ∃ j fte, r = i + j ∧ l[j]? = some fte ∧ (k.heap fte.spte).pinned = false := by
  induction l generalizing i k with
  | nil => exact ⟨same_core_refl k, by simp [get_victim_pass2]⟩
  | cons fte rest ih =>
    have step : ∀ k1 : Kernel, same_core k k1 →
        same_core k (get_victim_pass2 rest (i + 1) k1).2 ∧
        ∀ r, (get_victim_pass2 rest (i + 1) k1).1 = some r →
          ∃ j fte1, r = i + j ∧ (fte :: rest)[j]? = some fte1 ∧
            (k.heap fte1.spte).pinned = false := by
      intro k1 h1
      obtain ⟨a, c⟩ := ih (i + 1) k1
      refine ⟨same_core_trans h1 a, ?_⟩
      intro r hr
      obtain ⟨j, fte1, e1, e2, e3⟩ := c r hr
      exact ⟨j + 1, fte1, by omega, by simpa using e2, by rw [← (h1.2.2.2.1 _).2]; exact e3⟩
    simp only [get_victim_pass2]
    split
    · rename_i hpin
      have hp : (k.heap fte.spte).pinned = false := by simpa using hpin
      split
      · refine ⟨same_core_refl k, ?_⟩
        intro r hr
        simp only [Option.some.injEq] at hr
        exact ⟨0, fte, by omega, by simp, hp⟩
      · exact step _ (same_core_pagedir_set_accessed _ _ _ _)
    · exact step k (same_core_refl k)

theorem get_victim_pass3_some (l : List frame_table_entry) (i : Nat) (k : Kernel) (r : Nat)
    (h : get_victim_pass3 l i k = some r) :
    ∃ j fte, r = i + j ∧ l[j]? = some fte ∧ (k.heap fte.spte).pinned = false := by
  induction l generalizing i with
  | nil => simp [get_victim_pass3] at h
  | cons fte rest ih =>
    unfold get_victim_pass3 at h
    split at h
    · rename_i hpin
      simp only [Option.some.injEq] at h
      exact ⟨0, fte, by omega, by simp, by simpa using hpin⟩
    · obtain ⟨j, fte1, e1, e2, e3⟩ := ih (i + 1) h
      exact ⟨j + 1, fte1, by omega, by simpa using e2, e3⟩

theorem get_victim_pass3_isSome (l : List frame_table_entry) (i : Nat) (k : Kernel)
    (h : ∃ fte, fte ∈ l ∧ (k.heap fte.spte).pinned = false) :
    (get_victim_pass3 l i k).isSome = true := by
  induction l generalizing i with
  | nil => simp at h
  | cons fte rest ih =>
    unfold get_victim_pass3
    split
    · rfl
    · rename_i hpin
      apply ih
      obtain ⟨fte1, hm, hp⟩ := h
      rcases List.mem_cons.mp hm with rfl | hm
      · simp [hp] at hpin
      · exact ⟨fte1, hm, hp⟩

/-- What `get_victim_frame` returns on a frame list that is not empty: the
tables, the heap and the frame list are as before, and a victim is an unpinned
entry of the list. -/
theorem get_victim_frame_spec (k : Kernel) (hne : k.frame_table ≠ []) :
    ∃ r k1, get_victim_frame k = .ok (r, k1) ∧ same_core k k1 ∧
      (∀ i, r = some i →
        ∃ fte, k.frame_table[i]? = some fte ∧ (k.heap fte.spte).pinned = false) ∧
      ((∃ fte, fte ∈ k.frame_table ∧ (k.heap fte.spte).pinned = false) → r.isSome = true) := by
  obtain ⟨a1, c1⟩ := get_victim_pass1_spec k.frame_table 0 k
  unfold get_victim_frame
  generalize get_victim_pass1 k.frame_table 0 k = x1 at a1 c1
  obtain ⟨r1, k1⟩ := x1
  simp only at a1 c1
  cases r1 with
  | some i =>
    refine ⟨some i, k1, rfl, a1, ?_, fun _ => rfl⟩
    intro i1 hi
    obtain ⟨j, fte, e1, e2, e3⟩ := c1 i1 hi
    exact ⟨fte, by rw [e1, Nat.zero_add]; exact e2, e3⟩
  | none =>
    simp only []
    obtain ⟨a2, c2⟩ := get_victim_pass2_spec k1.frame_table 0 k1
    generalize get_victim_pass2 k1.frame_table 0 k1 = x2 at a2 c2
    obtain ⟨r2, k2⟩ := x2
    simp only at a2 c2
    have a12 := same_core_trans a1 a2
    have hh1 : ∀ p, (k1.heap p).pinned = (k.heap p).pinned := fun p => (a1.2.2.2.1 p).2
    have hf1 : k1.frame_table = k.frame_table := a1.2.2.2.2.1
    have hh2 : ∀ p, (k2.heap p).pinned = (k.heap p).pinned := fun p => (a12.2.2.2.1 p).2
    have hf2 : k2.frame_table = k.frame_table := a12.2.2.2.2.1
    cases r2 with
    | some i =>
      refine ⟨some i, k2, rfl, a12, ?_, fun _ => rfl⟩
      intro i1 hi
      obtain ⟨j, fte, e1, e2, e3⟩ := c2 i1 hi
      refine ⟨fte, ?_, by rw [← hh1]; exact e3⟩
      rw [e1, Nat.zero_add, ← hf1]; exact e2
    | none =>
      simp only []
      have hne2 : k2.frame_table.isEmpty = false := by
        rw [hf2]
        cases hft : k.frame_table with
        | nil => exact absurd hft hne
        | cons _ _ => rfl
      rw [hne2]
      refine ⟨_, k2, rfl, a12, ?_, ?_⟩
      · intro i1 hi
        obtain ⟨j, fte, e1, e2, e3⟩ := get_victim_pass3_some _ _ _ _ hi
        refine ⟨fte, ?_, by rw [← hh2]; exact e3⟩
        rw [e1, Nat.zero_add, ← hf2]; exact e2
      · intro h
        apply get_victim_pass3_isSome
        obtain ⟨fte, hm, hp⟩ := h
        exact ⟨fte, by rw [hf2]; exact hm, by rw [hh2]; exact hp⟩

theorem evolves_mk {k k1 : Kernel} (hft : ft_wf k) (h1 : k1.cur = k.cur)
    (h2 : k1.supp_page_table = k.supp_page_table) (h3 : k1.brk = k.brk)
    (h4 : ∀ p, (k1.heap p).upage = (k.heap p).upage ∧ (k1.heap p).pinned = (k.heap p).pinned)
    (h5 : ∀ t page, (k.pagedir t page).isSome = true → (k1.pagedir t page).isSome = true)
    (h6 : ∀ fte, fte ∈ k1.frame_table → fte ∈ k.frame_table) : evolves k k1 :=
  ⟨h1, h2, h3, h4, fun t page h => Or.inl (h5 t page h), fun fte h => hft fte (h6 fte h)⟩

theorem evolves_refl {k : Kernel} (hft : ft_wf k) : evolves k k :=
  evolves_mk hft rfl rfl rfl (fun _ => ⟨rfl, rfl⟩) (fun _ _ h => h) (fun _ h => h)

theorem evolves_trans {a b c : Kernel} (h1 : evolves a b) (h2 : evolves b c) : evolves a c := by
  obtain ⟨cur1, spt1, brk1, heap1, pd1, _⟩ := h1
  obtain ⟨cur2, spt2, brk2, heap2, pd2, ft2⟩ := h2
  refine ⟨cur2.trans cur1, spt2.trans spt1, brk2.trans brk1, ?_, ?_, ?_⟩
  · intro p
    exact ⟨(heap2 p).1.trans (heap1 p).1, (heap2 p).2.trans (heap1 p).2⟩
  · intro t page h
    rcases pd1 t page h with h | h
    · rcases pd2 t page h with h | ⟨p, hp, hu, hn⟩
      · exact Or.inl h
      · refine Or.inr ⟨p, by rw [← spt1]; exact hp, ?_, ?_⟩
        · rw [← (heap1 p).1]; exact hu
        · rw [← (heap1 p).2]; exact hn
    · exact Or.inr h
  · intro fte h
    rw [← spt1]
    exact ft2 fte h

theorem evolves_ft_wf {k k1 : Kernel} (h : evolves k k1) : ft_wf k1 := by
  intro fte hf
  rw [h.2.1]
  exact h.2.2.2.2.2 fte hf

theorem evolves_of_same_core {k k1 : Kernel} (hft : ft_wf k) (h : same_core k k1) :
    evolves k k1 := by
  obtain ⟨a1, a2, a3, a4, a5, a6⟩ := h
  refine evolves_mk hft a1 a2 a3 a4 ?_ ?_
  · intro t page hh; rw [a6]; exact hh
  · intro fte hf; rw [← a5]; exact hf

theorem evolves_vm_wf {k k1 : Kernel} (hwf : vm_wf k) (h : evolves k k1) : vm_wf k1 := by
  obtain ⟨w1, w2, w3, w4⟩ := hwf
  have hft := evolves_ft_wf h
  obtain ⟨a1, a2, a3, a4, a5, a6⟩ := h
  refine ⟨hft, ?_, ?_, ?_⟩
  · intro t p q hp hq he
    rw [a2] at hp hq
    rw [(a4 p).1, (a4 q).1] at he
    exact w2 t p q hp hq he
  · intro t p hp
    rw [a2] at hp
    rw [a3]
    exact w3 t p hp
  · intro t p hp
    rw [a2] at hp
    rw [(a4 p).1]
    exact w4 t p hp

theorem evolves_pinned_resident {k k1 : Kernel} (hwf : vm_wf k) (h : evolves k k1)
    (t page : Nat) (hpr : pinned_resident k t page) : pinned_resident k1 t page := by
  obtain ⟨w1, w2, w3, w4⟩ := hwf
  obtain ⟨a1, a2, a3, a4, a5, a6⟩ := h
  intro p hp hu
  rw [a2] at hp
  rw [(a4 p).1] at hu
  obtain ⟨hpin, hmap⟩ := hpr p hp hu
  refine ⟨by rw [(a4 p).2]; exact hpin, ?_⟩
  rcases a5 t page hmap with h | ⟨q, hq, hqu, hqn⟩
  · exact h
  · exfalso
    have hal := w4 t q hq
    have hqe : (k.heap q).upage = page := by
      rw [← hqu]
      unfold pg_round_down
      have hP : PGSIZE = 4096 := rfl
      rw [hP] at hal ⊢
      omega
    have := w2 t p q hp hq (hu.trans hqe.symm)
    subst this
    rw [hpin] at hqn
    exact absurd hqn (by simp)

theorem evolves_clear_frame_entry (k : Kernel) (i : Nat) (fte : frame_table_entry)
    (hft : ft_wf k) (hmem : fte ∈ k.frame_table) (hpin : (k.heap fte.spte).pinned = false) :
    evolves k (clear_frame_entry i fte k) := by
  refine ⟨rfl, rfl, rfl, fun _ => ⟨rfl, rfl⟩, ?_, ?_⟩
  · intro t page h
    simp only [clear_frame_entry, palloc_free_page, pagedir_clear_page, pagedir_put]
    by_cases hc : t = fte.t ∧ page = pg_round_down (k.heap fte.spte).upage
    · right
      obtain ⟨h1, h2⟩ := hc
      subst h1
      exact ⟨fte.spte, hft fte hmem, h2.symm, hpin⟩
    · left
      rw [if_neg hc]
      exact h
  · intro fte1 h
    apply hft
    simp only [clear_frame_entry, palloc_free_page, pagedir_clear_page, pagedir_put] at h
    exact List.mem_of_mem_eraseIdx h

theorem same_core_ft_wf {k k1 : Kernel} (hft : ft_wf k) (h : same_core k k1) : ft_wf k1 :=
  evolves_ft_wf (evolves_of_same_core hft h)

theorem same_core_heap_set (k : Kernel) (p : Nat) (e : spt_entry)
    (h1 : e.upage = (k.heap p).upage) (h2 : e.pinned = (k.heap p).pinned) :
    same_core k (heap_set k p e) := by
  refine ⟨rfl, rfl, rfl, ?_, rfl, fun _ _ => rfl⟩
  intro q
  simp only [heap_set]
  split
  · rename_i hq; subst hq; exact ⟨h1, h2⟩
  · exact ⟨rfl, rfl⟩

theorem same_core_swap_out (e : spt_entry) (k : Kernel) : same_core k (swap_out e k).2 := by
  unfold swap_out
  split
  · simp only []
    split <;> exact ⟨rfl, rfl, rfl, fun _ => ⟨rfl, rfl⟩, rfl, fun _ _ => rfl⟩
  · exact same_core_refl k

theorem same_core_swap_in (e : spt_entry) (k : Kernel) : same_core k (swap_in e k) := by
  unfold swap_in
  split
  · exact ⟨rfl, rfl, rfl, fun _ => ⟨rfl, rfl⟩, rfl, fun _ _ => rfl⟩
  · exact same_core_refl k

theorem same_core_palloc_get_page (flags : Nat) (k : Kernel) :
    same_core k (palloc_get_page flags k).2 := by
  unfold palloc_get_page
  split
  · exact same_core_refl k
  · simp only []
    split <;> exact ⟨rfl, rfl, rfl, fun _ => ⟨rfl, rfl⟩, rfl, fun _ _ => rfl⟩

theorem evolves_evict_frame_code (k k1 : Kernel) (i : Nat) (fte : frame_table_entry) (b : Bool)
    (hft : ft_wf k) (hmem : fte ∈ k.frame_table) (hpin : (k.heap fte.spte).pinned = false)
    (h : evict_frame_code i fte k = .ok (b, k1)) : evolves k k1 := by
  unfold evict_frame_code at h
  split at h
  · exact absurd h (by simp)
  · simp only [] at h
    split at h
    · exact absurd h (by simp)
    · simp only [Except.ok.injEq, Prod.mk.injEq] at h
      obtain ⟨_, h⟩ := h
      subst h
      have c1 := same_core_swap_out (k.heap fte.spte) k
      have c2 := same_core_heap_set (swap_out (k.heap fte.spte) k).2 fte.spte
        { (swap_out (k.heap fte.spte) k).2.heap fte.spte with
          idx := (swap_out (k.heap fte.spte) k).1, is_in_swap := true, frame := none } rfl rfl
      have c := same_core_trans c1 c2
      refine evolves_trans (evolves_of_same_core hft c) ?_
      apply evolves_clear_frame_entry _ _ _ (same_core_ft_wf hft c)
      · rw [c.2.2.2.2.1]; exact hmem
      · rw [(c.2.2.2.1 _).2]; exact hpin

theorem evolves_evict_frame (k k1 : Kernel) (i : Nat) (fte : frame_table_entry) (b : Bool)
    (hft : ft_wf k) (hget : k.frame_table.get? i = some fte)
    (hpin : (k.heap fte.spte).pinned = false)
    (h : evict_frame i k = .ok (b, k1)) : evolves k k1 := by
  have hmem : fte ∈ k.frame_table := List.getElem?_mem (by simpa using hget)
  unfold evict_frame at h
  rw [hget] at h
  simp only [] at h
  split at h
  · split at h
    · split at h
      · exact absurd h (by simp)
      · simp only [Except.ok.injEq, Prod.mk.injEq] at h
        obtain ⟨_, h⟩ := h
        subst h
        have c1 := same_core_write_to_disk fte.spte k
        have c2 := same_core_heap_set (write_to_disk fte.spte k).2 fte.spte
          { (write_to_disk fte.spte k).2.heap fte.spte with frame := none } rfl rfl
        have c := same_core_trans c1 c2
        refine evolves_trans (evolves_of_same_core hft c) ?_
        apply evolves_clear_frame_entry _ _ _ (same_core_ft_wf hft c)
        · rw [c.2.2.2.2.1]; exact hmem
        · rw [(c.2.2.2.1 _).2]; exact hpin
    · simp only [Except.ok.injEq, Prod.mk.injEq] at h
      obtain ⟨_, h⟩ := h
      subst h
      have c := same_core_heap_set k fte.spte { k.heap fte.spte with frame := none } rfl rfl
      refine evolves_trans (evolves_of_same_core hft c) ?_
      apply evolves_clear_frame_entry _ _ _ (same_core_ft_wf hft c)
      · rw [c.2.2.2.2.1]; exact hmem
      · rw [(c.2.2.2.1 _).2]; exact hpin
  · have c := same_core_heap_set k fte.spte
      { k.heap fte.spte with type := spte_type.CODE } rfl rfl
    refine evolves_trans (evolves_of_same_core hft c) ?_
    apply evolves_evict_frame_code _ _ i fte b (same_core_ft_wf hft c) _ _ h
    · rw [c.2.2.2.2.1]; exact hmem
    · rw [(c.2.2.2.1 _).2]; exact hpin
  · exact evolves_evict_frame_code _ _ i fte b hft hmem hpin h

theorem evolves_frame_alloc_loop (flags fuel : Nat) (k k1 : Kernel) (r : Option Nat)
    (hft : ft_wf k) (h : frame_alloc_loop flags fuel k = .ok (r, k1)) : evolves k k1 := by
  induction fuel generalizing k with
  | zero => simp [frame_alloc_loop] at h
  | succ fuel ih =>
    unfold frame_alloc_loop at h
    split at h
    · exact absurd h (by simp)
    · rename_i hemp
      have hne : k.frame_table ≠ [] := by
        intro hc; rw [hc] at hemp; simp at hemp
      obtain ⟨v, kv, e, hc, hv, _⟩ := get_victim_frame_spec k hne
      rw [e] at h
      cases v with
      | none => simp at h
      | some i =>
        simp only [] at h
        obtain ⟨fte, hg, hp⟩ := hv i rfl
        have hgv : kv.frame_table.get? i = some fte := by
          rw [hc.2.2.2.2.1]; simpa using hg
        have hpv : (kv.heap fte.spte).pinned = false := by
          rw [(hc.2.2.2.1 _).2]; exact hp
        have hftv := same_core_ft_wf hft hc
        rw [hgv] at h
        dsimp only at h
        split at h
        · exact absurd h (by simp)
        · cases hev : evict_frame i kv with
          | error e => rw [hev] at h; exact absurd h (by simp)
          | ok x =>
            obtain ⟨b, k2⟩ := x
            rw [hev] at h
            cases b with
            | false => exact absurd h (by simp)
            | true =>
            dsimp only at h
            have e2 := evolves_evict_frame kv k2 i fte true hftv hgv hpv hev
            have hft2 := evolves_ft_wf e2
            have c3 := same_core_palloc_get_page flags k2
            have e3 := evolves_of_same_core hft2 c3
            have e13 := evolves_trans (evolves_of_same_core hft hc) (evolves_trans e2 e3)
            split at h
            · rename_i f k3 hpa
              simp only [Except.ok.injEq, Prod.mk.injEq] at h
              obtain ⟨_, h⟩ := h
              subst h
              rw [hpa] at e13
              exact e13
            · rename_i k3 hpa
              rw [hpa] at e13
              exact evolves_trans e13 (ih k3 (evolves_ft_wf e13) h)

theorem evolves_frame_alloc (flags : Nat) (k k1 : Kernel) (r : Option Nat)
    (hft : ft_wf k) (h : frame_alloc flags k = .ok (r, k1)) : evolves k k1 := by
  unfold frame_alloc at h
  have hz : ¬ (flags &&& (if PAL_USER = 0 then 1 else 0) ≠ 0) := by simp [PAL_USER]
  rw [if_neg hz] at h
  have c := same_core_palloc_get_page flags k
  split at h
  · rename_i f k2 hpa
    simp only [Except.ok.injEq, Prod.mk.injEq] at h
    rw [hpa] at c
    rw [← h.2]
    exact evolves_of_same_core hft c
  · rename_i k2 hpa
    rw [hpa] at c
    exact evolves_trans (evolves_of_same_core hft c)
      (evolves_frame_alloc_loop _ _ _ _ _ (same_core_ft_wf hft c) h)

theorem evolves_retrieve_frame_of_page (flags p : Nat) (k k1 : Kernel) (r : Option Nat)
    (hft : ft_wf k) (hp : p ∈ k.supp_page_table k.cur)
    (h : retrieve_frame_of_page flags (some p) k = .ok (r, k1)) : evolves k k1 := by
  unfold retrieve_frame_of_page at h
  have hz : ¬ (flags &&& (if PAL_USER = 0 then 1 else 0) ≠ 0) := by simp [PAL_USER]
  simp only [if_neg hz] at h
  cases hfa : frame_alloc flags k with
  | error e => rw [hfa] at h; exact absurd h (by simp)
  | ok x =>
    obtain ⟨r1, k2⟩ := x
    rw [hfa] at h
    have e1 := evolves_frame_alloc flags k k2 r1 hft hfa
    cases r1 with
    | none => exact absurd h (by simp)
    | some f =>
      simp only [Except.ok.injEq, Prod.mk.injEq] at h
      obtain ⟨_, h⟩ := h
      subst h
      refine evolves_trans e1 ⟨rfl, rfl, rfl, fun _ => ⟨rfl, rfl⟩, fun _ _ hh => Or.inl hh, ?_⟩
      intro fte hf
      simp only [frame_table_add, List.mem_append, List.mem_singleton] at hf
      rcases hf with hf | hf
      · exact evolves_ft_wf e1 fte hf
      · subst hf
        show p ∈ k2.supp_page_table k2.cur
        rw [e1.1, e1.2.1]
        exact hp

theorem evolves_free_frame (frame : Nat) (k : Kernel) (hft : ft_wf k) :
    evolves k (free_frame frame k) := by
  refine evolves_mk hft rfl rfl rfl (fun _ => ⟨rfl, rfl⟩) (fun _ _ h => h) ?_
  intro fte hf
  exact List.mem_of_mem_eraseP hf

theorem evolves_install_page (upage kpage : Nat) (w : Bool) (k : Kernel) (hft : ft_wf k) :
    evolves k (install_page upage kpage w k).2 ∧
    ((install_page upage kpage w k).1 = true →
      ((install_page upage kpage w k).2.pagedir k.cur (pg_round_down upage)).isSome = true) := by
  unfold install_page
  split
  · exact ⟨evolves_refl hft, fun h => absurd h (by simp)⟩
  · split
    · exact ⟨evolves_refl hft, fun h => absurd h (by simp)⟩
    · refine ⟨evolves_mk hft rfl rfl rfl (fun _ => ⟨rfl, rfl⟩) ?_ (fun _ h => h), ?_⟩
      · intro t page h
        simp only [pagedir_put]
        split
        · rfl
        · exact h
      · intro _
        simp [pagedir_put]

theorem same_core_file_read (k : Kernel) (file buf size : Nat) :
    same_core k (file_read k file buf size).2 :=
  ⟨rfl, rfl, rfl, fun _ => ⟨rfl, rfl⟩, rfl, fun _ _ => rfl⟩

theorem same_core_file_seek (k : Kernel) (file : Nat) (ofs : Int) :
    same_core k (file_seek k file ofs) :=
  ⟨rfl, rfl, rfl, fun _ => ⟨rfl, rfl⟩, rfl, fun _ _ => rfl⟩

theorem same_core_memset_zero (k : Kernel) (dst n : Nat) :
    same_core k (memset_zero k dst n) :=
  ⟨rfl, rfl, rfl, fun _ => ⟨rfl, rfl⟩, rfl, fun _ _ => rfl⟩

theorem install_load_file_spec (p : Nat) (k k1 : Kernel) (b : Bool)
    (hft : ft_wf k) (hp : p ∈ k.supp_page_table k.cur)
    (h : install_load_file p k = .ok (b, k1)) :
    evolves k k1 ∧
    (b = true → (k1.pagedir k.cur (pg_round_down (k.heap p).upage)).isSome = true) := by
  unfold install_load_file at h
  cases hr : retrieve_frame_of_page PAL_USER (some p) k with
  | error e => rw [hr] at h; exact absurd h (by simp)
  | ok x =>
    obtain ⟨r1, k2⟩ := x
    rw [hr] at h
    have e1 := evolves_retrieve_frame_of_page _ _ _ _ _ hft hp hr
    cases r1 with
    | none => exact absurd h (by simp)
    | some frame =>
      dsimp only at h
      have c2 := same_core_trans (same_core_file_seek k2 (k2.heap p).file (k2.heap p).ofs)
        (same_core_file_read (file_seek k2 (k2.heap p).file (k2.heap p).ofs) (k2.heap p).file
          frame (k2.heap p).page_read_bytes)
      generalize file_read (file_seek k2 (k2.heap p).file (k2.heap p).ofs) (k2.heap p).file
          frame (k2.heap p).page_read_bytes = fr at h c2
      have e2 := evolves_trans e1 (evolves_of_same_core (evolves_ft_wf e1) c2)
      split at h
      · simp only [Except.ok.injEq, Prod.mk.injEq] at h
        obtain ⟨hb, h⟩ := h
        subst h
        refine ⟨evolves_trans e2 (evolves_free_frame _ _ (evolves_ft_wf e2)), ?_⟩
        intro hc; rw [← hb] at hc; exact absurd hc (by simp)
      · have c3 := same_core_memset_zero fr.2
          (frame + (k2.heap p).page_read_bytes) (k2.heap p).page_zero_bytes
        generalize memset_zero fr.2
          (frame + (k2.heap p).page_read_bytes) (k2.heap p).page_zero_bytes = k3 at h c3
        have e3 := evolves_trans e2 (evolves_of_same_core (evolves_ft_wf e2) c3)
        have hip := evolves_install_page (k2.heap p).upage frame (k2.heap p).writable k3
          (evolves_ft_wf e3)
        generalize install_page (k2.heap p).upage frame (k2.heap p).writable k3 = ip at h hip
        have e4 := evolves_trans e3 hip.1
        split at h
        · simp only [Except.ok.injEq, Prod.mk.injEq] at h
          obtain ⟨hb, h⟩ := h
          subst h
          refine ⟨evolves_trans e4 (evolves_free_frame _ _ (evolves_ft_wf e4)), ?_⟩
          intro hc; rw [← hb] at hc; exact absurd hc (by simp)
        · rename_i hok
          simp only [Except.ok.injEq, Prod.mk.injEq] at h
          obtain ⟨_, h⟩ := h
          subst h
          have c5 := same_core_heap_set ip.2 p { ip.2.heap p with frame := some frame } rfl rfl
          refine ⟨evolves_trans e4 (evolves_of_same_core (evolves_ft_wf e4) c5), ?_⟩
          intro _
          have hm := hip.2 (by simpa using hok)
          rw [e3.1, (e1.2.2.2.1 p).1] at hm
          rw [c5.2.2.2.2.2]
          exact hm

theorem install_load_swap_spec (p : Nat) (k k1 : Kernel) (b : Bool)
    (hft : ft_wf k) (hp : p ∈ k.supp_page_table k.cur)
    (h : install_load_swap p k = .ok (b, k1)) :
    evolves k k1 ∧
    (b = true → (k1.pagedir k.cur (pg_round_down (k.heap p).upage)).isSome = true) := by
  unfold install_load_swap at h
  cases hr : retrieve_frame_of_page (PAL_USER ||| PAL_ZERO) (some p) k with
  | error e => rw [hr] at h; exact absurd h (by simp)
  | ok x =>
    obtain ⟨r1, k2⟩ := x
    rw [hr] at h
    have e1 := evolves_retrieve_frame_of_page _ _ _ _ _ hft hp hr
    cases r1 with
    | none => exact absurd h (by simp)
    | some frame =>
      dsimp only at h
      have hip := evolves_install_page (k2.heap p).upage frame true k2 (evolves_ft_wf e1)
      generalize install_page (k2.heap p).upage frame true k2 = ip at h hip
      have e2 := evolves_trans e1 hip.1
      split at h
      · rename_i hok
        have hm := hip.2 hok
        rw [e1.1, (e1.2.2.2.1 p).1] at hm
        have c3 := same_core_heap_set ip.2 p { ip.2.heap p with frame := some frame } rfl rfl
        generalize heap_set ip.2 p { ip.2.heap p with frame := some frame } = k3 at h c3
        split at h
        · simp only [Except.ok.injEq, Prod.mk.injEq] at h
          obtain ⟨_, h⟩ := h
          subst h
          have c4 := same_core_swap_in (k3.heap p) k3
          have c5 := same_core_heap_set (swap_in (k3.heap p) k3) p
            { (swap_in (k3.heap p) k3).heap p with is_in_swap := false, idx := BITMAP_ERROR }
            rfl rfl
          have c := same_core_trans c3 (same_core_trans c4 c5)
          refine ⟨evolves_trans e2 (evolves_of_same_core (evolves_ft_wf e2) c), ?_⟩
          intro _
          rw [c.2.2.2.2.2]
          exact hm
        · simp only [Except.ok.injEq, Prod.mk.injEq] at h
          obtain ⟨_, h⟩ := h
          subst h
          refine ⟨evolves_trans e2 (evolves_of_same_core (evolves_ft_wf e2) c3), ?_⟩
          intro _
          rw [c3.2.2.2.2.2]
          exact hm
      · simp only [Except.ok.injEq, Prod.mk.injEq] at h
        obtain ⟨hb, h⟩ := h
        subst h
        refine ⟨evolves_trans e2 (evolves_free_frame _ _ (evolves_ft_wf e2)), ?_⟩
        intro hc; rw [← hb] at hc; exact absurd hc (by simp)

theorem install_load_page_spec (p : Nat) (k k1 : Kernel) (b : Bool)
    (hft : ft_wf k) (hp : p ∈ k.supp_page_table k.cur)
    (h : install_load_page p k = .ok (b, k1)) :
    evolves k k1 ∧
    (b = true → (k1.pagedir k.cur (pg_round_down (k.heap p).upage)).isSome = true) := by
  unfold install_load_page at h
  split at h
  · exact install_load_file_spec p k k1 b hft hp h
  · exact install_load_file_spec p k k1 b hft hp h
  · exact install_load_swap_spec p k k1 b hft hp h

theorem uvaddr_to_spt_entry_some (k : Kernel) (a p : Nat)
    (h : uvaddr_to_spt_entry k a = some p) :
    p ∈ k.supp_page_table k.cur ∧ (k.heap p).upage = pg_round_down a := by
  unfold uvaddr_to_spt_entry at h
  exact ⟨List.mem_of_find?_eq_some h, by simpa using List.find?_some h⟩

theorem uvaddr_to_spt_entry_none (k : Kernel) (a : Nat)
    (h : uvaddr_to_spt_entry k a = none) :
    ∀ q, q ∈ k.supp_page_table k.cur → (k.heap q).upage ≠ pg_round_down a := by
  unfold uvaddr_to_spt_entry at h
  rw [List.find?_eq_none] at h
  intro q hq
  simpa using h q hq

theorem pg_round_down_idem (a : Nat) : pg_round_down (pg_round_down a) = pg_round_down a := by
  unfold pg_round_down PGSIZE
  omega

theorem pg_round_down_aligned (a : Nat) : pg_round_down a % PGSIZE = 0 := by
  unfold pg_round_down PGSIZE
  omega

theorem pagedir_get_page_isSome (k : Kernel) (t a : Nat) (h : ¬ pagedir_get_page k t a = none) :
    (k.pagedir t (pg_round_down a)).isSome = true := by
  unfold pagedir_get_page at h
  cases hc : k.pagedir t (pg_round_down a) with
  | none => rw [hc] at h; exact absurd rfl h
  | some _ => rfl

/-- Setting the pinned flag of a block keeps the tables well formed and keeps
pinned, resident pages as they are. -/
theorem pin_spec (k : Kernel) (p : Nat) (hwf : vm_wf k) :
    vm_wf (heap_set k p { k.heap p with pinned := true }) ∧
    (∀ q, ((heap_set k p { k.heap p with pinned := true }).heap q).upage = (k.heap q).upage) ∧
    ((heap_set k p { k.heap p with pinned := true }).heap p).pinned = true ∧
    ∀ t page, pinned_resident k t page →
      pinned_resident (heap_set k p { k.heap p with pinned := true }) t page := by
  have hu : ∀ q, ((heap_set k p { k.heap p with pinned := true }).heap q).upage =
      (k.heap q).upage := by
    intro q
    simp only [heap_set]
    split
    · rename_i hq; subst hq; rfl
    · rfl
  obtain ⟨w1, w2, w3, w4⟩ := hwf
  refine ⟨⟨w1, ?_, w3, ?_⟩, hu, by simp [heap_set], ?_⟩
  · intro t a b ha hb he
    rw [hu, hu] at he
    exact w2 t a b ha hb he
  · intro t a ha
    rw [hu]
    exact w4 t a ha
  · intro t page hpr q hq hqu
    rw [hu] at hqu
    obtain ⟨h1, h2⟩ := hpr q hq hqu
    refine ⟨?_, h2⟩
    simp only [heap_set]
    split
    · rfl
    · exact h1

theorem hash_insert_absent (k : Kernel) (t p : Nat)
    (h : ∀ q, q ∈ k.supp_page_table t → (k.heap q).upage ≠ (k.heap p).upage) :
    hash_insert k t p = { k with supp_page_table := fun t1 =>
      if t1 = t then k.supp_page_table t ++ [p] else k.supp_page_table t1 } := by
  unfold hash_insert
  rw [if_neg]
  intro hc
  rw [List.any_eq_true] at hc
  obtain ⟨q, hq, he⟩ := hc
  exact h q hq (by simpa using he)

/-- The state in which `stack_increase` calls `install_load_page`: a fresh
pinned block with the page as key was added to the running thread's table. -/
theorem stack_increase_entry (k kd : Kernel) (a : Nat) (pin : Bool) (hwf : vm_wf k)
    (hnone : uvaddr_to_spt_entry k a = none)
    (hkd : kd = heap_set (create_spte_code (pg_round_down a) k).2
      (create_spte_code (pg_round_down a) k).1
      { (create_spte_code (pg_round_down a) k).2.heap (create_spte_code (pg_round_down a) k).1
        with pinned := pin }) :
    (create_spte_code (pg_round_down a) k).1 = k.brk ∧ vm_wf kd ∧ kd.cur = k.cur ∧
    kd.supp_page_table k.cur = k.supp_page_table k.cur ++ [k.brk] ∧
    (kd.heap k.brk).upage = pg_round_down a ∧ (kd.heap k.brk).pinned = pin ∧
    (∀ q, q < k.brk → kd.heap q = k.heap q) ∧ kd.pagedir = k.pagedir := by
  have hno := uvaddr_to_spt_entry_none k a hnone
  obtain ⟨w1, w2, w3, w4⟩ := hwf
  have hins : hash_insert
      (heap_set (create_spte k).2 (create_spte k).1
        { (create_spte k).2.heap (create_spte k).1 with
          upage := pg_round_down a, type := spte_type.CODE }) k.cur k.brk =
      { heap_set (create_spte k).2 (create_spte k).1
        { (create_spte k).2.heap (create_spte k).1 with
          upage := pg_round_down a, type := spte_type.CODE } with
        supp_page_table := fun t =>
          if t = k.cur then k.supp_page_table k.cur ++ [k.brk] else k.supp_page_table t } := by
    apply hash_insert_absent
    intro q hq
    have hq1 : q ∈ k.supp_page_table k.cur := hq
    have hlt := w3 k.cur q hq1
    have h1 : (heap_set (create_spte k).2 (create_spte k).1
        { (create_spte k).2.heap (create_spte k).1 with
          upage := pg_round_down a, type := spte_type.CODE }).heap q = k.heap q := by
      simp only [heap_set, create_spte]
      rw [if_neg (by omega), if_neg (by omega)]
    have h2 : ((heap_set (create_spte k).2 (create_spte k).1
        { (create_spte k).2.heap (create_spte k).1 with
          upage := pg_round_down a, type := spte_type.CODE }).heap k.brk).upage =
        pg_round_down a := by
      simp [heap_set, create_spte]
    rw [h1, h2]
    exact hno q hq1
  have hkd2 : kd = { k with
      heap := fun q => if q = k.brk then
          ({ k.heap k.brk with
            upage := pg_round_down a, frame := none, is_in_swap := false, idx := BITMAP_ERROR,
            pinned := pin, type := spte_type.CODE } : spt_entry)
        else k.heap q
      brk := k.brk + 1
      supp_page_table := fun t =>
        if t = k.cur then k.supp_page_table k.cur ++ [k.brk] else k.supp_page_table t } := by
    rw [hkd]
    have hc : create_spte_code (pg_round_down a) k =
        ((create_spte k).1, hash_insert
          (heap_set (create_spte k).2 (create_spte k).1
            { (create_spte k).2.heap (create_spte k).1 with
              upage := pg_round_down a, type := spte_type.CODE }) k.cur k.brk) := rfl
    rw [hc, hins]
    apply Kernel.ext
    case heap =>
      funext q
      simp only [heap_set, create_spte]
      by_cases hq : q = k.brk
      · simp [hq]
      · simp [hq]
    all_goals rfl
  have hheap_old : ∀ q, q < k.brk → kd.heap q = k.heap q := by
    intro q hq
    rw [hkd2]
    dsimp only
    rw [if_neg (by omega)]
  have hheap_new : kd.heap k.brk = { k.heap k.brk with
            upage := pg_round_down a, frame := none, is_in_swap := false, idx := BITMAP_ERROR,
            pinned := pin, type := spte_type.CODE } := by
    rw [hkd2]
    dsimp only
    rw [if_pos rfl]
  have hspt : ∀ t, kd.supp_page_table t =
      if t = k.cur then k.supp_page_table k.cur ++ [k.brk] else k.supp_page_table t := by
    intro t; rw [hkd2]
  have hmem : ∀ t q, q ∈ kd.supp_page_table t →
      q ∈ k.supp_page_table t ∨ (t = k.cur ∧ q = k.brk) := by
    intro t q hq
    rw [hspt] at hq
    split at hq
    · rename_i ht
      subst ht
      simp only [List.mem_append, List.mem_singleton] at hq
      rcases hq with hq | hq
      · exact Or.inl hq
      · exact Or.inr ⟨rfl, hq⟩
    · exact Or.inl hq
  have hbrk : kd.brk = k.brk + 1 := by rw [hkd2]
  have hft : kd.frame_table = k.frame_table := by rw [hkd2]
  refine ⟨by simp [create_spte_code, create_spte], ⟨?_, ?_, ?_, ?_⟩, by rw [hkd2], ?_, ?_, ?_,
    hheap_old, by rw [hkd2]⟩
  · intro fte hf
    rw [hft] at hf
    have := w1 fte hf
    rw [hspt]
    split
    · rename_i ht
      rw [ht] at this
      exact List.mem_append_left _ this
    · exact this
  · intro t p q hp hq he
    rcases hmem t p hp with hp | ⟨ht, hp⟩ <;> rcases hmem t q hq with hq | ⟨ht2, hq⟩
    · rw [hheap_old p (w3 t p hp), hheap_old q (w3 t q hq)] at he
      exact w2 t p q hp hq he
    · subst hq ht2
      rw [hheap_old p (w3 _ p hp), hheap_new] at he
      exact absurd he (hno p hp)
    · subst hp ht
      rw [hheap_old q (w3 _ q hq), hheap_new] at he
      exact absurd he.symm (hno q hq)
    · rw [hp, hq]
  · intro t p hp
    rw [hbrk]
    rcases hmem t p hp with hp | ⟨_, hp⟩
    · have := w3 t p hp; omega
    · omega
  · intro t p hp
    rcases hmem t p hp with hp | ⟨_, hp⟩
    · rw [hheap_old p (w3 t p hp)]
      exact w4 t p hp
    · rw [hp, hheap_new]
      exact pg_round_down_aligned a
  · rw [hspt, if_pos rfl]
  · rw [hheap_new]
  · rw [hheap_new]

/-- The contract of a successful `stack_increase` for a page without entry. -/
theorem stack_increase_spec (a : Nat) (k k2 : Kernel) (hwf : vm_wf k)
    (hl : uvaddr_to_spt_entry k a = none)
    (h : stack_increase a true k = .ok (true, k2)) :
    k2.cur = k.cur ∧ vm_wf k2 ∧ pinned_resident k2 k.cur (pg_round_down a) ∧
    ∀ page, pinned_resident k k.cur page → pinned_resident k2 k.cur page := by
  have hno := uvaddr_to_spt_entry_none k a hl
  unfold stack_increase at h
  dsimp only at h
  split at h
  · simp only [Except.ok.injEq, Prod.mk.injEq] at h
    exact absurd h.1 (by simp)
  · obtain ⟨hp1, dwf, dcur, dspt, du, dp, dold, dpd⟩ :=
      stack_increase_entry k _ a true hwf hl rfl
    generalize hkd : heap_set (create_spte_code (pg_round_down a) k).2
      (create_spte_code (pg_round_down a) k).1
      { (create_spte_code (pg_round_down a) k).2.heap
          (create_spte_code (pg_round_down a) k).1 with pinned := true } = kd
      at h dwf dcur dspt du dp dold dpd
    rw [hp1] at h
    have hpm2 : k.brk ∈ kd.supp_page_table kd.cur := by
      rw [dcur, dspt]; simp
    obtain ⟨ev, hm⟩ := install_load_page_spec k.brk kd k2 true dwf.1 hpm2 h
    have hm2 := hm rfl
    rw [du, pg_round_down_idem, dcur] at hm2
    have hnew : pinned_resident k2 k.cur (pg_round_down a) := by
      intro q hq hqu
      rw [ev.2.1, dspt] at hq
      rw [(ev.2.2.2.1 q).1] at hqu
      simp only [List.mem_append, List.mem_singleton] at hq
      rcases hq with hq | hq
      · rw [dold q (hwf.2.2.1 k.cur q hq)] at hqu
        exact absurd hqu (hno q hq)
      · subst hq
        exact ⟨by rw [(ev.2.2.2.1 _).2]; exact dp, hm2⟩
    refine ⟨ev.1.trans dcur, evolves_vm_wf dwf ev, hnew, ?_⟩
    intro page hpr
    by_cases hpg : page = pg_round_down a
    · rw [hpg]; exact hnew
    · apply evolves_pinned_resident dwf ev k.cur page
      intro q hq hqu
      rw [dspt] at hq
      simp only [List.mem_append, List.mem_singleton] at hq
      rcases hq with hq | hq
      · rw [dold q (hwf.2.2.1 k.cur q hq)] at hqu ⊢
        rw [dpd]
        exact hpr q hq hqu
      · subst hq
        rw [du] at hqu
        exact absurd hqu.symm hpg

/-- The contract of `valid_up` on well-formed tables: when it returns, the
tables are well formed, an entry of the page of `a` is pinned and resident, and
every page that was pinned and resident still is. -/
theorem valid_up_spec (esp a : Nat) (k k1 : Kernel) (hwf : vm_wf k)
    (h : valid_up esp a k = .ok k1) :
    k1.cur = k.cur ∧ vm_wf k1 ∧ pinned_resident k1 k.cur (pg_round_down a) ∧
    ∀ page, pinned_resident k k.cur page → pinned_resident k1 k.cur page := by
  unfold valid_up at h
  split at h
  · exact absurd h (by simp)
  · cases hl : uvaddr_to_spt_entry k a with
    | some p =>
      rw [hl] at h
      dsimp only at h
      obtain ⟨hpm, hpu⟩ := uvaddr_to_spt_entry_some k a p hl
      obtain ⟨pwf, pu, pp, ppr⟩ := pin_spec k p hwf
      generalize hkp : heap_set k p { k.heap p with pinned := true } = kp at h pwf pu pp ppr
      have hcur : kp.cur = k.cur := by rw [← hkp]; rfl
      have hspt : kp.supp_page_table = k.supp_page_table := by rw [← hkp]; rfl
      have hpd : kp.pagedir = k.pagedir := by rw [← hkp]; rfl
      have huniq : ∀ q, q ∈ kp.supp_page_table k.cur →
          (kp.heap q).upage = pg_round_down a → q = p := by
        intro q hq hqu
        rw [hspt] at hq
        rw [pu] at hqu
        exact hwf.2.1 k.cur q p hq hpm (hqu.trans hpu.symm)
      split at h
      · cases hi : install_load_page p kp with
        | error e => rw [hi] at h; exact absurd h (by simp)
        | ok x =>
          obtain ⟨b, k2⟩ := x
          rw [hi] at h
          cases b with
          | false => exact absurd h (by simp)
          | true =>
            simp only [Except.ok.injEq] at h
            subst h
            have hpm2 : p ∈ kp.supp_page_table kp.cur := by rw [hspt, hcur]; exact hpm
            obtain ⟨ev, hm⟩ := install_load_page_spec p kp k2 true pwf.1 hpm2 hi
            have hm2 := hm rfl
            rw [pu, hpu, pg_round_down_idem, hcur] at hm2
            refine ⟨ev.1.trans hcur, evolves_vm_wf pwf ev, ?_, ?_⟩
            · intro q hq hqu
              rw [ev.2.1] at hq
              rw [(ev.2.2.2.1 q).1] at hqu
              have := huniq q hq hqu
              subst this
              exact ⟨by rw [(ev.2.2.2.1 q).2]; exact pp, hm2⟩
            · intro page hpr
              exact evolves_pinned_resident pwf ev k.cur page (ppr k.cur page hpr)
      · rename_i hmap
        simp only [Except.ok.injEq] at h
        subst h
        refine ⟨hcur, pwf, ?_, fun page hpr => ppr k.cur page hpr⟩
        intro q hq hqu
        have := huniq q hq hqu
        subst this
        refine ⟨pp, ?_⟩
        rw [hcur] at hmap
        exact pagedir_get_page_isSome kp k.cur a hmap
    | none =>
      rw [hl] at h
      dsimp only at h
      have hno := uvaddr_to_spt_entry_none k a hl
      split at h
      · split at h
        · cases hs : stack_increase a true k with
          | error e => rw [hs] at h; exact absurd h (by simp)
          | ok x =>
            obtain ⟨b, k2⟩ := x
            rw [hs] at h
            cases b with
            | false => exact absurd h (by simp)
            | true =>
              simp only [Except.ok.injEq] at h
              subst h
              exact stack_increase_spec a k k2 hwf hl hs
        · exact absurd h (by simp)
      · simp only [Except.ok.injEq] at h
        subst h
        refine ⟨rfl, hwf, ?_, fun _ hpr => hpr⟩
        intro q hq hqu
        exact absurd hqu (hno q hq)

/-! ## Validation: lemmas -/

theorem valid_up_all_append (esp : Nat) (l1 l2 : List Nat) (k : Kernel) :
    valid_up_all esp (l1 ++ l2) k =
      match valid_up_all esp l1 k with
      | .error e => .error e
      | .ok k1 => valid_up_all esp l2 k1 := by
  induction l1 generalizing k with
  | nil => rfl
  | cons a rest ih =>
    simp only [List.cons_append, valid_up_all]
    cases valid_up esp a k with
    | error e => rfl
    | ok k1 => exact ih k1

theorem validate_loop_trace (esp ptr size fuel i : Nat) (k k1 : Kernel)
    (h : validate_loop esp ptr size fuel i k = .ok k1) :
    valid_up_all esp (validate_trace_loop ptr size fuel i) k = .ok k1 := by
  induction fuel generalizing i k with
  | zero => simp [validate_loop] at h
  | succ fuel ih =>
    unfold validate_loop at h
    unfold validate_trace_loop
    split
    · rename_i hi
      rw [if_pos hi] at h
      simp only [valid_up_all]
      cases hv : valid_up esp ((ptr + i) % WORD) k with
      | error e => rw [hv] at h; exact absurd h (by simp)
      | ok k2 =>
        rw [hv] at h
        exact ih _ _ h
    · rename_i hi
      rw [if_neg hi] at h
      exact h

theorem valid_up_all_nil (esp : Nat) (k : Kernel) : valid_up_all esp [] k = .ok k := rfl

theorem valid_up_all_singleton (esp a : Nat) (k : Kernel) :
    valid_up_all esp [a] k = valid_up esp a k := by
  rw [valid_up_all]
  cases valid_up esp a k with
  | error e => rfl
  | ok k1 => rfl

theorem validate_eq_trace (esp ptr size : Nat) (k k1 : Kernel)
    (h : validate esp ptr size k = .ok k1) :
    valid_up_all esp (validate_trace ptr size) k = .ok k1 := by
  unfold validate at h
  unfold validate_trace
  rw [valid_up_all]
  cases hv : valid_up esp ptr k with
  | error e => rw [hv] at h; exact absurd h (by simp)
  | ok k2 =>
    rw [hv] at h
    change valid_up_all esp ((if size ≠ 1 then [(ptr + size + WORD - 1) % WORD] else []) ++
      validate_trace_loop ptr size (WORD / PGSIZE + 1) PGSIZE) k2 = .ok k1
    change (match (if size ≠ 1 then valid_up esp ((ptr + size + WORD - 1) % WORD) k2
        else Except.ok k2) with
      | Except.error e => Except.error e
      | Except.ok k3 => validate_loop esp ptr size (WORD / PGSIZE + 1) PGSIZE k3) =
      Except.ok k1 at h
    rw [valid_up_all_append]
    by_cases hs : size ≠ 1
    · rw [if_pos hs] at h ⊢
      rw [valid_up_all_singleton]
      cases hv2 : valid_up esp ((ptr + size + WORD - 1) % WORD) k2 with
      | error e => rw [hv2] at h; exact absurd h (by simp)
      | ok k3 =>
        rw [hv2] at h
        exact validate_loop_trace _ _ _ _ _ _ _ h
    · rw [if_neg hs] at h ⊢
      rw [valid_up_all_nil]
      exact validate_loop_trace _ _ _ _ _ _ _ h

theorem valid_up_all_spec (esp : Nat) (l : List Nat) (k k1 : Kernel) (hwf : vm_wf k)
    (h : valid_up_all esp l k = .ok k1) :
    k1.cur = k.cur ∧ vm_wf k1 ∧
    (∀ a, a ∈ l → pinned_resident k1 k.cur (pg_round_down a)) ∧
    ∀ page, pinned_resident k k.cur page → pinned_resident k1 k.cur page := by
  induction l generalizing k with
  | nil =>
    simp only [valid_up_all, Except.ok.injEq] at h
    subst h
    exact ⟨rfl, hwf, fun a ha => absurd ha (by simp), fun _ hp => hp⟩
  | cons a rest ih =>
    simp only [valid_up_all] at h
    cases hv : valid_up esp a k with
    | error e => rw [hv] at h; exact absurd h (by simp)
    | ok k2 =>
      rw [hv] at h
      obtain ⟨c1, w1, p1, q1⟩ := valid_up_spec esp a k k2 hwf hv
      obtain ⟨c2, w2, p2, q2⟩ := ih k2 w1 h
      rw [c1] at p2 q2
      refine ⟨c2.trans c1, w2, ?_, fun page hp => q2 page (q1 page hp)⟩
      intro b hb
      rcases List.mem_cons.mp hb with hb | hb
      · subst hb
        exact q2 _ p1
      · exact p2 b hb

theorem validate_trace_loop_mem (ptr size : Nat) (hsz : size ≤ WORD) :
    ∀ fuel i0 j, i0 ≤ j → j * PGSIZE < size → j - i0 < fuel →
      (ptr + j * PGSIZE) % WORD ∈ validate_trace_loop ptr size fuel (i0 * PGSIZE) := by
  intro fuel
  induction fuel with
  | zero => intro i0 j _ _ h; omega
  | succ fuel ih =>
    intro i0 j h1 h2 h3
    unfold validate_trace_loop
    rw [if_pos (by unfold PGSIZE at *; omega)]
    by_cases hj : j = i0
    · subst hj
      exact List.mem_cons_self _ _
    · apply List.mem_cons_of_mem
      have e : (i0 * PGSIZE + PGSIZE) % WORD = (i0 + 1) * PGSIZE := by
        unfold PGSIZE WORD at *; omega
      rw [e]
      exact ih (i0 + 1) j (by omega) h2 (by omega)

theorem validate_trace_covers (ptr size page : Nat) (hsize : 1 ≤ size) (hwrap : ptr + size ≤ WORD)
    (hal : page % PGSIZE = 0) (h1 : ptr < page + PGSIZE) (h2 : page < ptr + size) :
    ∃ a, a ∈ validate_trace ptr size ∧ pg_round_down a = page := by
  by_cases hfirst : page ≤ ptr
  · refine ⟨ptr, List.mem_cons_self _ _, ?_⟩
    unfold pg_round_down PGSIZE at *; omega
  · obtain ⟨j, hj⟩ : ∃ j, page = pg_round_down ptr + j * PGSIZE := by
      refine ⟨(page - pg_round_down ptr) / PGSIZE, ?_⟩
      unfold pg_round_down PGSIZE at *; omega
    have hj1 : 1 ≤ j := by
      unfold pg_round_down PGSIZE at *; omega
    by_cases hin : j * PGSIZE < size
    · have hfuel : j - 1 < WORD / PGSIZE + 1 := by
        unfold PGSIZE WORD at *; omega
      have hsz : size ≤ WORD := by omega
      have hrd : pg_round_down ((ptr + j * PGSIZE) % WORD) = page := by
        unfold pg_round_down PGSIZE WORD at *; omega
      have hmem := validate_trace_loop_mem ptr size hsz (WORD / PGSIZE + 1) 1 j hj1 hin hfuel
      rw [Nat.one_mul] at hmem
      refine ⟨(ptr + j * PGSIZE) % WORD, ?_, hrd⟩
      unfold validate_trace
      apply List.mem_cons_of_mem
      apply List.mem_append_right
      exact hmem
    · have hs1 : size ≠ 1 := by
        unfold pg_round_down PGSIZE at *; omega
      have hrd : pg_round_down ((ptr + size + WORD - 1) % WORD) = page := by
        unfold pg_round_down PGSIZE WORD at *; omega
      refine ⟨(ptr + size + WORD - 1) % WORD, ?_, hrd⟩
      unfold validate_trace
      apply List.mem_cons_of_mem
      apply List.mem_append_left
      rw [if_pos hs1]
      exact List.mem_singleton_self _

/-! ## Memory-mapped regions: lemmas -/

theorem to_int32_of_range (x : Int) (h1 : -(2 ^ 31) ≤ x) (h2 : x < 2 ^ 31) : to_int32 x = x := by
  unfold to_int32
  omega

theorem mmap_state_zero (k : Kernel) (f L upage : Nat) : mmap_state k f L upage 0 0 = k := by
  cases k
  simp only [mmap_state, Nat.add_zero, Nat.sub_self, List.range'_zero, List.append_nil]
  congr 1
  · funext t
    split
    · rename_i h; rw [h]
    · rfl
  · funext p
    rw [if_neg (by omega)]

theorem mmap_page_aligned (upage j : Nat) (h : upage % PGSIZE = 0) :
    pg_round_down (mmap_page upage j) = mmap_page upage j := by
  unfold pg_round_down mmap_page PGSIZE WORD at *
  omega

theorem mmap_page_inj (upage i j : Nat) (hi : i < 2 ^ 19) (hj : j < 2 ^ 19)
    (h : mmap_page upage i = mmap_page upage j) : i = j := by
  unfold mmap_page PGSIZE WORD at *
  omega

theorem mmap_page_succ (upage j : Nat) :
    (mmap_page upage j + PGSIZE) % WORD = mmap_page upage (j + 1) := by
  unfold mmap_page PGSIZE WORD at *
  omega

theorem mmap_state_heap_old (k : Kernel) (f L upage i j p : Nat) (h : p < k.brk) :
    (mmap_state k f L upage i j).heap p = k.heap p := by
  simp only [mmap_state]
  rw [if_neg (by omega)]

theorem mmap_state_heap_new (k : Kernel) (f L upage i j m : Nat) (h : m < j) :
    (mmap_state k f L upage i j).heap (k.brk + m) = mmap_entry k f L upage m := by
  simp only [mmap_state]
  rw [if_pos (by omega)]
  congr 1
  omega

/-- No entry of the state between the two loops has the key of a page of the
mapping that is not in the table. -/
theorem mmap_state_no_key (k : Kernel) (f L upage i j m : Nat)
    (hup : upage % PGSIZE = 0) (hj : j ≤ 2 ^ 19) (hm : m < 2 ^ 19) (hout : m < i ∨ j ≤ m)
    (hheap : ∀ p, p ∈ k.supp_page_table k.cur → p < k.brk)
    (hnone : uvaddr_to_spt_entry k (mmap_page upage m) = none) :
    ∀ x, x ∈ (mmap_state k f L upage i j).supp_page_table k.cur →
      ¬ (((mmap_state k f L upage i j).heap x).upage == mmap_page upage m) = true := by
  intro x hx
  simp only [mmap_state, if_true, List.mem_append, List.mem_range'_1] at hx
  rcases hx with hx | hx
  · have hlt := hheap x hx
    rw [mmap_state_heap_old k f L upage i j x hlt]
    unfold uvaddr_to_spt_entry at hnone
    rw [List.find?_eq_none] at hnone
    have := hnone x hx
    rw [mmap_page_aligned upage m hup] at this
    exact this
  · obtain ⟨c, rfl⟩ : ∃ c, x = k.brk + c := ⟨x - k.brk, by omega⟩
    rw [mmap_state_heap_new k f L upage i j c (by omega)]
    simp only [mmap_entry, beq_iff_eq]
    intro heq
    have := mmap_page_inj upage c m (by omega) hm heq
    omega

theorem mmap_state_lookup_none (k : Kernel) (f L upage i j m : Nat)
    (hup : upage % PGSIZE = 0) (hj : j ≤ 2 ^ 19) (hm : m < 2 ^ 19) (hout : m < i ∨ j ≤ m)
    (hheap : ∀ p, p ∈ k.supp_page_table k.cur → p < k.brk)
    (hnone : uvaddr_to_spt_entry k (mmap_page upage m) = none) :
    uvaddr_to_spt_entry (mmap_state k f L upage i j) (mmap_page upage m) = none := by
  unfold uvaddr_to_spt_entry
  rw [List.find?_eq_none, mmap_page_aligned upage m hup]
  exact mmap_state_no_key k f L upage i j m hup hj hm hout hheap hnone

theorem mmap_state_lookup_some (k : Kernel) (f L upage i j : Nat)
    (hup : upage % PGSIZE = 0) (hij : i < j) (hj : j ≤ 2 ^ 19)
    (hheap : ∀ p, p ∈ k.supp_page_table k.cur → p < k.brk)
    (hnone : uvaddr_to_spt_entry k (mmap_page upage i) = none) :
    uvaddr_to_spt_entry (mmap_state k f L upage i j) (mmap_page upage i) = some (k.brk + i) := by
  have hold : (k.supp_page_table k.cur).find?
      (fun p => ((mmap_state k f L upage i j).heap p).upage == mmap_page upage i) = none := by
    rw [List.find?_eq_none]
    intro x hx
    have hlt := hheap x hx
    rw [mmap_state_heap_old k f L upage i j x hlt]
    unfold uvaddr_to_spt_entry at hnone
    rw [List.find?_eq_none] at hnone
    have := hnone x hx
    rw [mmap_page_aligned upage i hup] at this
    exact this
  obtain ⟨c, hc⟩ : ∃ c, j - i = c + 1 := ⟨j - i - 1, by omega⟩
  unfold uvaddr_to_spt_entry
  rw [mmap_page_aligned upage i hup]
  show ((mmap_state k f L upage i j).supp_page_table k.cur).find? _ = _
  simp only [mmap_state, if_true]
  rw [List.find?_append]
  have hold2 := hold
  simp only [mmap_state] at hold2
  rw [hold2, hc, List.range'_succ, Option.none_or, List.find?_cons_of_pos]
  rw [if_pos (by omega)]
  simp [mmap_entry]

theorem mmap_written_heap (k : Kernel) (f L upage j q : Nat) :
    (mmap_written k f L upage j).heap q =
      if q = k.brk + j then mmap_entry k f L upage j
      else (mmap_state k f L upage 0 j).heap q := by
  simp only [mmap_written, spte_details, heap_set, create_spte, mmap_state]
  by_cases hq : q = k.brk + j
  · subst hq
    simp [mmap_entry]
  · simp [hq]

theorem mmap_create_step (k : Kernel) (f L upage j : Nat)
    (hup : upage % PGSIZE = 0) (hj : j < 2 ^ 19)
    (hheap : ∀ p, p ∈ k.supp_page_table k.cur → p < k.brk)
    (hnone : uvaddr_to_spt_entry k (mmap_page upage j) = none) :
    hash_insert (mmap_written k f L upage j) k.cur (k.brk + j) =
      mmap_state k f L upage 0 (j + 1) := by
  have hkey := mmap_state_no_key k f L upage 0 j j hup (by omega) hj (Or.inr (le_refl j))
    hheap hnone
  have hany : ((mmap_written k f L upage j).supp_page_table k.cur).any
      (fun q => ((mmap_written k f L upage j).heap q).upage ==
        ((mmap_written k f L upage j).heap (k.brk + j)).upage) = false := by
    rw [List.any_eq_false]
    intro x hx
    have hx1 : x ∈ (mmap_state k f L upage 0 j).supp_page_table k.cur := hx
    have hx2 := hx1
    simp only [mmap_state, if_true, List.mem_append, List.mem_range'_1] at hx2
    have hne : x ≠ k.brk + j := by
      rcases hx2 with h | h
      · have := hheap x h; omega
      · omega
    rw [mmap_written_heap, mmap_written_heap, if_neg hne, if_pos rfl]
    exact hkey x hx1
  unfold hash_insert
  rw [hany]
  simp only [Bool.false_eq_true, if_false]
  apply Kernel.ext
  case heap =>
    funext p
    show (mmap_written k f L upage j).heap p = _
    rw [mmap_written_heap]
    by_cases hp : p = k.brk + j
    · rw [if_pos hp, hp, mmap_state_heap_new k f L upage 0 (j + 1) j (by omega)]
    · rw [if_neg hp]
      simp only [mmap_state]
      by_cases hp2 : k.brk ≤ p ∧ p < k.brk + j
      · rw [if_pos hp2, if_pos (by omega)]
      · rw [if_neg hp2, if_neg (by omega)]
  case supp_page_table =>
    funext t
    simp only [mmap_written, spte_details, heap_set, create_spte, mmap_state]
    split
    · simp only [if_true, Nat.add_zero, Nat.sub_zero]
      rw [List.range'_1_concat, List.append_assoc]
    · rfl
  all_goals rfl

theorem mmap_rest_succ (L j : Nat) :
    mmap_rest L (j + 1) = mmap_rest L j - min (mmap_rest L j) PGSIZE := by
  unfold mmap_rest PGSIZE
  omega

theorem mmap_create_loop (k : Kernel) (fuel0 f L upage n : Nat)
    (hL : L < 2 ^ 31) (hn : n = (L + PGSIZE - 1) / PGSIZE)
    (hup : upage % PGSIZE = 0)
    (hheap : ∀ p, p ∈ k.supp_page_table k.cur → p < k.brk)
    (hnone : ∀ i, i < n → uvaddr_to_spt_entry k (mmap_page upage i) = none) :
    ∀ d j fuel, j + d = n → d + 1 ≤ fuel →
      create_spte_mmap_loop fuel0 f fuel ((mmap_rest L j : Nat) : Int)
        ((L - mmap_rest L j : Nat) : Int) (mmap_page upage j) (if j = 0 then 0 else 1)
        (if j = 0 then none else some k.brk) (mmap_state k f L upage 0 j) =
      .ok (if n = 0 then none else some k.brk, mmap_state k f L upage 0 n) := by
  have hP : PGSIZE = 4096 := rfl
  have hn19 : n ≤ 2 ^ 19 := by rw [hn, hP]; omega
  intro d
  induction d with
  | zero =>
    intro j fuel hj hfuel
    obtain ⟨fuel1, rfl⟩ : ∃ c, fuel = c + 1 := ⟨fuel - 1, by omega⟩
    have hjn : j = n := by omega
    subst hjn
    have hr : mmap_rest L j = 0 := by
      unfold mmap_rest; rw [hn, hP]; omega
    rw [create_spte_mmap_loop, hr]
    simp
  | succ d ih =>
    intro j fuel hj hfuel
    obtain ⟨fuel1, rfl⟩ : ∃ c, fuel = c + 1 := ⟨fuel - 1, by omega⟩
    have hjn : j < n := by omega
    have hr : 0 < mmap_rest L j := by
      unfold mmap_rest; rw [hn, hP] at hjn; rw [hP]; omega
    have hrL : mmap_rest L j ≤ L := by unfold mmap_rest; omega
    have hlook := mmap_state_lookup_none k f L upage 0 j j hup (by omega) (by omega)
      (Or.inr (le_refl j)) hheap (hnone j hjn)
    have hstep := mmap_create_step k f L upage j hup (by omega) hheap (hnone j hjn)
    have hprb : (if ((mmap_rest L j : Nat) : Int) < (PGSIZE : Int)
        then ((mmap_rest L j : Nat) : Int).toNat else PGSIZE) = min (mmap_rest L j) PGSIZE := by
      split
      · rename_i h
        have : mmap_rest L j < PGSIZE := by exact_mod_cast h
        rw [Int.toNat_ofNat, Nat.min_eq_left (by omega)]
      · rename_i h
        have : ¬ mmap_rest L j < PGSIZE := by intro hc; exact h (by exact_mod_cast hc)
        rw [Nat.min_eq_right (by omega)]
    rw [create_spte_mmap_loop]
    simp only [hprb]
    rw [if_pos (by exact_mod_cast hr), hlook]
    simp only []
    change create_spte_mmap_loop fuel0 f fuel1 _ _ _ _ _
      (hash_insert (mmap_written k f L upage j) k.cur (k.brk + j)) = _
    rw [hstep]
    have e1 : to_int32 (((mmap_rest L j : Nat) : Int) - ((min (mmap_rest L j) PGSIZE : Nat) : Int))
        = ((mmap_rest L (j + 1) : Nat) : Int) := by
      have hs := mmap_rest_succ L j
      rw [hP] at hs ⊢
      rw [to_int32_of_range] <;> omega
    have e2 : to_int32 (((L - mmap_rest L j : Nat) : Int) +
        ((min (mmap_rest L j) PGSIZE : Nat) : Int)) = ((L - mmap_rest L (j + 1) : Nat) : Int) := by
      have hs := mmap_rest_succ L j
      rw [hP] at hs ⊢
      rw [to_int32_of_range] <;> omega
    have e3 : (if (if j = 0 then 0 else 1) = 0 then (if j = 0 then 0 else 1) + 1
        else (if j = 0 then 0 else 1)) = (if j + 1 = 0 then 0 else 1) := by
      by_cases hj0 : j = 0 <;> simp [hj0]
    have e4 : (if (if j = 0 then 0 else 1) = 0 then
          some (create_spte (mmap_state k f L upage 0 j)).1
        else (if j = 0 then none else some k.brk)) =
        (if j + 1 = 0 then none else some k.brk) := by
      by_cases hj0 : j = 0
      · subst hj0; simp [create_spte, mmap_state]
      · simp [hj0]
    rw [e1, e2, e3, e4, mmap_page_succ]
    exact ih (j + 1) fuel1 (by omega) (by omega)

theorem write_to_disk_fields (p : Nat) (k : Kernel) :
    (write_to_disk p k).2.cur = k.cur ∧ (write_to_disk p k).2.heap = k.heap ∧
    (write_to_disk p k).2.file_len = k.file_len ∧
    (write_to_disk p k).2.supp_page_table = k.supp_page_table ∧
    (write_to_disk p k).2.frame_table = k.frame_table ∧
    (write_to_disk p k).2.pagedir = k.pagedir := by
  simp only [write_to_disk, file_write_at]
  split_ifs <;> exact ⟨rfl, rfl, rfl, rfl, rfl, rfl⟩

/-- What `free_spte` does to the state. -/
theorem free_spte_effect (p : Nat) (k : Kernel) :
    (free_spte (some p) k).cur = k.cur ∧ (free_spte (some p) k).heap = k.heap ∧
    (free_spte (some p) k).file_len = k.file_len ∧
    (free_spte (some p) k).supp_page_table = (fun t =>
      if t = k.cur then
        (k.supp_page_table k.cur).eraseP (fun q => (k.heap q).upage == (k.heap p).upage)
      else k.supp_page_table t) ∧
    (free_spte (some p) k).frame_table =
      (match (k.heap p).frame with
      | some fr => k.frame_table.eraseP (fun fte => fte.frame == fr)
      | none => k.frame_table) ∧
    (free_spte (some p) k).pagedir =
      (match (k.heap p).frame with
      | some _ => fun t pg =>
        if t = k.cur ∧ pg = pg_round_down (k.heap p).upage then none else k.pagedir t pg
      | none => k.pagedir) := by
  simp only [free_spte]
  cases hfr : (k.heap p).frame with
  | none => exact ⟨rfl, rfl, rfl, rfl, rfl, rfl⟩
  | some fr =>
    dsimp only
    have hk2 : ∀ k2 : Kernel, k2.cur = k.cur → k2.heap = k.heap → k2.file_len = k.file_len →
        k2.supp_page_table = k.supp_page_table → k2.frame_table = k.frame_table →
        k2.pagedir = k.pagedir →
        (hash_delete (free_frame fr (pagedir_clear_page k2 k2.cur (k.heap p).upage))
            (free_frame fr (pagedir_clear_page k2 k2.cur (k.heap p).upage)).cur p).cur = k.cur ∧
        (hash_delete (free_frame fr (pagedir_clear_page k2 k2.cur (k.heap p).upage))
            (free_frame fr (pagedir_clear_page k2 k2.cur (k.heap p).upage)).cur p).heap = k.heap ∧
        (hash_delete (free_frame fr (pagedir_clear_page k2 k2.cur (k.heap p).upage))
            (free_frame fr (pagedir_clear_page k2 k2.cur (k.heap p).upage)).cur p).file_len =
          k.file_len ∧
        (hash_delete (free_frame fr (pagedir_clear_page k2 k2.cur (k.heap p).upage))
            (free_frame fr (pagedir_clear_page k2 k2.cur (k.heap p).upage)).cur p).supp_page_table =
          (fun t =>
            if t = k.cur then
              (k.supp_page_table k.cur).eraseP
                (fun q => (k.heap q).upage == (k.heap p).upage)
            else k.supp_page_table t) ∧
        (hash_delete (free_frame fr (pagedir_clear_page k2 k2.cur (k.heap p).upage))
            (free_frame fr (pagedir_clear_page k2 k2.cur (k.heap p).upage)).cur p).frame_table =
          k.frame_table.eraseP (fun fte => fte.frame == fr) ∧
        (hash_delete (free_frame fr (pagedir_clear_page k2 k2.cur (k.heap p).upage))
            (free_frame fr (pagedir_clear_page k2 k2.cur (k.heap p).upage)).cur p).pagedir =
          (fun t pg =>
            if t = k.cur ∧ pg = pg_round_down (k.heap p).upage then none
            else k.pagedir t pg) := by
      intro k2 h1 h2 h3 h4 h5 h6
      simp only [hash_delete, free_frame, palloc_free_page, pagedir_clear_page, pagedir_put,
        h1, h2, h3, h4, h5, h6]
      exact ⟨trivial, trivial, trivial, trivial, trivial, trivial⟩
    by_cases hw : (k.heap p).type = spte_type.MMAP ∨
        ((k.heap p).type = spte_type.FILE ∧ (k.heap p).writable = true)
    · rw [if_pos hw]
      obtain ⟨h1, h2, h3, h4, h5, h6⟩ := write_to_disk_fields p k
      exact hk2 _ h1 h2 h3 h4 h5 h6
    · rw [if_neg hw]
      exact hk2 k rfl rfl rfl rfl rfl rfl

/-! ## File segments and mappings: what the creation loops allocate -/

theorem file_loop_unfold (file : Nat) (writable : Bool) (fuel : Nat) (ofs : Int)
    (upage read_bytes zero_bytes : Nat) (k : Kernel) (h : zero_bytes > 0 ∨ read_bytes > 0) :
    file_supp_creation_loop file writable (fuel + 1) ofs upage read_bytes zero_bytes k =
      file_supp_creation_loop file writable fuel
        (to_int32 (ofs + ((if read_bytes < PGSIZE then read_bytes else PGSIZE : Nat) : Int)))
        ((upage + PGSIZE) % WORD)
        (read_bytes - (if read_bytes < PGSIZE then read_bytes else PGSIZE))
        ((zero_bytes + WORD - (PGSIZE - (if read_bytes < PGSIZE then read_bytes else PGSIZE)))
          % WORD)
        (file_step file writable ofs upage read_bytes k) := by
  rw [file_supp_creation_loop, if_pos h]
  rfl

theorem hash_insert_fields (a : Kernel) (t p : Nat) :
    (hash_insert a t p).brk = a.brk ∧ (hash_insert a t p).cur = a.cur ∧
    (hash_insert a t p).heap = a.heap ∧ (hash_insert a t p).pagedir = a.pagedir ∧
    (hash_insert a t p).frame_table = a.frame_table ∧ (hash_insert a t p).pool = a.pool ∧
    (hash_insert a t p).swap_table = a.swap_table ∧
    (∀ t1, t1 ≠ t → (hash_insert a t p).supp_page_table t1 = a.supp_page_table t1) ∧
    ((hash_insert a t p).supp_page_table t = a.supp_page_table t ∨
      (hash_insert a t p).supp_page_table t = a.supp_page_table t ++ [p]) := by
  unfold hash_insert
  split
  · exact ⟨rfl, rfl, rfl, rfl, rfl, rfl, rfl, fun _ _ => rfl, Or.inl rfl⟩
  · refine ⟨rfl, rfl, rfl, rfl, rfl, rfl, rfl, ?_, Or.inr ?_⟩
    · intro t1 ht
      simp [ht]
    · simp

theorem file_written_heap (file : Nat) (writable : Bool) (ofs : Int) (upage read_bytes : Nat)
    (k : Kernel) (hofs : to_int32 ofs = ofs) (hup : upage < WORD) (q : Nat) :
    (file_written file writable ofs upage read_bytes k).heap q =
      if q = k.brk then file_entry file ofs upage read_bytes writable 0 else k.heap q := by
  unfold file_written
  by_cases hq : q = k.brk
  · subst hq
    simp only [heap_set, spte_details, create_spte, if_true, file_entry]
    apply spt_entry.ext <;> simp [hofs, Nat.mod_eq_of_lt hup]
    all_goals (split <;> omega)
  · simp [heap_set, spte_details, create_spte, hq]

theorem file_written_fields (file : Nat) (writable : Bool) (ofs : Int) (upage read_bytes : Nat)
    (k : Kernel) :
    (file_written file writable ofs upage read_bytes k).brk = k.brk + 1 ∧
    (file_written file writable ofs upage read_bytes k).cur = k.cur ∧
    (file_written file writable ofs upage read_bytes k).pagedir = k.pagedir ∧
    (file_written file writable ofs upage read_bytes k).frame_table = k.frame_table ∧
    (file_written file writable ofs upage read_bytes k).pool = k.pool ∧
    (file_written file writable ofs upage read_bytes k).swap_table = k.swap_table ∧
    (file_written file writable ofs upage read_bytes k).supp_page_table = k.supp_page_table :=
  ⟨rfl, rfl, rfl, rfl, rfl, rfl, rfl⟩

theorem file_step_heap (file : Nat) (writable : Bool) (ofs : Int) (upage read_bytes : Nat)
    (k : Kernel) (hofs : to_int32 ofs = ofs) (hup : upage < WORD) (q : Nat) :
    (file_step file writable ofs upage read_bytes k).heap q =
      if q = k.brk then file_entry file ofs upage read_bytes writable 0 else k.heap q := by
  unfold file_step
  rw [(hash_insert_fields _ _ _).2.2.1]
  exact file_written_heap file writable ofs upage read_bytes k hofs hup q

theorem file_step_fields (file : Nat) (writable : Bool) (ofs : Int) (upage read_bytes : Nat)
    (k : Kernel) :
    (file_step file writable ofs upage read_bytes k).brk = k.brk + 1 ∧
    (file_step file writable ofs upage read_bytes k).cur = k.cur ∧
    (file_step file writable ofs upage read_bytes k).pagedir = k.pagedir ∧
    (file_step file writable ofs upage read_bytes k).frame_table = k.frame_table ∧
    (file_step file writable ofs upage read_bytes k).pool = k.pool ∧
    (file_step file writable ofs upage read_bytes k).swap_table = k.swap_table ∧
    (∀ t, t ≠ k.cur → (file_step file writable ofs upage read_bytes k).supp_page_table t =
      k.supp_page_table t) ∧
    ((file_step file writable ofs upage read_bytes k).supp_page_table k.cur =
        k.supp_page_table k.cur ∨
      (file_step file writable ofs upage read_bytes k).supp_page_table k.cur =
        k.supp_page_table k.cur ++ [k.brk]) := by
  unfold file_step
  obtain ⟨h1, h2, _, h4, h5, h6, h7, h8, h9⟩ := hash_insert_fields
    (file_written file writable ofs upage read_bytes k) k.cur k.brk
  exact ⟨h1, h2, h4, h5, h6, h7, h8, h9⟩

theorem file_step_table (file : Nat) (writable : Bool) (ofs : Int) (upage read_bytes : Nat)
    (k : Kernel) (hofs : to_int32 ofs = ofs) (hup : upage < WORD)
    (hal : upage % PGSIZE = 0)
    (hheap : ∀ p, p ∈ k.supp_page_table k.cur → p < k.brk)
    (hnone : uvaddr_to_spt_entry k upage = none) :
    (file_step file writable ofs upage read_bytes k).supp_page_table k.cur =
      k.supp_page_table k.cur ++ [k.brk] := by
  have hkey := uvaddr_to_spt_entry_none k upage hnone
  have hrd : pg_round_down upage = upage := by
    unfold pg_round_down
    have hP : PGSIZE = 4096 := rfl
    rw [hP] at hal ⊢
    omega
  unfold file_step
  rw [hash_insert_absent]
  · simp [(file_written_fields file writable ofs upage read_bytes k).2.2.2.2.2.2]
  · intro q hq
    rw [(file_written_fields file writable ofs upage read_bytes k).2.2.2.2.2.2] at hq
    have hlt := hheap q hq
    rw [file_written_heap _ _ _ _ _ _ hofs hup, file_written_heap _ _ _ _ _ _ hofs hup,
      if_neg (by omega), if_pos rfl]
    have := hkey q hq
    rw [hrd] at this
    simpa [file_entry, Nat.mod_eq_of_lt hup] using this

theorem to_int32_add (a b : Int) : to_int32 (to_int32 a + b) = to_int32 (a + b) := by
  unfold to_int32
  omega

theorem to_int32_idem (a : Int) : to_int32 (to_int32 a) = to_int32 a := by
  unfold to_int32
  omega

theorem file_entry_succ (file : Nat) (ofs : Int) (upage read_bytes : Nat) (writable : Bool)
    (j : Nat) :
    file_entry file (to_int32 (ofs + ((if read_bytes < PGSIZE then read_bytes else PGSIZE : Nat) : Int)))
      ((upage + PGSIZE) % WORD)
      (read_bytes - (if read_bytes < PGSIZE then read_bytes else PGSIZE)) writable j =
    file_entry file ofs upage read_bytes writable (j + 1) := by
  have hP : PGSIZE = 4096 := rfl
  have hW : WORD = 4294967296 := rfl
  unfold file_entry
  apply spt_entry.ext <;> simp only []
  · rw [hP, hW]; omega
  · rw [to_int32_add]
    congr 1
    rw [hP]
    split <;> omega
  · rw [hP]; split <;> omega
  · rw [hP]; split <;> omega

theorem file_loop_blocks (file : Nat) (writable : Bool) :
    ∀ (n fuel : Nat) (ofs : Int) (upage read_bytes zero_bytes : Nat) (k : Kernel),
      read_bytes + zero_bytes = n * PGSIZE → zero_bytes < WORD → upage < WORD →
      to_int32 ofs = ofs → n + 1 ≤ fuel →
      ∃ k1, file_supp_creation_loop file writable fuel ofs upage read_bytes zero_bytes k =
          .ok (true, k1) ∧
        k1.brk = k.brk + n ∧ k1.cur = k.cur ∧
        (∀ q, k1.heap q =
          if k.brk ≤ q ∧ q < k.brk + n then
            file_entry file ofs upage read_bytes writable (q - k.brk)
          else k.heap q) ∧
        k1.pagedir = k.pagedir ∧ k1.frame_table = k.frame_table ∧ k1.pool = k.pool ∧
        k1.swap_table = k.swap_table ∧
        (∀ t, t ≠ k.cur → k1.supp_page_table t = k.supp_page_table t) ∧
        ∃ l, k1.supp_page_table k.cur = k.supp_page_table k.cur ++ l ∧
          ∀ p, p ∈ l → k.brk ≤ p ∧ p < k.brk + n := by
  have hP : PGSIZE = 4096 := rfl
  have hW : WORD = 4294967296 := rfl
  intro n
  induction n with
  | zero =>
    intro fuel ofs upage read_bytes zero_bytes k hsum _ _ _ hfuel
    obtain ⟨fuel, rfl⟩ : ∃ f, fuel = f + 1 := ⟨fuel - 1, by omega⟩
    have hz : ¬ (zero_bytes > 0 ∨ read_bytes > 0) := by omega
    refine ⟨k, ?_, rfl, rfl, ?_, rfl, rfl, rfl, rfl, fun _ _ => rfl, [], by simp, by simp⟩
    · rw [file_supp_creation_loop, if_neg hz]
    · intro q
      have : ¬ (k.brk ≤ q ∧ q < k.brk + 0) := by omega
      rw [if_neg this]
  | succ n ih =>
    intro fuel ofs upage read_bytes zero_bytes k hsum hzero hup hofs hfuel
    obtain ⟨fuel, rfl⟩ : ∃ f, fuel = f + 1 := ⟨fuel - 1, by omega⟩
    have hc : zero_bytes > 0 ∨ read_bytes > 0 := by rw [hP] at hsum; omega
    rw [file_loop_unfold _ _ _ _ _ _ _ _ hc]
    obtain ⟨s1, s2, s3, s4, s5, s6, s7, s8⟩ := file_step_fields file writable ofs upage read_bytes k
    have hsum1 : (read_bytes - (if read_bytes < PGSIZE then read_bytes else PGSIZE)) +
        ((zero_bytes + WORD - (PGSIZE - (if read_bytes < PGSIZE then read_bytes else PGSIZE)))
          % WORD) = n * PGSIZE := by
      rw [hP, hW] at *
      split <;> omega
    obtain ⟨k1, e1, e2, e3, e4, e5, e6, e7, e8, e9, l, e10, e11⟩ :=
      ih fuel (to_int32 (ofs + ((if read_bytes < PGSIZE then read_bytes else PGSIZE : Nat) : Int)))
        ((upage + PGSIZE) % WORD)
        (read_bytes - (if read_bytes < PGSIZE then read_bytes else PGSIZE))
        ((zero_bytes + WORD - (PGSIZE - (if read_bytes < PGSIZE then read_bytes else PGSIZE)))
          % WORD)
        (file_step file writable ofs upage read_bytes k) hsum1
        (Nat.mod_lt _ (by rw [hW]; omega)) (Nat.mod_lt _ (by rw [hW]; omega))
        (to_int32_idem _) (by omega)
    refine ⟨k1, e1, by rw [e2, s1]; omega, by rw [e3, s2], ?_, by rw [e5, s3], by rw [e6, s4],
      by rw [e7, s5], by rw [e8, s6], ?_, ?_⟩
    · intro q
      rw [e4 q, s1, file_entry_succ, file_step_heap _ _ _ _ _ _ hofs hup]
      by_cases h1 : q = k.brk
      · subst h1
        have a1 : ¬ (k.brk + 1 ≤ k.brk ∧ k.brk < k.brk + 1 + n) := by omega
        have a2 : k.brk ≤ k.brk ∧ k.brk < k.brk + (n + 1) := by omega
        rw [if_neg a1, if_pos a2, if_pos rfl, Nat.sub_self]
      · by_cases h2 : k.brk + 1 ≤ q ∧ q < k.brk + 1 + n
        · have a2 : k.brk ≤ q ∧ q < k.brk + (n + 1) := by omega
          have a3 : q - (k.brk + 1) + 1 = q - k.brk := by omega
          rw [if_pos h2, if_pos a2, a3]
        · have a2 : ¬ (k.brk ≤ q ∧ q < k.brk + (n + 1)) := by omega
          rw [if_neg h2, if_neg a2, if_neg h1]
    · intro t ht
      rw [s2] at e9
      rw [e9 t ht, s7 t ht]
    · rw [s2] at e10
      rcases s8 with s8 | s8
      · refine ⟨l, by rw [e10, s8], ?_⟩
        intro p hp
        have := e11 p hp
        omega
      · refine ⟨k.brk :: l, by rw [e10, s8]; simp, ?_⟩
        intro p hp
        rcases List.mem_cons.mp hp with rfl | hp
        · omega
        · have := e11 p hp
          omega

theorem uvaddr_to_spt_entry_eq_none (k : Kernel) (a : Nat)
    (h : ∀ q, q ∈ k.supp_page_table k.cur → (k.heap q).upage ≠ pg_round_down a) :
    uvaddr_to_spt_entry k a = none := by
  unfold uvaddr_to_spt_entry
  rw [List.find?_eq_none]
  intro q hq
  simpa using h q hq

theorem file_loop_table (file : Nat) (writable : Bool) :
    ∀ (n fuel : Nat) (ofs : Int) (upage read_bytes zero_bytes : Nat) (k k1 : Kernel),
      read_bytes + zero_bytes = n * PGSIZE → zero_bytes < WORD → upage < WORD →
      upage % PGSIZE = 0 → upage + n * PGSIZE ≤ WORD →
      to_int32 ofs = ofs →
      (∀ p, p ∈ k.supp_page_table k.cur → p < k.brk) →
      (∀ j, j < n → uvaddr_to_spt_entry k (upage + j * PGSIZE) = none) →
      file_supp_creation_loop file writable fuel ofs upage read_bytes zero_bytes k =
        .ok (true, k1) →
      k1.supp_page_table k.cur = k.supp_page_table k.cur ++ List.range' k.brk n := by
  have hP : PGSIZE = 4096 := rfl
  have hW : WORD = 4294967296 := rfl
  intro n
  induction n with
  | zero =>
    intro fuel ofs upage read_bytes zero_bytes k k1 hsum _ _ _ _ _ _ _ h
    have hz : ¬ (zero_bytes > 0 ∨ read_bytes > 0) := by omega
    cases fuel with
    | zero => simp [file_supp_creation_loop] at h
    | succ fuel =>
      rw [file_supp_creation_loop, if_neg hz] at h
      simp only [Except.ok.injEq, Prod.mk.injEq, true_and] at h
      subst h
      simp
  | succ n ih =>
    intro fuel ofs upage read_bytes zero_bytes k k1 hsum hzero hup hal hfit hofs hheap hnone h
    cases fuel with
    | zero => simp [file_supp_creation_loop] at h
    | succ fuel =>
      have hc : zero_bytes > 0 ∨ read_bytes > 0 := by rw [hP] at hsum; omega
      rw [file_loop_unfold _ _ _ _ _ _ _ _ hc] at h
      obtain ⟨s1, s2, _, _, _, _, _, _⟩ := file_step_fields file writable ofs upage read_bytes k
      have st := file_step_table file writable ofs upage read_bytes k hofs hup hal hheap
        (by simpa using hnone 0 (by omega))
      have hsum1 : (read_bytes - (if read_bytes < PGSIZE then read_bytes else PGSIZE)) +
          ((zero_bytes + WORD - (PGSIZE - (if read_bytes < PGSIZE then read_bytes else PGSIZE)))
            % WORD) = n * PGSIZE := by
        rw [hP, hW] at *
        split <;> omega
      have hfit1 : (upage + PGSIZE) % WORD + n * PGSIZE ≤ WORD := by
        rw [hP, hW] at *
        omega
      have key := ih fuel _ _ _ _ (file_step file writable ofs upage read_bytes k) k1 hsum1
        (Nat.mod_lt _ (by rw [hW]; omega)) (Nat.mod_lt _ (by rw [hW]; omega))
        (by rw [hP, hW] at *; omega) hfit1 (to_int32_idem _)
        (by
          intro p hp
          rw [s2, st] at hp
          rw [s1]
          rcases List.mem_append.mp hp with hp | hp
          · have := hheap p hp
            omega
          · simp at hp
            omega)
        (by
          intro j hj
          apply uvaddr_to_spt_entry_eq_none
          intro q hq
          rw [s2, st] at hq
          have hpage : (upage + PGSIZE) % WORD + j * PGSIZE = upage + (j + 1) * PGSIZE := by
            rw [hP, hW] at *
            omega
          rw [hpage, file_step_heap _ _ _ _ _ _ hofs hup]
          rcases List.mem_append.mp hq with hq | hq
          · have hlt := hheap q hq
            rw [if_neg (by omega)]
            exact uvaddr_to_spt_entry_none k _ (hnone (j + 1) (by omega)) q hq
          · simp at hq
            subst hq
            rw [if_pos rfl]
            unfold file_entry pg_round_down
            simp only []
            rw [hP, hW] at *
            omega)
        h
      rw [s2] at key
      rw [key, st, s1]
      simp [List.range'_succ]

theorem sum_page_read_bytes (read_bytes n : Nat) :
    ((List.range n).map (fun j => min (read_bytes - j * PGSIZE) PGSIZE)).sum =
      min read_bytes (n * PGSIZE) := by
  have hP : PGSIZE = 4096 := rfl
  induction n with
  | zero => simp
  | succ n ih =>
    rw [List.range_succ, List.map_append, List.sum_append, ih]
    simp only [List.map_cons, List.map_nil, List.sum_cons, List.sum_nil, Nat.add_zero]
    rw [hP]
    omega

theorem write_to_disk_brk (p : Nat) (k : Kernel) : (write_to_disk p k).2.brk = k.brk := by
  simp only [write_to_disk, file_write_at]
  split_ifs <;> rfl

theorem free_spte_brk (p : Nat) (k : Kernel) : (free_spte (some p) k).brk = k.brk := by
  simp only [free_spte]
  cases hfr : (k.heap p).frame with
  | none => rfl
  | some fr =>
    dsimp only
    by_cases hw : (k.heap p).type = spte_type.MMAP ∨
        ((k.heap p).type = spte_type.FILE ∧ (k.heap p).writable = true)
    · rw [if_pos hw]
      exact write_to_disk_brk p k
    · rw [if_neg hw]
      rfl

theorem free_spte_mmap_loop_fields (first : Nat) :
    ∀ (fuel : Nat) (read_bytes : Int) (upage : Nat) (k k1 : Kernel),
      free_spte_mmap_loop first fuel read_bytes upage k = .ok k1 →
      k1.heap = k.heap ∧ k1.brk = k.brk ∧ k1.cur = k.cur ∧
      ∀ p, p ∈ k1.supp_page_table k.cur → p ∈ k.supp_page_table k.cur := by
  intro fuel
  induction fuel with
  | zero =>
    intro read_bytes upage k k1 h
    simp [free_spte_mmap_loop] at h
  | succ fuel ih =>
    intro read_bytes upage k k1 h
    rw [free_spte_mmap_loop] at h
    by_cases hr : read_bytes > 0
    · rw [if_pos hr] at h
      cases hl : uvaddr_to_spt_entry k upage with
      | none => rw [hl] at h; simp at h
      | some p =>
        rw [hl] at h
        dsimp only at h
        by_cases hf : (k.heap p).file = deref_file k first
        · rw [if_pos hf] at h
          obtain ⟨a1, a2, a3, a4⟩ := ih _ _ _ _ h
          obtain ⟨b1, b2, _, b4, _, _⟩ := free_spte_effect p k
          refine ⟨by rw [a1, b2], by rw [a2, free_spte_brk], by rw [a3, b1], ?_⟩
          intro q hq
          rw [b1] at a4
          have := a4 q hq
          rw [b4] at this
          simp only [if_true] at this
          exact List.mem_of_mem_eraseP this
        · rw [if_neg hf] at h
          exact ih _ _ _ _ h
    · rw [if_neg hr] at h
      simp only [Except.ok.injEq] at h
      subst h
      exact ⟨rfl, rfl, rfl, fun _ hp => hp⟩

theorem free_spte_mmap_fields (fuel : Nat) (first : Option Nat) (k k1 : Kernel)
    (h : free_spte_mmap fuel first k = .ok k1) :
    k1.heap = k.heap ∧ k1.brk = k.brk ∧ k1.cur = k.cur ∧
    ∀ p, p ∈ k1.supp_page_table k.cur → p ∈ k.supp_page_table k.cur := by
  cases first with
  | none =>
    simp only [free_spte_mmap, Except.ok.injEq] at h
    subst h
    exact ⟨rfl, rfl, rfl, fun _ hp => hp⟩
  | some fp => exact free_spte_mmap_loop_fields fp _ _ _ _ _ h

theorem mmap_step_fields (f : Nat) (read_bytes ofs : Int) (upage : Nat) (k : Kernel) :
    (mmap_step f read_bytes ofs upage k).brk = k.brk + 1 ∧
    (mmap_step f read_bytes ofs upage k).cur = k.cur ∧
    (∀ q, q ≠ k.brk → (mmap_step f read_bytes ofs upage k).heap q = k.heap q) ∧
    ((mmap_step f read_bytes ofs upage k).heap k.brk).type = spte_type.MMAP ∧
    ((mmap_step f read_bytes ofs upage k).heap k.brk).upage = upage ∧
    ((mmap_step f read_bytes ofs upage k).heap k.brk).ofs = ofs ∧
    ((mmap_step f read_bytes ofs upage k).heap k.brk).frame = none ∧
    ((mmap_step f read_bytes ofs upage k).heap k.brk).is_in_swap = false ∧
    (∀ p, p ∈ (mmap_step f read_bytes ofs upage k).supp_page_table k.cur →
      p ∈ k.supp_page_table k.cur ∨ p = k.brk) := by
  unfold mmap_step
  obtain ⟨h1, h2, h3, _, _, _, _, _, h9⟩ := hash_insert_fields
    (spte_details
      (heap_set (create_spte k).2 (create_spte k).1
        { (create_spte k).2.heap (create_spte k).1 with type := spte_type.MMAP })
      (create_spte k).1 upage f ofs
      (PGSIZE - (if read_bytes < PGSIZE then read_bytes.toNat else PGSIZE))
      (if read_bytes < PGSIZE then read_bytes.toNat else PGSIZE)) k.cur k.brk
  rw [h3]
  refine ⟨h1, h2, ?_, ?_, ?_, ?_, ?_, ?_, ?_⟩
  · intro q hq
    simp [spte_details, heap_set, create_spte, hq]
  · simp [spte_details, heap_set, create_spte]
  · simp [spte_details, heap_set, create_spte]
  · simp [spte_details, heap_set, create_spte]
  · simp [spte_details, heap_set, create_spte]
  · simp [spte_details, heap_set, create_spte]
  · intro p hp
    rcases h9 with h9 | h9
    · rw [h9] at hp
      exact Or.inl hp
    · rw [h9] at hp
      rcases List.mem_append.mp hp with hp | hp
      · exact Or.inl hp
      · simp at hp
        exact Or.inr hp

theorem mmap_loop_blocks (fuel0 f : Nat) :
    ∀ (fuel : Nat) (read_bytes ofs : Int) (upage i : Nat) (first r : Option Nat) (k k1 : Kernel),
      create_spte_mmap_loop fuel0 f fuel read_bytes ofs upage i first k = .ok (r, k1) →
      k.brk ≤ k1.brk ∧ k1.cur = k.cur ∧ (∀ p, p < k.brk → k1.heap p = k.heap p) ∧
      (∀ p, k.brk ≤ p → p < k1.brk →
        (k1.heap p).type = spte_type.MMAP ∧ (k1.heap p).frame = none ∧
        (k1.heap p).is_in_swap = false ∧
        (upage % PGSIZE = 0 → (read_bytes ≤ 0 ∨ ofs % (PGSIZE : Int) = 0) →
          (k1.heap p).ofs % (PGSIZE : Int) = 0 ∧ (k1.heap p).upage % PGSIZE = 0)) ∧
      (∀ p, p ∈ k1.supp_page_table k.cur →
        p ∈ k.supp_page_table k.cur ∨ (k.brk ≤ p ∧ p < k1.brk)) := by
  intro fuel
  induction fuel with
  | zero =>
    intro read_bytes ofs upage i first r k k1 h
    simp [create_spte_mmap_loop] at h
  | succ fuel ih =>
    intro read_bytes ofs upage i first r k k1 h
    rw [create_spte_mmap_loop] at h
    by_cases hr : read_bytes > 0
    · rw [if_pos hr] at h
      dsimp only at h
      cases hl : uvaddr_to_spt_entry k upage with
      | some q =>
        rw [hl] at h
        dsimp only at h
        cases hfree : free_spte_mmap fuel0 first k with
        | error e => rw [hfree] at h; simp at h
        | ok k2 =>
          rw [hfree] at h
          simp only [Except.ok.injEq, Prod.mk.injEq] at h
          obtain ⟨_, rfl⟩ := h
          obtain ⟨a1, a2, a3, a4⟩ := free_spte_mmap_fields _ _ _ _ hfree
          refine ⟨by omega, a3, fun p _ => by rw [a1], ?_, fun p hp => Or.inl (a4 p hp)⟩
          intro p h1 h2
          omega
      | none =>
        rw [hl] at h
        dsimp only at h
        obtain ⟨s1, s2, s3, s4, s5, s6, s7, s8, s9⟩ := mmap_step_fields f read_bytes ofs upage k
        obtain ⟨b1, b2, b3, b4, b5⟩ := ih _ _ _ _ _ _ (mmap_step f read_bytes ofs upage k) k1 h
        rw [s1] at b1 b3 b4 b5
        rw [s2] at b2 b5
        refine ⟨by omega, b2, ?_, ?_, ?_⟩
        · intro p hp
          rw [b3 p (by omega), s3 p (by omega)]
        · intro p h1 h2
          by_cases hp : p = k.brk
          · subst hp
            rw [b3 k.brk (by omega)]
            refine ⟨s4, s7, s8, fun hup hinv => ⟨?_, ?_⟩⟩
            · rw [s6]
              rcases hinv with hinv | hinv
              · omega
              · exact hinv
            · rw [s5]
              exact hup
          · obtain ⟨c1, c2, c3, c4⟩ := b4 p (by omega) h2
            refine ⟨c1, c2, c3, fun hup hinv => c4 ?_ ?_⟩
            · unfold PGSIZE WORD at *
              omega
            · have hofs : ofs % (PGSIZE : Int) = 0 := by
                rcases hinv with hinv | hinv
                · omega
                · exact hinv
              unfold to_int32
              unfold PGSIZE at *
              split
              · left
                omega
              · right
                omega
        · intro p hp
          rcases b5 p hp with hp | hp
          · rcases s9 p hp with hp | hp
            · exact Or.inl hp
            · exact Or.inr ⟨by omega, by omega⟩
          · exact Or.inr ⟨by omega, hp.2⟩
    · rw [if_neg hr] at h
      simp only [Except.ok.injEq, Prod.mk.injEq] at h
      obtain ⟨_, rfl⟩ := h
      refine ⟨le_refl _, rfl, fun _ _ => rfl, ?_, fun p hp => Or.inl hp⟩
      intro p h1 h2
      omega

/-! ## Frame allocation: what eviction and loading change -/

theorem alloc_step_refl (k : Kernel) : alloc_step k k :=
  ⟨rfl, rfl, rfl, fun _ => Or.inl rfl, fun _ _ h => h⟩

theorem alloc_step_trans {a b c : Kernel} (h1 : alloc_step a b) (h2 : alloc_step b c) :
    alloc_step a c := by
  obtain ⟨c1, t1, b1, hp1, pd1⟩ := h1
  obtain ⟨c2, t2, b2, hp2, pd2⟩ := h2
  refine ⟨c2.trans c1, t2.trans t1, b2.trans b1, ?_, fun t pg h => pd2 t pg (pd1 t pg h)⟩
  intro p
  rcases hp1 p with e1 | e1
  · rcases hp2 p with e2 | e2
    · exact Or.inl (e2.trans e1)
    · rw [e1] at e2
      exact Or.inr e2
  · rcases hp2 p with e2 | e2
    · rw [e2]
      exact Or.inr e1
    · exfalso
      obtain ⟨_, hfr, _⟩ := e2
      obtain ⟨_, _, hcase⟩ := e1
      rcases hcase with ⟨_, he⟩ | ⟨_, i, he⟩ <;> (rw [he] at hfr; exact hfr rfl)

theorem alloc_step_of_same_core {k k1 : Kernel} (h : same_core k k1) (hh : k1.heap = k.heap) :
    alloc_step k k1 := by
  obtain ⟨c1, t1, b1, _, _, pd⟩ := h
  refine ⟨c1, t1, b1, fun p => Or.inl (by rw [hh]), ?_⟩
  intro t pg hnone
  have := pd t pg
  rw [hnone] at this
  cases hx : k1.pagedir t pg with
  | none => rfl
  | some _ => rw [hx] at this; simp at this

theorem get_victim_pass1_heap (l : List frame_table_entry) (i : Nat) (k : Kernel) :
    (get_victim_pass1 l i k).2.heap = k.heap := by
  induction l generalizing i k with
  | nil => rfl
  | cons fte rest ih =>
    simp only [get_victim_pass1]
    split
    · split
      · split
        · split
          · rw [ih]
            exact (write_to_disk_fields _ _).2.1
          · rw [ih]
            exact (write_to_disk_fields _ _).2.1
        · split
          · rfl
          · rw [ih]
      · split
        · rfl
        · rw [ih]
    · rw [ih]

theorem get_victim_pass2_heap (l : List frame_table_entry) (i : Nat) (k : Kernel) :
    (get_victim_pass2 l i k).2.heap = k.heap := by
  induction l generalizing i k with
  | nil => rfl
  | cons fte rest ih =>
    simp only [get_victim_pass2]
    split
    · split
      · rfl
      · rw [ih]
        rfl
    · rw [ih]

theorem get_victim_frame_heap (k k1 : Kernel) (r : Option Nat)
    (h : get_victim_frame k = .ok (r, k1)) : k1.heap = k.heap := by
  have h1 := get_victim_pass1_heap k.frame_table 0 k
  unfold get_victim_frame at h
  generalize get_victim_pass1 k.frame_table 0 k = x1 at h h1
  obtain ⟨r1, ka⟩ := x1
  simp only at h1
  cases r1 with
  | some i =>
    simp only [Except.ok.injEq, Prod.mk.injEq] at h
    rw [← h.2, h1]
  | none =>
    simp only [] at h
    have h2 := get_victim_pass2_heap ka.frame_table 0 ka
    generalize get_victim_pass2 ka.frame_table 0 ka = x2 at h h2
    obtain ⟨r2, kb⟩ := x2
    simp only at h2
    cases r2 with
    | some i =>
      simp only [Except.ok.injEq, Prod.mk.injEq] at h
      rw [← h.2, h2, h1]
    | none =>
      simp only [] at h
      split at h
      · simp at h
      · simp only [Except.ok.injEq, Prod.mk.injEq] at h
        rw [← h.2, h2, h1]

theorem get_victim_frame_fault (k : Kernel) (e : Fault) (h : get_victim_frame k = .error e) :
    e = Fault.panic := by
  unfold get_victim_frame at h
  generalize get_victim_pass1 k.frame_table 0 k = x1 at h
  obtain ⟨r1, ka⟩ := x1
  cases r1 with
  | some i => simp at h
  | none =>
    simp only [] at h
    generalize get_victim_pass2 ka.frame_table 0 ka = x2 at h
    obtain ⟨r2, kb⟩ := x2
    cases r2 with
    | some i => simp at h
    | none =>
      simp only [] at h
      split at h
      · simp only [Except.error.injEq] at h
        exact h.symm
      · simp at h

theorem swap_out_fields (e : spt_entry) (k : Kernel) :
    (swap_out e k).2.cur = k.cur ∧ (swap_out e k).2.supp_page_table = k.supp_page_table ∧
    (swap_out e k).2.brk = k.brk ∧ (swap_out e k).2.heap = k.heap ∧
    (swap_out e k).2.pagedir = k.pagedir ∧ (swap_out e k).2.frame_table = k.frame_table := by
  unfold swap_out
  split
  · dsimp only
    split <;> exact ⟨rfl, rfl, rfl, rfl, rfl, rfl⟩
  · exact ⟨rfl, rfl, rfl, rfl, rfl, rfl⟩

theorem swap_out_fst (e e1 : spt_entry) (k k1 : Kernel) (h : k1.swap_table = k.swap_table) :
    (swap_out e1 k1).1 = (swap_out e k).1 := by
  unfold swap_out
  rw [h]
  split
  · dsimp only
    split <;> rfl
  · rfl

theorem evict_frame_code_ok (i : Nat) (fte : frame_table_entry) (k k1 : Kernel) (b : Bool)
    (h : evict_frame_code i fte k = .ok (b, k1)) :
    b = true ∧ (k.heap fte.spte).frame ≠ none ∧
    (swap_out (k.heap fte.spte) k).1 ≠ BITMAP_ERROR ∧
    k1.cur = k.cur ∧ k1.supp_page_table = k.supp_page_table ∧ k1.brk = k.brk ∧
    k1.frame_table = k.frame_table.eraseIdx i ∧
    (∀ q, k1.heap q =
      if q = fte.spte then
        { k.heap fte.spte with
          idx := (swap_out (k.heap fte.spte) k).1, is_in_swap := true, frame := none }
      else k.heap q) ∧
    (∀ t pg, k1.pagedir t pg =
      if t = fte.t ∧ pg = pg_round_down (k.heap fte.spte).upage then none
      else k.pagedir t pg) := by
  unfold evict_frame_code at h
  split at h
  · simp at h
  · rename_i hfr
    dsimp only at h
    split at h
    · simp at h
    · rename_i hidx
      simp only [Except.ok.injEq, Prod.mk.injEq] at h
      obtain ⟨hb, hk⟩ := h
      obtain ⟨s1, s2, s3, s4, s5, s6⟩ := swap_out_fields (k.heap fte.spte) k
      subst hk
      refine ⟨hb.symm, hfr, hidx, ?_, ?_, ?_, ?_, ?_, ?_⟩
      · exact s1
      · exact s2
      · exact s3
      · show ((swap_out (k.heap fte.spte) k).2.frame_table).eraseIdx i = _
        rw [s6]
      · intro q
        show (if q = fte.spte then _ else (swap_out (k.heap fte.spte) k).2.heap q) = _
        rw [s4]
      · intro t pg
        simp only [clear_frame_entry, palloc_free_page, pagedir_clear_page, pagedir_put, heap_set,
          if_true, s4, s5]

theorem evict_frame_code_fault (i : Nat) (fte : frame_table_entry) (k : Kernel) (e : Fault)
    (h : evict_frame_code i fte k = .error e) : e = Fault.panic := by
  unfold evict_frame_code at h
  split at h
  · simp only [Except.error.injEq] at h
    exact h.symm
  · dsimp only at h
    split at h
    · simp only [Except.error.injEq] at h
      exact h.symm
    · simp at h

theorem evict_frame_fault (i : Nat) (k : Kernel) (e : Fault) (fte : frame_table_entry)
    (hget : k.frame_table.get? i = some fte) (h : evict_frame i k = .error e) :
    e = Fault.panic := by
  unfold evict_frame at h
  rw [hget] at h
  dsimp only at h
  split at h
  · split at h
    · split at h
      · simp only [Except.error.injEq] at h
        exact h.symm
      · simp at h
    · simp at h
  · exact evict_frame_code_fault _ _ _ _ h
  · exact evict_frame_code_fault _ _ _ _ h

/-- What `evict_frame` leaves when it returns. -/
theorem evict_frame_ok (i : Nat) (k k1 : Kernel) (b : Bool) (fte : frame_table_entry)
    (hget : k.frame_table.get? i = some fte) (h : evict_frame i k = .ok (b, k1)) :
    b = true ∧ k1.cur = k.cur ∧ k1.supp_page_table = k.supp_page_table ∧ k1.brk = k.brk ∧
    k1.frame_table = k.frame_table.eraseIdx i ∧
    (∀ q, q ≠ fte.spte → k1.heap q = k.heap q) ∧
    ((k.heap fte.spte).type = spte_type.MMAP →
      k1.heap fte.spte = { k.heap fte.spte with frame := none }) ∧
    ((k.heap fte.spte).type ≠ spte_type.MMAP →
      (k.heap fte.spte).frame ≠ none ∧
      (swap_out (k.heap fte.spte) k).1 ≠ BITMAP_ERROR ∧
      k1.heap fte.spte =
        { k.heap fte.spte with
          type := spte_type.CODE, idx := (swap_out (k.heap fte.spte) k).1,
          is_in_swap := true, frame := none }) ∧
    (∀ t pg, k1.pagedir t pg =
      if t = fte.t ∧ pg = pg_round_down (k.heap fte.spte).upage then none
      else k.pagedir t pg) := by
  unfold evict_frame at h
  rw [hget] at h
  dsimp only at h
  split at h
  · rename_i hty
    have key : ∀ k2 : Kernel, k2.cur = k.cur → k2.supp_page_table = k.supp_page_table →
        k2.brk = k.brk → k2.frame_table = k.frame_table → k2.heap = k.heap →
        k2.pagedir = k.pagedir →
        k1 = clear_frame_entry i fte
          (heap_set k2 fte.spte { k.heap fte.spte with frame := none }) →
        k1.cur = k.cur ∧ k1.supp_page_table = k.supp_page_table ∧ k1.brk = k.brk ∧
        k1.frame_table = k.frame_table.eraseIdx i ∧
        (∀ q, q ≠ fte.spte → k1.heap q = k.heap q) ∧
        k1.heap fte.spte = { k.heap fte.spte with frame := none } ∧
        (∀ t pg, k1.pagedir t pg =
          if t = fte.t ∧ pg = pg_round_down (k.heap fte.spte).upage then none
          else k.pagedir t pg) := by
      intro k2 a1 a2 a3 a4 a5 a6 hk
      subst hk
      refine ⟨a1, a2, a3, ?_, ?_, ?_, ?_⟩
      · show (k2.frame_table).eraseIdx i = _
        rw [a4]
      · intro q hq
        show (if q = fte.spte then _ else k2.heap q) = _
        rw [if_neg hq, a5]
      · show (if fte.spte = fte.spte then _ else k2.heap fte.spte) = _
        rw [if_pos rfl]
      · intro t pg
        simp only [clear_frame_entry, palloc_free_page, pagedir_clear_page, pagedir_put,
          heap_set, if_true, a6]
    split at h
    · split at h
      · simp at h
      · simp only [Except.ok.injEq, Prod.mk.injEq] at h
        obtain ⟨hb, hk⟩ := h
        obtain ⟨w1, w2, _, w4, w5, w6⟩ := write_to_disk_fields fte.spte k
        obtain ⟨c1, c2, c3, c4, c5, c6, c7⟩ := key (write_to_disk fte.spte k).2 w1 w4
          (write_to_disk_brk _ _) w5 w2 w6 (by rw [← hk, w2])
        exact ⟨hb.symm, c1, c2, c3, c4, c5, fun _ => c6, fun hne => absurd hty hne, c7⟩
    · simp only [Except.ok.injEq, Prod.mk.injEq] at h
      obtain ⟨hb, hk⟩ := h
      obtain ⟨c1, c2, c3, c4, c5, c6, c7⟩ := key k rfl rfl rfl rfl rfl rfl hk.symm
      exact ⟨hb.symm, c1, c2, c3, c4, c5, fun _ => c6, fun hne => absurd hty hne, c7⟩
  · rename_i hty
    obtain ⟨c0, c1, c2, c3, c4, c5, c6, c7, c8⟩ := evict_frame_code_ok _ _ _ _ _ h
    have hsw : (swap_out
        ((heap_set k fte.spte { k.heap fte.spte with type := spte_type.CODE }).heap fte.spte)
        (heap_set k fte.spte { k.heap fte.spte with type := spte_type.CODE })).1 =
        (swap_out (k.heap fte.spte) k).1 :=
      swap_out_fst (k.heap fte.spte)
        ((heap_set k fte.spte { k.heap fte.spte with type := spte_type.CODE }).heap fte.spte) k
        (heap_set k fte.spte { k.heap fte.spte with type := spte_type.CODE }) rfl
    rw [hsw] at c2 c7
    refine ⟨c0, c3, c4, c5, c6, ?_, fun hm => by rw [hty] at hm; simp at hm, fun _ => ⟨?_, c2, ?_⟩, ?_⟩
    · intro q hq
      rw [c7 q, if_neg hq]
      simp [heap_set, hq]
    · simpa [heap_set] using c1
    · rw [c7 fte.spte, if_pos rfl]
      simp [heap_set]
    · intro t pg
      rw [c8 t pg]
      simp [heap_set]
  · rename_i hty
    obtain ⟨c0, c1, c2, c3, c4, c5, c6, c7, c8⟩ := evict_frame_code_ok _ _ _ _ _ h
    refine ⟨c0, c3, c4, c5, c6, ?_, fun hm => by rw [hty] at hm; simp at hm, fun _ => ⟨c1, c2, ?_⟩, c8⟩
    · intro q hq
      rw [c7 q, if_neg hq]
    · rw [c7 fte.spte, if_pos rfl]
      apply spt_entry.ext <;> simp [hty]

theorem alloc_step_evict_frame (i : Nat) (k k1 : Kernel) (b : Bool) (fte : frame_table_entry)
    (hget : k.frame_table.get? i = some fte)
    (hpin : (k.heap fte.spte).pinned = false) (hfr : (k.heap fte.spte).frame ≠ none)
    (h : evict_frame i k = .ok (b, k1)) : alloc_step k k1 := by
  obtain ⟨_, c1, c2, c3, _, c5, c6, c7, c8⟩ := evict_frame_ok i k k1 b fte hget h
  refine ⟨c1, c2, c3, ?_, ?_⟩
  · intro p
    by_cases hp : p = fte.spte
    · subst hp
      right
      refine ⟨hpin, hfr, ?_⟩
      by_cases hty : (k.heap fte.spte).type = spte_type.MMAP
      · exact Or.inl ⟨hty, c6 hty⟩
      · exact Or.inr ⟨hty, _, (c7 hty).2.2⟩
    · exact Or.inl (c5 p hp)
  · intro t pg hnone
    rw [c8 t pg]
    split
    · rfl
    · exact hnone

theorem palloc_get_page_heap (flags : Nat) (k : Kernel) :
    (palloc_get_page flags k).2.heap = k.heap := by
  unfold palloc_get_page
  split
  · rfl
  · simp only []
    split <;> rfl

theorem alloc_step_palloc_get_page (flags : Nat) (k : Kernel) :
    alloc_step k (palloc_get_page flags k).2 :=
  alloc_step_of_same_core (same_core_palloc_get_page flags k) (palloc_get_page_heap flags k)

/-- The eviction loop of `frame_alloc`: what a run that returns leaves, and
that a run with more fuel than the frame list is long fails only with a
panic. -/
theorem frame_alloc_loop_ok (flags : Nat) :
    ∀ (fuel : Nat) (k : Kernel),
      (∀ r k1, frame_alloc_loop flags fuel k = .ok (r, k1) →
        alloc_step k k1 ∧ r.isSome = true) ∧
      (∀ e, frame_alloc_loop flags fuel k = .error e → k.frame_table.length < fuel →
        e = Fault.panic) := by
  intro fuel
  induction fuel with
  | zero =>
    intro k
    refine ⟨fun r k1 h => by simp [frame_alloc_loop] at h, fun e _ hl => by omega⟩
  | succ fuel ih =>
    intro k
    unfold frame_alloc_loop
    split
    · exact ⟨fun r k1 h => by simp at h, fun e h _ => by simpa using h.symm⟩
    · rename_i hemp
      have hne : k.frame_table ≠ [] := by
        intro hc; rw [hc] at hemp; simp at hemp
      obtain ⟨v, kv, e, hc, hv, _⟩ := get_victim_frame_spec k hne
      have hheap := get_victim_frame_heap k kv v e
      rw [e]
      cases v with
      | none => exact ⟨fun r k1 h => by simp at h, fun e h _ => by simpa using h.symm⟩
      | some i =>
        simp only []
        obtain ⟨fte, hg, hp⟩ := hv i rfl
        have hgv : kv.frame_table.get? i = some fte := by
          rw [hc.2.2.2.2.1]; simpa using hg
        have hpv : (kv.heap fte.spte).pinned = false := by
          rw [hheap]; exact hp
        have s1 := alloc_step_of_same_core hc hheap
        rw [hgv]
        dsimp only
        split
        · exact ⟨fun r k1 h => by simp at h, fun e h _ => by simpa using h.symm⟩
        · rename_i hfr
          cases hev : evict_frame i kv with
          | error e1 =>
            refine ⟨fun r k1 h => by simp at h, fun e h _ => ?_⟩
            simp only [Except.error.injEq] at h
            rw [← h]
            exact evict_frame_fault i kv e1 fte hgv hev
          | ok x =>
            obtain ⟨b, k2⟩ := x
            have hb := (evict_frame_ok i kv k2 b fte hgv hev).1
            subst hb
            dsimp only
            have s2 := alloc_step_evict_frame i kv k2 true fte hgv hpv hfr hev
            have hlen : k2.frame_table.length + 1 = k.frame_table.length := by
              rw [(evict_frame_ok i kv k2 true fte hgv hev).2.2.2.2.1, hc.2.2.2.2.1]
              have hi : i < k.frame_table.length := by
                have := List.getElem?_eq_some_iff.mp hg
                exact this.1
              rw [List.length_eraseIdx]
              simp only [hi, if_true]
              omega
            have s3 := alloc_step_palloc_get_page flags k2
            have hft3 : (palloc_get_page flags k2).2.frame_table = k2.frame_table :=
              (same_core_palloc_get_page flags k2).2.2.2.2.1
            have s13 := alloc_step_trans s1 (alloc_step_trans s2 s3)
            split
            · rename_i f k3 hpa
              rw [hpa] at s13
              refine ⟨fun r k1 h => ?_, fun e h _ => by simp at h⟩
              simp only [Except.ok.injEq, Prod.mk.injEq] at h
              obtain ⟨h1, h2⟩ := h
              subst h1 h2
              exact ⟨s13, rfl⟩
            · rename_i k3 hpa
              rw [hpa] at s13 hft3
              simp only at hft3
              obtain ⟨i1, i2⟩ := ih k3
              refine ⟨fun r k1 h => ?_, fun e h hl => ?_⟩
              · obtain ⟨a, c⟩ := i1 r k1 h
                exact ⟨alloc_step_trans s13 a, c⟩
              · exact i2 e h (by rw [hft3]; omega)

theorem frame_alloc_ok (flags : Nat) (k : Kernel) :
    (∀ r k1, frame_alloc flags k = .ok (r, k1) → alloc_step k k1 ∧ r.isSome = true) ∧
    (∀ e, frame_alloc flags k = .error e → e = Fault.panic) ∧
    (k.pool ≠ [] → ∃ r k1, frame_alloc flags k = .ok (r, k1)) := by
  unfold frame_alloc
  have hz : ¬ (flags &&& (if PAL_USER = 0 then 1 else 0) ≠ 0) := by simp [PAL_USER]
  rw [if_neg hz]
  have c := alloc_step_palloc_get_page flags k
  have hpool : k.pool ≠ [] → (palloc_get_page flags k).1.isSome = true := by
    intro hne
    unfold palloc_get_page
    split
    · rename_i hnil
      exact absurd hnil hne
    · rfl
  split
  · rename_i f k2 hpa
    rw [hpa] at c
    refine ⟨fun r k1 h => ?_, fun e h => by simp at h, fun _ => ⟨_, _, rfl⟩⟩
    simp only [Except.ok.injEq, Prod.mk.injEq] at h
    obtain ⟨h1, h2⟩ := h
    subst h1 h2
    exact ⟨c, rfl⟩
  · rename_i k2 hpa
    rw [hpa] at c hpool
    obtain ⟨i1, i2⟩ := frame_alloc_loop_ok flags (k2.frame_table.length + 1) k2
    refine ⟨fun r k1 h => ?_, fun e h => i2 e h (by omega), fun hne => ?_⟩
    · obtain ⟨a, b⟩ := i1 r k1 h
      exact ⟨alloc_step_trans c a, b⟩
    · have := hpool hne
      simp at this

/-- What `retrieve_frame_of_page` leaves: a frame, an entry for it at the end of
the frame list, and otherwise a step of the allocator. -/
theorem retrieve_frame_of_page_ok (flags p : Nat) (k : Kernel) :
    (∀ r k1, retrieve_frame_of_page flags (some p) k = .ok (r, k1) →
      ∃ f k2, r = some f ∧ alloc_step k k2 ∧ k1 = frame_table_add f p k2) ∧
    (∀ e, retrieve_frame_of_page flags (some p) k = .error e → e = Fault.panic) ∧
    (k.pool ≠ [] → ∃ r k1, retrieve_frame_of_page flags (some p) k = .ok (r, k1)) := by
  unfold retrieve_frame_of_page
  have hz : ¬ (flags &&& (if PAL_USER = 0 then 1 else 0) ≠ 0) := by simp [PAL_USER]
  simp only [if_neg hz]
  obtain ⟨a1, a2, a3⟩ := frame_alloc_ok flags k
  cases hfa : frame_alloc flags k with
  | error e =>
    refine ⟨fun r k1 h => by simp at h, fun e1 h => ?_, fun hne => ?_⟩
    · simp only [Except.error.injEq] at h
      rw [← h]
      exact a2 e hfa
    · obtain ⟨r, k1, h⟩ := a3 hne
      rw [hfa] at h
      simp at h
  | ok x =>
    obtain ⟨r1, k2⟩ := x
    obtain ⟨s, hs⟩ := a1 r1 k2 hfa
    cases r1 with
    | none => simp at hs
    | some f =>
      refine ⟨fun r k1 h => ?_, fun e h => by simp at h, fun _ => ⟨_, _, rfl⟩⟩
      simp only [Except.ok.injEq, Prod.mk.injEq] at h
      obtain ⟨h1, h2⟩ := h
      exact ⟨f, k2, h1.symm, s, h2.symm⟩

theorem alloc_step_keeps {k km : Kernel} (h : alloc_step k km) (p : Nat)
    (hp : (k.heap p).frame = none ∨ (k.heap p).pinned = true) : km.heap p = k.heap p := by
  rcases h.2.2.2.1 p with e | e
  · exact e
  · exfalso
    obtain ⟨e1, e2, _⟩ := e
    rcases hp with hp | hp
    · exact e2 hp
    · rw [hp] at e1
      simp at e1

theorem install_page_spec (upage kpage : Nat) (w : Bool) (k : Kernel) :
    (install_page upage kpage w k).2.heap = k.heap ∧
    (install_page upage kpage w k).2.cur = k.cur ∧
    (install_page upage kpage w k).2.supp_page_table = k.supp_page_table ∧
    (install_page upage kpage w k).2.brk = k.brk ∧
    ((install_page upage kpage w k).1 = false →
      (k.pagedir k.cur (pg_round_down upage) ≠ none ∨
        k.install_fails k.cur (pg_round_down upage) = true) ∧
      (install_page upage kpage w k).2 = k) ∧
    ((install_page upage kpage w k).1 = true →
      (install_page upage kpage w k).2.pagedir k.cur (pg_round_down upage) =
        some { kpage := kpage, writable := w, dirty := false, accessed := false }) ∧
    (k.pagedir k.cur (pg_round_down upage) = none →
      k.install_fails k.cur (pg_round_down upage) = false →
      (install_page upage kpage w k).1 = true) ∧
    (k.install_fails k.cur (pg_round_down upage) = true →
      (install_page upage kpage w k).1 = false) := by
  unfold install_page
  split
  · rename_i e he
    refine ⟨rfl, rfl, rfl, rfl, fun _ => ⟨Or.inl (by rw [he]; simp), rfl⟩, fun h => by simp at h,
      fun h => by rw [h] at he; simp at he, fun _ => rfl⟩
  · split
    · rename_i hf
      refine ⟨rfl, rfl, rfl, rfl, fun _ => ⟨Or.inr hf, rfl⟩, fun h => by simp at h,
        fun _ h => by rw [h] at hf; simp at hf, fun _ => rfl⟩
    · rename_i hf
      refine ⟨rfl, rfl, rfl, rfl, fun h => by simp at h, fun _ => ?_, fun _ _ => rfl,
        fun h => absurd h hf⟩
      simp [pagedir_put]

theorem swap_in_fields (e : spt_entry) (k : Kernel) :
    (swap_in e k).heap = k.heap ∧ (swap_in e k).cur = k.cur ∧
    (swap_in e k).supp_page_table = k.supp_page_table ∧ (swap_in e k).brk = k.brk ∧
    (swap_in e k).pagedir = k.pagedir := by
  unfold swap_in
  split <;> exact ⟨rfl, rfl, rfl, rfl, rfl⟩

theorem swap_in_heap (e : spt_entry) (k : Kernel) : (swap_in e k).heap = k.heap :=
  (swap_in_fields e k).1

theorem install_page_heap (upage kpage : Nat) (w : Bool) (k : Kernel) :
    (install_page upage kpage w k).2.heap = k.heap :=
  (install_page_spec upage kpage w k).1

/-! ## Installation failures: the set of failing pages is fixed -/

theorem write_to_disk_install_fails (p : Nat) (k : Kernel) :
    (write_to_disk p k).2.install_fails = k.install_fails := by
  simp only [write_to_disk, file_write_at]
  split_ifs <;> rfl

theorem get_victim_pass1_install_fails (l : List frame_table_entry) (i : Nat) (k : Kernel) :
    (get_victim_pass1 l i k).2.install_fails = k.install_fails := by
  induction l generalizing i k with
  | nil => rfl
  | cons fte rest ih =>
    simp only [get_victim_pass1]
    split
    · split
      · split
        · split
          · rw [ih]
            exact write_to_disk_install_fails _ _
          · rw [ih]
            exact write_to_disk_install_fails _ _
        · split
          · rfl
          · rw [ih]
      · split
        · rfl
        · rw [ih]
    · rw [ih]

theorem get_victim_pass2_install_fails (l : List frame_table_entry) (i : Nat) (k : Kernel) :
    (get_victim_pass2 l i k).2.install_fails = k.install_fails := by
  induction l generalizing i k with
  | nil => rfl
  | cons fte rest ih =>
    simp only [get_victim_pass2]
    split
    · split
      · rfl
      · rw [ih]
        rfl
    · rw [ih]

theorem get_victim_frame_install_fails (k k1 : Kernel) (r : Option Nat)
    (h : get_victim_frame k = .ok (r, k1)) : k1.install_fails = k.install_fails := by
  have h1 := get_victim_pass1_install_fails k.frame_table 0 k
  unfold get_victim_frame at h
  generalize get_victim_pass1 k.frame_table 0 k = x1 at h h1
  obtain ⟨r1, ka⟩ := x1
  simp only at h1
  cases r1 with
  | some i =>
    simp only [Except.ok.injEq, Prod.mk.injEq] at h
    rw [← h.2, h1]
  | none =>
    simp only [] at h
    have h2 := get_victim_pass2_install_fails ka.frame_table 0 ka
    generalize get_victim_pass2 ka.frame_table 0 ka = x2 at h h2
    obtain ⟨r2, kb⟩ := x2
    simp only at h2
    cases r2 with
    | some i =>
      simp only [Except.ok.injEq, Prod.mk.injEq] at h
      rw [← h.2, h2, h1]
    | none =>
      simp only [] at h
      split at h
      · simp at h
      · simp only [Except.ok.injEq, Prod.mk.injEq] at h
        rw [← h.2, h2, h1]

theorem swap_out_install_fails (e : spt_entry) (k : Kernel) :
    (swap_out e k).2.install_fails = k.install_fails := by
  unfold swap_out
  split
  · dsimp only
    split <;> rfl
  · rfl

theorem evict_frame_code_install_fails (i : Nat) (fte : frame_table_entry) (k k1 : Kernel)
    (b : Bool) (h : evict_frame_code i fte k = .ok (b, k1)) :
    k1.install_fails = k.install_fails := by
  unfold evict_frame_code at h
  split at h
  · simp at h
  · dsimp only at h
    split at h
    · simp at h
    · simp only [Except.ok.injEq, Prod.mk.injEq] at h
      rw [← h.2]
      exact swap_out_install_fails (k.heap fte.spte) k

theorem evict_frame_install_fails (i : Nat) (k k1 : Kernel) (b : Bool)
    (h : evict_frame i k = .ok (b, k1)) : k1.install_fails = k.install_fails := by
  unfold evict_frame at h
  split at h
  · simp at h
  · dsimp only at h
    split at h
    · split at h
      · split at h
        · simp at h
        · simp only [Except.ok.injEq, Prod.mk.injEq] at h
          rw [← h.2]
          exact write_to_disk_install_fails _ k
      · simp only [Except.ok.injEq, Prod.mk.injEq] at h
        rw [← h.2]
        rfl
    · exact (evict_frame_code_install_fails _ _ _ _ _ h).trans rfl
    · exact evict_frame_code_install_fails _ _ _ _ _ h

theorem palloc_get_page_install_fails (flags : Nat) (k : Kernel) :
    (palloc_get_page flags k).2.install_fails = k.install_fails := by
  unfold palloc_get_page
  split
  · rfl
  · simp only []
    split <;> rfl

theorem frame_alloc_loop_install_fails (flags : Nat) :
    ∀ (fuel : Nat) (k k1 : Kernel) (r : Option Nat),
      frame_alloc_loop flags fuel k = .ok (r, k1) → k1.install_fails = k.install_fails := by
  intro fuel
  induction fuel with
  | zero =>
    intro k k1 r h
    simp [frame_alloc_loop] at h
  | succ fuel ih =>
    intro k k1 r h
    unfold frame_alloc_loop at h
    split at h
    · simp at h
    · cases hg : get_victim_frame k with
      | error e => rw [hg] at h; simp at h
      | ok x =>
        obtain ⟨ri, kv⟩ := x
        have g1 := get_victim_frame_install_fails k kv ri hg
        rw [hg] at h
        cases ri with
        | none => simp at h
        | some i =>
          dsimp only at h
          cases hget : kv.frame_table.get? i with
          | none => rw [hget] at h; simp at h
          | some fte =>
            rw [hget] at h
            dsimp only at h
            split at h
            · simp at h
            · cases hev : evict_frame i kv with
              | error e => rw [hev] at h; simp at h
              | ok y =>
                obtain ⟨b, k2⟩ := y
                have g2 := evict_frame_install_fails i kv k2 b hev
                rw [hev] at h
                cases b with
                | false => simp at h
                | true =>
                  dsimp only at h
                  have g3 := palloc_get_page_install_fails flags k2
                  generalize palloc_get_page flags k2 = z at h g3
                  obtain ⟨rf, k3⟩ := z
                  simp only at g3
                  cases rf with
                  | some f =>
                    simp only [Except.ok.injEq, Prod.mk.injEq] at h
                    rw [← h.2, g3, g2, g1]
                  | none =>
                    simp only [] at h
                    rw [ih k3 k1 r h, g3, g2, g1]

theorem frame_alloc_install_fails (flags : Nat) (k k1 : Kernel) (r : Option Nat)
    (h : frame_alloc flags k = .ok (r, k1)) : k1.install_fails = k.install_fails := by
  unfold frame_alloc at h
  by_cases hfl : flags &&& (if PAL_USER = 0 then 1 else 0) ≠ 0
  · rw [if_pos hfl] at h
    simp only [Except.ok.injEq, Prod.mk.injEq] at h
    rw [← h.2]
  · rw [if_neg hfl] at h
    have g3 := palloc_get_page_install_fails flags k
    generalize palloc_get_page flags k = z at h g3
    obtain ⟨rf, k3⟩ := z
    simp only at g3
    cases rf with
    | some f =>
      simp only [Except.ok.injEq, Prod.mk.injEq] at h
      rw [← h.2, g3]
    | none =>
      simp only [] at h
      rw [frame_alloc_loop_install_fails flags _ k3 k1 r h, g3]

theorem retrieve_frame_of_page_install_fails (flags : Nat) (spte : Option Nat) (k k1 : Kernel)
    (r : Option Nat) (h : retrieve_frame_of_page flags spte k = .ok (r, k1)) :
    k1.install_fails = k.install_fails := by
  unfold retrieve_frame_of_page at h
  split at h
  · simp only [Except.ok.injEq, Prod.mk.injEq] at h
    rw [← h.2]
  · by_cases hfl : flags &&& (if PAL_USER = 0 then 1 else 0) ≠ 0
    · rw [if_pos hfl] at h
      simp only [Except.ok.injEq, Prod.mk.injEq] at h
      rw [← h.2]
    · rw [if_neg hfl] at h
      cases hf : frame_alloc flags k with
      | error e => rw [hf] at h; simp at h
      | ok x =>
        obtain ⟨rf, kf⟩ := x
        rw [hf] at h
        cases rf with
        | none => simp at h
        | some f =>
          simp only [Except.ok.injEq, Prod.mk.injEq] at h
          rw [← h.2]
          exact frame_alloc_install_fails flags k kf (some f) hf

/-- What `install_load_swap` does for an entry that has no frame or is
pinned. -/
theorem install_load_swap_result (p : Nat) (k : Kernel)
    (hp : (k.heap p).frame = none ∨ (k.heap p).pinned = true) :
    (∀ e, install_load_swap p k = .error e → e = Fault.panic) ∧
    (∀ b k1, install_load_swap p k = .ok (b, k1) →
      k1.cur = k.cur ∧ k1.supp_page_table = k.supp_page_table ∧ k1.brk = k.brk ∧
      (∀ q, q ≠ p → k1.heap q = k.heap q ∨ evicted (k.heap q) (k1.heap q)) ∧
      (b = false → k1.heap p = k.heap p ∧
        (k.pagedir k.cur (pg_round_down (k.heap p).upage) ≠ none ∨
          k.install_fails k.cur (pg_round_down (k.heap p).upage) = true)) ∧
      (b = true → ∃ f,
        k1.heap p = { k.heap p with
          frame := some f, is_in_swap := false,
          idx := if (k.heap p).is_in_swap then BITMAP_ERROR else (k.heap p).idx } ∧
        k1.pagedir k.cur (pg_round_down (k.heap p).upage) =
          some { kpage := f, writable := true, dirty := false, accessed := false })) ∧
    (k.pool ≠ [] → ∃ b k1, install_load_swap p k = .ok (b, k1)) ∧
    (∀ k1, install_load_swap p k = .ok (true, k1) →
      k.install_fails k.cur (pg_round_down (k.heap p).upage) = false) := by
  obtain ⟨r1, r2, r3⟩ := retrieve_frame_of_page_ok (PAL_USER ||| PAL_ZERO) p k
  unfold install_load_swap
  cases hr : retrieve_frame_of_page (PAL_USER ||| PAL_ZERO) (some p) k with
  | error e =>
    refine ⟨fun e1 h => ?_, fun b k1 h => by simp at h, fun hne => ?_, fun k1 h => by simp at h⟩
    · simp only [Except.error.injEq] at h
      rw [← h]
      exact r2 e hr
    · obtain ⟨r, k1, h⟩ := r3 hne
      rw [hr] at h
      simp at h
  | ok x =>
    obtain ⟨r, kf⟩ := x
    obtain ⟨f, km, hrf, hstep, hkf⟩ := r1 r kf hr
    subst hrf
    dsimp only
    have hkeep := alloc_step_keeps hstep p hp
    have f1 : kf.heap = km.heap := by rw [hkf]; rfl
    have f2 : kf.cur = k.cur := by rw [hkf]; exact hstep.1
    have f3 : kf.supp_page_table = k.supp_page_table := by rw [hkf]; exact hstep.2.1
    have f4 : kf.brk = k.brk := by rw [hkf]; exact hstep.2.2.1
    have f5 : kf.pagedir = km.pagedir := by rw [hkf]; rfl
    have f6 : kf.heap p = k.heap p := by rw [f1]; exact hkeep
    have f7 : kf.install_fails = k.install_fails :=
      retrieve_frame_of_page_install_fails _ _ _ _ _ hr
    obtain ⟨i1, i2, i3, i4, i5, i6, _, i8⟩ := install_page_spec (kf.heap p).upage f true kf
    have hothers : ∀ q, q ≠ p → kf.heap q = k.heap q ∨ evicted (k.heap q) (kf.heap q) := by
      intro q _
      rw [f1]
      exact hstep.2.2.2.1 q
    refine ⟨?_, ?_, ?_, ?_⟩
    · intro e h
      split at h <;> [skip; simp at h]
      split at h <;> simp at h
    · intro b k1 h
      cases hip : (install_page (kf.heap p).upage f true kf).1 with
      | false =>
        rw [hip] at h
        simp only [Bool.false_eq_true, if_false, Except.ok.injEq, Prod.mk.injEq] at h
        obtain ⟨hb, hk⟩ := h
        obtain ⟨j1, j2⟩ := i5 hip
        subst hk hb
        rw [j2]
        refine ⟨f2, f3, f4, ?_, fun _ => ⟨f6, ?_⟩, fun h => by simp at h⟩
        · intro q hq
          exact hothers q hq
        · rw [f7, f2, f6] at j1
          rcases j1 with j1 | j1
          · left
            intro hnone
            apply j1
            rw [f5]
            exact hstep.2.2.2.2 _ _ hnone
          · exact Or.inr j1
      | true =>
        rw [hip] at h
        simp only [if_true] at h
        have hpd : (install_page (kf.heap p).upage f true kf).2.pagedir k.cur
            (pg_round_down (k.heap p).upage) =
            some { kpage := f, writable := true, dirty := false, accessed := false } := by
          have := i6 hip
          rw [f2] at this
          rw [← f6]
          exact this
        split at h
        · rename_i hsw
          simp only [Except.ok.injEq, Prod.mk.injEq] at h
          obtain ⟨hb, hk⟩ := h
          have hsw1 : (k.heap p).is_in_swap = true := by
            simpa [heap_set, install_page_heap, f6] using hsw
          have e1 : ∀ q, q ≠ p → k1.heap q = kf.heap q := by
            intro q hq
            rw [← hk]
            simp only [heap_set, if_neg hq, swap_in_heap, install_page_heap]
          have e2 : k1.heap p = { k.heap p with
              frame := some f, is_in_swap := false,
              idx := if (k.heap p).is_in_swap then BITMAP_ERROR else (k.heap p).idx } := by
            rw [← hk]
            simp only [heap_set, if_true, swap_in_heap, install_page_heap, f6, hsw1]
          have e3 : k1.cur = k.cur ∧ k1.supp_page_table = k.supp_page_table ∧ k1.brk = k.brk ∧
              k1.pagedir = (install_page (kf.heap p).upage f true kf).2.pagedir := by
            rw [← hk]
            refine ⟨?_, ?_, ?_, ?_⟩
            · show (swap_in _ _).cur = k.cur
              rw [(swap_in_fields _ _).2.1]
              exact i2.trans f2
            · show (swap_in _ _).supp_page_table = k.supp_page_table
              rw [(swap_in_fields _ _).2.2.1]
              exact i3.trans f3
            · show (swap_in _ _).brk = k.brk
              rw [(swap_in_fields _ _).2.2.2.1]
              exact i4.trans f4
            · show (swap_in _ _).pagedir = _
              rw [(swap_in_fields _ _).2.2.2.2]
              rfl
          refine ⟨e3.1, e3.2.1, e3.2.2.1, ?_, fun h => by rw [← hb] at h; simp at h,
            fun _ => ⟨f, e2, ?_⟩⟩
          · intro q hq
            rw [e1 q hq]
            exact hothers q hq
          · rw [e3.2.2.2]
            exact hpd
        · rename_i hsw
          simp only [Except.ok.injEq, Prod.mk.injEq] at h
          obtain ⟨hb, hk⟩ := h
          have hsw1 : (k.heap p).is_in_swap = false := by
            simpa [heap_set, install_page_heap, f6] using hsw
          have e1 : ∀ q, q ≠ p → k1.heap q = kf.heap q := by
            intro q hq
            rw [← hk]
            simp only [heap_set, if_neg hq, install_page_heap]
          have e2 : k1.heap p = { k.heap p with
              frame := some f, is_in_swap := false,
              idx := if (k.heap p).is_in_swap then BITMAP_ERROR else (k.heap p).idx } := by
            rw [← hk]
            simp only [heap_set, if_true, install_page_heap, f6, hsw1]
            apply spt_entry.ext <;> simp [hsw1]
          have e3 : k1.cur = k.cur ∧ k1.supp_page_table = k.supp_page_table ∧ k1.brk = k.brk ∧
              k1.pagedir = (install_page (kf.heap p).upage f true kf).2.pagedir := by
            rw [← hk]
            exact ⟨i2.trans f2, i3.trans f3, i4.trans f4, rfl⟩
          refine ⟨e3.1, e3.2.1, e3.2.2.1, ?_, fun h => by rw [← hb] at h; simp at h,
            fun _ => ⟨f, e2, ?_⟩⟩
          · intro q hq
            rw [e1 q hq]
            exact hothers q hq
          · rw [e3.2.2.2]
            exact hpd
    · intro _
      split
      · split <;> exact ⟨_, _, rfl⟩
      · exact ⟨_, _, rfl⟩
    · intro k1 h
      cases hfl : k.install_fails k.cur (pg_round_down (k.heap p).upage) with
      | false => rfl
      | true =>
        exfalso
        have hip : (install_page (kf.heap p).upage f true kf).1 = false :=
          i8 (by rw [f7, f2, f6]; exact hfl)
        rw [hip] at h
        simp at h

theorem same_vm_trans {a b c : Kernel} (h1 : same_vm a b) (h2 : same_vm b c) : same_vm a c :=
  ⟨h2.1.trans h1.1, h2.2.1.trans h1.2.1, h2.2.2.1.trans h1.2.2.1, h2.2.2.2.1.trans h1.2.2.2.1,
    h2.2.2.2.2.trans h1.2.2.2.2⟩

theorem same_vm_file_read (k : Kernel) (file buf size : Nat) :
    same_vm k (file_read k file buf size).2 := ⟨rfl, rfl, rfl, rfl, rfl⟩

theorem same_vm_file_seek (k : Kernel) (file : Nat) (ofs : Int) :
    same_vm k (file_seek k file ofs) := ⟨rfl, rfl, rfl, rfl, rfl⟩

theorem same_vm_memset_zero (k : Kernel) (dst n : Nat) :
    same_vm k (memset_zero k dst n) := ⟨rfl, rfl, rfl, rfl, rfl⟩

theorem same_vm_free_frame (frame : Nat) (k : Kernel) :
    same_vm k (free_frame frame k) := ⟨rfl, rfl, rfl, rfl, rfl⟩

/-- What `install_load_file` does for an entry that has no frame or is
pinned. -/
theorem install_load_file_result (p : Nat) (k : Kernel)
    (hp : (k.heap p).frame = none ∨ (k.heap p).pinned = true) :
    (∀ e, install_load_file p k = .error e → e = Fault.panic) ∧
    (∀ b k1, install_load_file p k = .ok (b, k1) →
      k1.cur = k.cur ∧ k1.supp_page_table = k.supp_page_table ∧ k1.brk = k.brk ∧
      (∀ q, q ≠ p → k1.heap q = k.heap q ∨ evicted (k.heap q) (k1.heap q)) ∧
      (b = false → k1.heap p = k.heap p) ∧
      (b = true → ∃ f,
        k1.heap p = { k.heap p with frame := some f } ∧
        k1.pagedir k.cur (pg_round_down (k.heap p).upage) =
          some { kpage := f, writable := (k.heap p).writable, dirty := false,
                 accessed := false })) := by
  obtain ⟨r1, r2, _⟩ := retrieve_frame_of_page_ok PAL_USER p k
  unfold install_load_file
  cases hr : retrieve_frame_of_page PAL_USER (some p) k with
  | error e =>
    refine ⟨fun e1 h => ?_, fun b k1 h => by simp at h⟩
    simp only [Except.error.injEq] at h
    rw [← h]
    exact r2 e hr
  | ok x =>
    obtain ⟨r, kf⟩ := x
    obtain ⟨f, km, hrf, hstep, hkf⟩ := r1 r kf hr
    subst hrf
    dsimp only
    have hkeep := alloc_step_keeps hstep p hp
    have f1 : kf.heap = km.heap := by rw [hkf]; rfl
    have f2 : kf.cur = k.cur := by rw [hkf]; exact hstep.1
    have f3 : kf.supp_page_table = k.supp_page_table := by rw [hkf]; exact hstep.2.1
    have f4 : kf.brk = k.brk := by rw [hkf]; exact hstep.2.2.1
    have f6 : kf.heap p = k.heap p := by rw [f1]; exact hkeep
    have hothers : ∀ q, q ≠ p → kf.heap q = k.heap q ∨ evicted (k.heap q) (kf.heap q) := by
      intro q _
      rw [f1]
      exact hstep.2.2.2.1 q
    have v1 := same_vm_trans (same_vm_file_seek kf (kf.heap p).file (kf.heap p).ofs)
      (same_vm_file_read (file_seek kf (kf.heap p).file (kf.heap p).ofs) (kf.heap p).file f
        (kf.heap p).page_read_bytes)
    generalize (file_read (file_seek kf (kf.heap p).file (kf.heap p).ofs) (kf.heap p).file f
      (kf.heap p).page_read_bytes) = fr at v1 ⊢
    refine ⟨?_, ?_⟩
    · intro e h
      split at h <;> [simp at h; skip]
      split at h <;> simp at h
    · intro b k1 h
      split at h
      · simp only [Except.ok.injEq, Prod.mk.injEq] at h
        obtain ⟨hb, hk⟩ := h
        have v2 := same_vm_trans v1 (same_vm_free_frame f fr.2)
        rw [hk] at v2
        refine ⟨v2.2.1.trans f2, v2.2.2.1.trans f3, v2.2.2.2.1.trans f4, ?_,
          fun _ => by rw [v2.1, f6], fun h => by rw [← hb] at h; simp at h⟩
        intro q hq
        rw [v2.1]
        exact hothers q hq
      · have v2 := same_vm_trans v1 (same_vm_memset_zero fr.2 (f + (kf.heap p).page_read_bytes)
          (kf.heap p).page_zero_bytes)
        generalize (memset_zero fr.2 (f + (kf.heap p).page_read_bytes)
          (kf.heap p).page_zero_bytes) = kz at v2 h
        obtain ⟨i1, i2, i3, i4, i5, i6, _⟩ :=
          install_page_spec (kf.heap p).upage f (kf.heap p).writable kz
        cases hip : (install_page (kf.heap p).upage f (kf.heap p).writable kz).1 with
        | false =>
          rw [hip] at h
          simp only [Bool.not_false, if_true, Except.ok.injEq, Prod.mk.injEq] at h
          obtain ⟨hb, hk⟩ := h
          rw [(i5 hip).2] at hk
          have v3 := same_vm_trans v2 (same_vm_free_frame f kz)
          rw [hk] at v3
          refine ⟨v3.2.1.trans f2, v3.2.2.1.trans f3, v3.2.2.2.1.trans f4, ?_,
            fun _ => by rw [v3.1, f6], fun h => by rw [← hb] at h; simp at h⟩
          intro q hq
          rw [v3.1]
          exact hothers q hq
        | true =>
          rw [hip] at h
          simp only [Bool.not_true, Bool.false_eq_true, if_false, Except.ok.injEq,
            Prod.mk.injEq] at h
          obtain ⟨hb, hk⟩ := h
          have hpd : (install_page (kf.heap p).upage f (kf.heap p).writable kz).2.pagedir k.cur
              (pg_round_down (k.heap p).upage) =
              some { kpage := f, writable := (k.heap p).writable, dirty := false,
                     accessed := false } := by
            have := i6 hip
            rw [v2.2.1, f2] at this
            rw [← f6]
            exact this
          have e1 : ∀ q, q ≠ p → k1.heap q = kf.heap q := by
            intro q hq
            rw [← hk]
            simp only [heap_set, if_neg hq, install_page_heap, v2.1]
          have e2 : k1.heap p = { k.heap p with frame := some f } := by
            rw [← hk]
            simp only [heap_set, if_true, install_page_heap, v2.1, f6]
          have e3 : k1.cur = k.cur ∧ k1.supp_page_table = k.supp_page_table ∧ k1.brk = k.brk ∧
              k1.pagedir =
                (install_page (kf.heap p).upage f (kf.heap p).writable kz).2.pagedir := by
            rw [← hk]
            exact ⟨(i2.trans v2.2.1).trans f2, (i3.trans v2.2.2.1).trans f3,
              (i4.trans v2.2.2.2.1).trans f4, rfl⟩
          refine ⟨e3.1, e3.2.1, e3.2.2.1, ?_, fun h => by rw [← hb] at h; simp at h,
            fun _ => ⟨f, e2, ?_⟩⟩
          · intro q hq
            rw [e1 q hq]
            exact hothers q hq
          · rw [e3.2.2.2]
            exact hpd

/-- What `install_load_page` does for an entry that has no frame or is
pinned. -/
theorem install_load_page_result (p : Nat) (k : Kernel)
    (hp : (k.heap p).frame = none ∨ (k.heap p).pinned = true) :
    (∀ e, install_load_page p k = .error e → e = Fault.panic) ∧
    (∀ b k1, install_load_page p k = .ok (b, k1) →
      k1.cur = k.cur ∧ k1.supp_page_table = k.supp_page_table ∧ k1.brk = k.brk ∧
      (∀ q, q ≠ p → k1.heap q = k.heap q ∨ evicted (k.heap q) (k1.heap q)) ∧
      (b = false → k1.heap p = k.heap p) ∧
      (b = true → ∃ f,
        k1.heap p = { k.heap p with
          frame := some f,
          is_in_swap := (k.heap p).type ≠ spte_type.CODE && (k.heap p).is_in_swap,
          idx := if (k.heap p).type = spte_type.CODE ∧ (k.heap p).is_in_swap = true
            then BITMAP_ERROR else (k.heap p).idx } ∧
        k1.pagedir k.cur (pg_round_down (k.heap p).upage) =
          some { kpage := f,
                 writable := decide ((k.heap p).type = spte_type.CODE) || (k.heap p).writable,
                 dirty := false, accessed := false })) := by
  unfold install_load_page
  split
  · rename_i hty
    obtain ⟨a, b⟩ := install_load_file_result p k hp
    refine ⟨a, fun bb k1 h => ?_⟩
    obtain ⟨c1, c2, c3, c4, c5, c6⟩ := b bb k1 h
    refine ⟨c1, c2, c3, c4, c5, fun hb => ?_⟩
    obtain ⟨f, d1, d2⟩ := c6 hb
    refine ⟨f, ?_, ?_⟩
    · rw [d1]
      apply spt_entry.ext <;> simp [hty]
    · rw [d2]
      simp [hty]
  · rename_i hty
    obtain ⟨a, b⟩ := install_load_file_result p k hp
    refine ⟨a, fun bb k1 h => ?_⟩
    obtain ⟨c1, c2, c3, c4, c5, c6⟩ := b bb k1 h
    refine ⟨c1, c2, c3, c4, c5, fun hb => ?_⟩
    obtain ⟨f, d1, d2⟩ := c6 hb
    refine ⟨f, ?_, ?_⟩
    · rw [d1]
      apply spt_entry.ext <;> simp [hty]
    · rw [d2]
      simp [hty]
  · rename_i hty
    obtain ⟨a, b, _⟩ := install_load_swap_result p k hp
    refine ⟨a, fun bb k1 h => ?_⟩
    obtain ⟨c1, c2, c3, c4, c5, c6⟩ := b bb k1 h
    refine ⟨c1, c2, c3, c4, fun hb => (c5 hb).1, fun hb => ?_⟩
    obtain ⟨f, d1, d2⟩ := c6 hb
    refine ⟨f, ?_, ?_⟩
    · rw [d1]
      apply spt_entry.ext <;> simp [hty]
    · rw [d2]
      simp [hty]

/-! ## First loop of victim selection: lemmas -/

theorem pass1_return (k : Kernel) (fte : frame_table_entry) (rest : List frame_table_entry)
    (i : Nat) (h : pass1_victim k fte = true) :
    get_victim_pass1 (fte :: rest) i k = (some i, k) := by
  simp only [pass1_victim, Bool.and_eq_true, Bool.not_eq_true'] at h
  obtain ⟨⟨h1, h2⟩, h3⟩ := h
  simp only [get_victim_pass1, h1, h2, h3]
  simp

theorem pass1_write_back (k : Kernel) (fte : frame_table_entry) (rest : List frame_table_entry)
    (i : Nat) (hpin : (k.heap fte.spte).pinned = false)
    (hty : (k.heap fte.spte).type ≠ spte_type.CODE)
    (hd : pagedir_is_dirty k fte.t (k.heap fte.spte).upage = true) :
    get_victim_pass1 (fte :: rest) i k = get_victim_pass1 rest (i + 1) (pass1_written k fte) := by
  simp only [get_victim_pass1, hpin, hd, pass1_written]
  simp only [Bool.not_false, if_true, hty, ne_eq, not_false_eq_true]
  split <;> rfl

theorem pass1_skip (k : Kernel) (fte : frame_table_entry) (rest : List frame_table_entry)
    (i : Nat) (hv : pass1_victim k fte = false)
    (hw : ¬ ((k.heap fte.spte).pinned = false ∧ (k.heap fte.spte).type ≠ spte_type.CODE ∧
      pagedir_is_dirty k fte.t (k.heap fte.spte).upage = true)) :
    get_victim_pass1 (fte :: rest) i k = get_victim_pass1 rest (i + 1) k := by
  simp only [get_victim_pass1]
  cases hpin : (k.heap fte.spte).pinned with
  | true => simp
  | false =>
    simp only [pass1_victim, hpin, Bool.not_false, Bool.true_and] at hv
    by_cases hty : (k.heap fte.spte).type = spte_type.CODE
    · simp only [Bool.not_false, if_true, hty, ne_eq, not_true_eq_false, if_false, hv]
      simp
    · have hd : pagedir_is_dirty k fte.t (k.heap fte.spte).upage = false := by
        cases hd : pagedir_is_dirty k fte.t (k.heap fte.spte).upage with
        | false => rfl
        | true => exact absurd ⟨hpin, hty, hd⟩ hw
      rw [hd] at hv
      simp only [Bool.not_false, Bool.true_and, Bool.not_eq_false'] at hv
      simp [hty, hd, hv]

theorem pass1_written_spec (k : Kernel) (fte : frame_table_entry) :
    (pass1_written k fte).heap = k.heap ∧
    (∀ t pg, ¬ (t = fte.t ∧ pg = pg_round_down (k.heap fte.spte).upage) →
      (pass1_written k fte).pagedir t pg = k.pagedir t pg) ∧
    ((write_to_disk fte.spte k).1 = true →
      pagedir_is_dirty (pass1_written k fte) fte.t (k.heap fte.spte).upage = false) ∧
    ((write_to_disk fte.spte k).1 = false →
      (pass1_written k fte).pagedir = k.pagedir) := by
  obtain ⟨_, w2, _, _, _, w6⟩ := write_to_disk_fields fte.spte k
  unfold pass1_written
  cases hw : (write_to_disk fte.spte k).1 with
  | false =>
    simp only [Bool.false_eq_true, if_false]
    exact ⟨w2, fun _ _ _ => by rw [w6], fun h => by simp at h, fun _ => w6⟩
  | true =>
    simp only [if_true]
    refine ⟨w2, ?_, fun _ => ?_, fun h => by simp at h⟩
    · intro t pg hne
      simp only [pagedir_set_dirty, pagedir_put, if_neg hne, w6]
    · simp only [pagedir_is_dirty, pagedir_set_dirty, pagedir_put, and_self, if_true]
      cases (write_to_disk fte.spte k).2.pagedir fte.t (pg_round_down (k.heap fte.spte).upage)
        <;> rfl

theorem pass1_victim_congr (k k1 : Kernel) (g : frame_table_entry) (hh : k1.heap = k.heap)
    (hpd : k1.pagedir g.t (pg_round_down (k.heap g.spte).upage) =
      k.pagedir g.t (pg_round_down (k.heap g.spte).upage)) :
    pass1_victim k1 g = pass1_victim k g := by
  simp only [pass1_victim, pagedir_is_dirty, pagedir_is_accessed, hh, hpd]

/-- The first loop of `get_victim_frame` returns the first entry of the list
that passes `pass1_victim`, if there is one. -/
theorem pass1_first (l : List frame_table_entry) :
    ∀ (i : Nat) (k : Kernel), frames_distinct k l →
      (∀ r, (get_victim_pass1 l i k).1 = some r →
        ∃ j fte, r = i + j ∧ l[j]? = some fte ∧ pass1_victim k fte = true ∧
          ∀ j1 g, j1 < j → l[j1]? = some g → pass1_victim k g = false) ∧
      ((get_victim_pass1 l i k).1 = none → ∀ g, g ∈ l → pass1_victim k g = false) := by
  induction l with
  | nil =>
    intro i k _
    exact ⟨fun r h => by simp [get_victim_pass1] at h, fun _ g hg => by simp at hg⟩
  | cons fte rest ih =>
    intro i k hd
    have hd1 := List.pairwise_cons.mp hd
    cases hv : pass1_victim k fte with
    | true =>
      rw [pass1_return k fte rest i hv]
      refine ⟨fun r h => ?_, fun h => by simp at h⟩
      simp only [Option.some.injEq] at h
      exact ⟨0, fte, by omega, by simp, hv, fun j1 g hj => by omega⟩
    | false =>
      have step : ∀ k1 : Kernel, k1.heap = k.heap →
          (∀ t pg, ¬ (t = fte.t ∧ pg = pg_round_down (k.heap fte.spte).upage) →
            k1.pagedir t pg = k.pagedir t pg) →
          get_victim_pass1 (fte :: rest) i k = get_victim_pass1 rest (i + 1) k1 →
          (∀ r, (get_victim_pass1 (fte :: rest) i k).1 = some r →
            ∃ j g, r = i + j ∧ (fte :: rest)[j]? = some g ∧ pass1_victim k g = true ∧
              ∀ j1 g1, j1 < j → (fte :: rest)[j1]? = some g1 → pass1_victim k g1 = false) ∧
          ((get_victim_pass1 (fte :: rest) i k).1 = none →
            ∀ g, g ∈ fte :: rest → pass1_victim k g = false) := by
        intro k1 hh hpd heq
        have hcong : ∀ g, g ∈ rest → pass1_victim k1 g = pass1_victim k g := by
          intro g hg
          apply pass1_victim_congr k k1 g hh
          apply hpd
          intro hc
          exact hd1.1 g hg ⟨hc.1.symm, hc.2.symm⟩
        have hdr : frames_distinct k1 rest := by
          unfold frames_distinct
          rw [hh]
          exact hd1.2
        obtain ⟨a, b⟩ := ih (i + 1) k1 hdr
        rw [heq]
        refine ⟨fun r h => ?_, fun h g hg => ?_⟩
        · obtain ⟨j, g, e1, e2, e3, e4⟩ := a r h
          have hgm : g ∈ rest := List.getElem?_mem e2
          refine ⟨j + 1, g, by omega, by simpa using e2, by rw [← hcong g hgm]; exact e3, ?_⟩
          intro j1 g1 hj hg1
          cases j1 with
          | zero =>
            simp only [List.getElem?_cons_zero, Option.some.injEq] at hg1
            rw [← hg1]
            exact hv
          | succ j1 =>
            simp only [List.getElem?_cons_succ] at hg1
            rw [← hcong g1 (List.getElem?_mem hg1)]
            exact e4 j1 g1 (by omega) hg1
        · rcases List.mem_cons.mp hg with rfl | hg
          · exact hv
          · rw [← hcong g hg]
            exact b h g hg
      by_cases hw : (k.heap fte.spte).pinned = false ∧
          (k.heap fte.spte).type ≠ spte_type.CODE ∧
          pagedir_is_dirty k fte.t (k.heap fte.spte).upage = true
      · obtain ⟨w1, w2, _, _⟩ := pass1_written_spec k fte
        exact step (pass1_written k fte) w1 w2 (pass1_write_back k fte rest i hw.1 hw.2.1 hw.2.2)
      · exact step k rfl (fun _ _ _ => rfl) (pass1_skip k fte rest i hv hw)

/-! ## Stack growth and the predicate on swapped entries: lemmas -/

theorem hash_insert_heap (a : Kernel) (t p : Nat) : (hash_insert a t p).heap = a.heap :=
  (hash_insert_fields a t p).2.2.1

theorem stack_increase_entry_more (k : Kernel) (upage : Nat) (pin : Bool) :
    ((heap_set (create_spte_code upage k).2 (create_spte_code upage k).1
      { (create_spte_code upage k).2.heap (create_spte_code upage k).1
        with pinned := pin }).heap k.brk).type = spte_type.CODE ∧
    ((heap_set (create_spte_code upage k).2 (create_spte_code upage k).1
      { (create_spte_code upage k).2.heap (create_spte_code upage k).1
        with pinned := pin }).heap k.brk).frame = none ∧
    ((heap_set (create_spte_code upage k).2 (create_spte_code upage k).1
      { (create_spte_code upage k).2.heap (create_spte_code upage k).1
        with pinned := pin }).heap k.brk).is_in_swap = false ∧
    (∀ t, t ≠ k.cur →
      (heap_set (create_spte_code upage k).2 (create_spte_code upage k).1
        { (create_spte_code upage k).2.heap (create_spte_code upage k).1
          with pinned := pin }).supp_page_table t = k.supp_page_table t) ∧
    ((create_spte_code upage k).2.heap (create_spte_code upage k).1).is_in_swap = false ∧
    (heap_set (create_spte_code upage k).2 (create_spte_code upage k).1
      { (create_spte_code upage k).2.heap (create_spte_code upage k).1
        with pinned := pin }).pool = k.pool ∧
    (heap_set (create_spte_code upage k).2 (create_spte_code upage k).1
      { (create_spte_code upage k).2.heap (create_spte_code upage k).1
        with pinned := pin }).install_fails = k.install_fails := by
  have hc : create_spte_code upage k =
      ((create_spte k).1, hash_insert
        (heap_set (create_spte k).2 (create_spte k).1
          { (create_spte k).2.heap (create_spte k).1 with
            upage := upage, type := spte_type.CODE }) k.cur k.brk) := rfl
  rw [hc]
  refine ⟨?_, ?_, ?_, ?_, ?_, ?_, ?_⟩
  · simp [heap_set, hash_insert_heap, create_spte]
  · simp [heap_set, hash_insert_heap, create_spte]
  · simp [heap_set, hash_insert_heap, create_spte]
  · intro t ht
    show (hash_insert _ _ _).supp_page_table t = _
    rw [(hash_insert_fields _ _ _).2.2.2.2.2.2.2.1 t ht]
    rfl
  · simp [heap_set, hash_insert_heap, create_spte]
  · show (hash_insert _ _ _).pool = _
    rw [(hash_insert_fields _ _ _).2.2.2.2.2.1]
    rfl
  · show (hash_insert _ _ _).install_fails = _
    unfold hash_insert
    split <;> rfl

theorem file_step_new_block (file : Nat) (writable : Bool) (ofs : Int) (upage read_bytes : Nat)
    (k : Kernel) :
    ((file_step file writable ofs upage read_bytes k).heap k.brk).type = spte_type.FILE ∧
    ((file_step file writable ofs upage read_bytes k).heap k.brk).frame = none ∧
    ((file_step file writable ofs upage read_bytes k).heap k.brk).is_in_swap = false ∧
    (∀ q, q ≠ k.brk → (file_step file writable ofs upage read_bytes k).heap q = k.heap q) := by
  unfold file_step
  rw [hash_insert_heap]
  unfold file_written
  refine ⟨?_, ?_, ?_, ?_⟩
  · simp [heap_set, spte_details, create_spte]
  · simp [heap_set, spte_details, create_spte]
  · simp [heap_set, spte_details, create_spte]
  · intro q hq
    simp [heap_set, spte_details, create_spte, hq]

/-- The blocks a run of the loop of `file_supp_creation` allocates are `FILE`
entries without frame that are not in swap, whatever the arguments. -/
theorem file_loop_fresh_blocks (file : Nat) (writable : Bool) :
    ∀ (fuel : Nat) (ofs : Int) (upage read_bytes zero_bytes : Nat) (k k1 : Kernel) (b : Bool),
      file_supp_creation_loop file writable fuel ofs upage read_bytes zero_bytes k =
        .ok (b, k1) →
      k.brk ≤ k1.brk ∧ (∀ q, q < k.brk → k1.heap q = k.heap q) ∧
      ∀ p, k.brk ≤ p → p < k1.brk →
        (k1.heap p).type = spte_type.FILE ∧ (k1.heap p).frame = none ∧
        (k1.heap p).is_in_swap = false := by
  intro fuel
  induction fuel with
  | zero =>
    intro ofs upage read_bytes zero_bytes k k1 b h
    simp [file_supp_creation_loop] at h
  | succ fuel ih =>
    intro ofs upage read_bytes zero_bytes k k1 b h
    by_cases hc : zero_bytes > 0 ∨ read_bytes > 0
    · rw [file_loop_unfold _ _ _ _ _ _ _ _ hc] at h
      obtain ⟨a1, a2, a3⟩ := ih _ _ _ _ _ _ _ h
      obtain ⟨s1, _⟩ := file_step_fields file writable ofs upage read_bytes k
      obtain ⟨n1, n2, n3, n4⟩ := file_step_new_block file writable ofs upage read_bytes k
      rw [s1] at a1 a2 a3
      refine ⟨by omega, fun q hq => ?_, fun p h1 h2 => ?_⟩
      · rw [a2 q (by omega), n4 q (by omega)]
      · by_cases hp : p = k.brk
        · subst hp
          rw [a2 k.brk (by omega)]
          exact ⟨n1, n2, n3⟩
        · exact a3 p (by omega) h2
    · rw [file_supp_creation_loop, if_neg hc] at h
      simp only [Except.ok.injEq, Prod.mk.injEq] at h
      rw [← h.2]
      exact ⟨le_refl _, fun _ _ => rfl, fun p h1 h2 => by omega⟩

theorem swap_inv_of_step {k k1 : Kernel} (hinv : swap_inv k)
    (htab : k1.supp_page_table = k.supp_page_table)
    (hheap : ∀ t q, q ∈ k.supp_page_table t →
      k1.heap q = k.heap q ∨ evicted (k.heap q) (k1.heap q) ∨
      ((k1.heap q).is_in_swap = true → (k1.heap q).type = spte_type.CODE ∧
        (k1.heap q).frame = none)) :
    swap_inv k1 := by
  intro t p hp hsw
  rw [htab] at hp
  rcases hheap t p hp with e | e | e
  · rw [e] at hsw ⊢
    exact hinv t p hp hsw
  · obtain ⟨_, _, hcase⟩ := e
    rcases hcase with ⟨hty, he⟩ | ⟨_, i, he⟩
    · rw [he] at hsw ⊢
      have := (hinv t p hp hsw).1
      rw [hty] at this
      simp at this
    · rw [he]
      exact ⟨rfl, rfl⟩
  · exact e hsw

theorem ok_state_of (r : Except Fault (Bool × Kernel)) (d : Kernel)
    (h : (match r with | .ok (true, _) => true | _ => false) = true) :
    r = .ok (true, state_of r d) := by
  cases r with
  | error e => simp at h
  | ok x =>
    obtain ⟨b, k1⟩ := x
    cases b with
    | false => simp at h
    | true => rfl

theorem ok_entry_of (r : Except Fault (Option Nat × Kernel)) (p : Nat) (d : Kernel)
    (h : (match r with | .ok (some q, _) => decide (q = p) | _ => false) = true) :
    r = .ok (some p, state_of r d) := by
  cases r with
  | error e => simp at h
  | ok x =>
    obtain ⟨o, k1⟩ := x
    cases o with
    | none => simp at h
    | some q =>
      have hq : q = p := by simpa using h
      rw [hq]
      rfl

theorem ok_kernel_of (r : Except Fault Kernel) (d : Kernel)
    (h : (match r with | .ok _ => true | _ => false) = true) :
    r = .ok (kernel_of r d) := by
  cases r with
  | error e => simp at h
  | ok x => rfl

/-! ## The claims -/

/-- C1: whatever the frame list, the dirty and accessed bits and the results of
`write_to_disk` are, a victim that `get_victim_frame` returns is an entry of
the frame list whose `spt_entry` has `pinned = false`, both in the state before
the call and in the state it leaves. -/
theorem get_victim_frame_never_pinned (k k1 : Kernel) (i : Nat)
    (h : get_victim_frame k = .ok (some i, k1)) :
    ∃ fte, k1.frame_table[i]? = some fte ∧ (k1.heap fte.spte).pinned = false ∧
      k.frame_table[i]? = some fte ∧ (k.heap fte.spte).pinned = false := by
  by_cases hne : k.frame_table = []
  · simp [get_victim_frame, hne, get_victim_pass1, get_victim_pass2] at h
  · obtain ⟨r, k2, e, c, v, _⟩ := get_victim_frame_spec k hne
    rw [e] at h
    simp only [Except.ok.injEq, Prod.mk.injEq] at h
    obtain ⟨h1, h2⟩ := h
    subst h1 h2
    obtain ⟨fte, e1, e2⟩ := v i rfl
    exact ⟨fte, by rw [c.2.2.2.2.1]; exact e1, by rw [(c.2.2.2.1 _).2]; exact e2, e1, e2⟩

/-- Witness of C1: with a pinned first frame and an unpinned, clean second
frame the victim is the second frame. -/
theorem get_victim_frame_never_pinned_witness :
    get_victim_frame (two_pages true false) = .ok (some 1, two_pages true false) ∧
    ∃ fte, (two_pages true false).frame_table[1]? = some fte ∧
      ((two_pages true false).heap fte.spte).pinned = false ∧
      (two_pages true false).frame_table[1]? = some fte ∧
      ((two_pages true false).heap fte.spte).pinned = false :=
  ⟨rfl, get_victim_frame_never_pinned (two_pages true false) (two_pages true false) 1 rfl⟩

/-- C2: on a frame list that is not empty `get_victim_frame` returns, and it
returns a victim if and only if some entry of the list is unpinned; when every
entry is pinned it returns `NULL`, and `frame_alloc`, which asks for a victim
once the user pool has no free page, ends in a kernel panic instead of
returning a frame. -/
theorem get_victim_frame_some_iff_unpinned (k : Kernel) (hne : k.frame_table ≠ []) :
    ∃ r k1, get_victim_frame k = .ok (r, k1) ∧
      (r.isSome = true ↔ ∃ fte, fte ∈ k.frame_table ∧ (k.heap fte.spte).pinned = false) ∧
      ((∀ fte, fte ∈ k.frame_table → (k.heap fte.spte).pinned = true) →
        r = none ∧ ∀ flags, k.pool = [] → frame_alloc flags k = .error Fault.panic) := by
  obtain ⟨r, k1, e, _, c, d⟩ := get_victim_frame_spec k hne
  have hiff : r.isSome = true ↔
      ∃ fte, fte ∈ k.frame_table ∧ (k.heap fte.spte).pinned = false := by
    constructor
    · intro hs
      obtain ⟨i, rfl⟩ := Option.isSome_iff_exists.mp hs
      obtain ⟨fte, e1, e2⟩ := c i rfl
      exact ⟨fte, List.getElem?_mem e1, e2⟩
    · exact d
  refine ⟨r, k1, e, hiff, ?_⟩
  intro hall
  have hr : r = none := by
    cases r with
    | none => rfl
    | some i =>
      obtain ⟨fte, hm, hp⟩ := hiff.mp rfl
      rw [hall fte hm] at hp
      exact absurd hp (by simp)
  refine ⟨hr, ?_⟩
  intro flags hpool
  subst hr
  have hemp : k.frame_table.isEmpty = false := by
    cases hft : k.frame_table with
    | nil => exact absurd hft hne
    | cons _ _ => rfl
  have hz : flags &&& 0 = 0 := Nat.and_zero flags
  simp [frame_alloc, PAL_USER, palloc_get_page, hpool, frame_alloc_loop, hemp, e, hz]

/-- Witness of C2: a frame list of two pinned frames. -/
theorem get_victim_frame_some_iff_unpinned_witness :
    (two_pages true true).frame_table ≠ [] ∧
    ∃ r k1, get_victim_frame (two_pages true true) = .ok (r, k1) ∧
      (r.isSome = true ↔ ∃ fte, fte ∈ (two_pages true true).frame_table ∧
        ((two_pages true true).heap fte.spte).pinned = false) ∧
      ((∀ fte, fte ∈ (two_pages true true).frame_table →
          ((two_pages true true).heap fte.spte).pinned = true) →
        r = none ∧ ∀ flags, (two_pages true true).pool = [] →
          frame_alloc flags (two_pages true true) = .error Fault.panic) :=
  ⟨by decide, get_victim_frame_some_iff_unpinned (two_pages true true) (by decide)⟩

/-- C3 (the code departs from the claim): thread 0 owns an unpinned MMAP page
that is dirty in its page directory and whose first byte is 65, over a file of
zeros.  When thread 1 runs the eviction, `write_to_disk` tests the dirty bit in
the page directory of thread 1, writes nothing and reports success: the page is
dropped and the file still holds zeros.  When thread 0 itself runs the
eviction, the byte reaches the file. -/
theorem write_to_disk_tests_the_evicting_thread :
    pagedir_is_dirty (c3_state 1) 0 0x10000000 = true ∧
    user_byte (c3_state 1) 0 0x10000000 = 65 ∧
    (evict_victim (c3_state 1)).toOption.map
        (fun r => (r.1, r.2.pagedir 0 0x10000000, (List.range 4).map (r.2.file_data 7))) =
      some (true, none, [0, 0, 0, 0]) ∧
    (evict_victim (c3_state 0)).toOption.map
        (fun r => (r.1, r.2.pagedir 0 0x10000000, (List.range 4).map (r.2.file_data 7))) =
      some (true, none, [65, 0, 0, 0]) := by
  decide

/-- C4: with a swap bitmap `b` whose lowest clear bit is `i`, `swap_out` returns
`i`, sets bit `i` and no other, and writes the bytes of the frame to the
sectors `i * SECTORS_PER_PAGE .. (i + 1) * SECTORS_PER_PAGE - 1` and to no
other sector; when every bit is set, or when there is no swap disk, it returns
`BITMAP_ERROR` and leaves the state, bitmap and disk included, as it was. -/
theorem swap_out_first_free_slot (spte : spt_entry) (k : Kernel) :
    (∀ b i f, k.swap_table = some b → b.length < WORD → spte.frame = some f →
        b[i]? = some false → (∀ j, j < i → b[j]? = some true) →
        (swap_out spte k).1 = i ∧
        (swap_out spte k).2.swap_table = some (b.set i true) ∧
        (∀ j o, j < SECTORS_PER_PAGE → o < DISK_SECTOR_SIZE →
          (swap_out spte k).2.swap_disk (i * SECTORS_PER_PAGE + j) o =
            k.mem (f + j * DISK_SECTOR_SIZE + o)) ∧
        (∀ s o, ¬ (i * SECTORS_PER_PAGE ≤ s ∧ s < (i + 1) * SECTORS_PER_PAGE) →
          (swap_out spte k).2.swap_disk s o = k.swap_disk s o)) ∧
    (∀ b, k.swap_table = some b → (∀ j, j < b.length → b[j]? = some true) →
        swap_out spte k = (BITMAP_ERROR, k)) ∧
    (k.swap_table = none → swap_out spte k = (BITMAP_ERROR, k)) := by
  refine ⟨?_, ?_, ?_⟩
  · intro b i f hb hlen hf hi hlt
    rw [swap_out_eq_of_first spte k b i hb hlen hi hlt]
    refine ⟨rfl, rfl, ?_, ?_⟩
    · intro j o hj ho
      show swap_out_sectors i (frame_addr spte.frame) k.mem SECTORS_PER_PAGE 0 k.swap_disk
        (i * SECTORS_PER_PAGE + j) o = _
      rw [swap_out_sectors_spec, if_pos (by omega), hf]
      simp [frame_addr]
    · intro s o hs
      show swap_out_sectors i (frame_addr spte.frame) k.mem SECTORS_PER_PAGE 0 k.swap_disk
        s o = _
      rw [swap_out_sectors_spec, if_neg]
      intro hc
      apply hs
      constructor
      · omega
      · have : (i + 1) * SECTORS_PER_PAGE = i * SECTORS_PER_PAGE + SECTORS_PER_PAGE := by ring
        omega
  · intro b hb hall
    have hs := bitmap_scan_none b 0 hall
    cases k
    simp only at hb
    subst hb
    simp [swap_out, bitmap_scan_and_flip, hs]
  · intro hb
    simp [swap_out, hb]

/-- Witness of C4: slot 0 is occupied and slot 1 is free. -/
theorem swap_out_first_free_slot_witness :
    (swap_out c4_spte c4_state).1 = 1 ∧
    (swap_out c4_spte c4_state).2.swap_table = some ([true, false].set 1 true) ∧
    (∀ j o, j < SECTORS_PER_PAGE → o < DISK_SECTOR_SIZE →
      (swap_out c4_spte c4_state).2.swap_disk (1 * SECTORS_PER_PAGE + j) o =
        c4_state.mem (0x1000 + j * DISK_SECTOR_SIZE + o)) ∧
    (∀ s o, ¬ (1 * SECTORS_PER_PAGE ≤ s ∧ s < (1 + 1) * SECTORS_PER_PAGE) →
      (swap_out c4_spte c4_state).2.swap_disk s o = c4_state.swap_disk s o) :=
  (swap_out_first_free_slot c4_spte c4_state).1 [true, false] 1 0x1000 rfl (by decide) rfl rfl
    (fun j hj => by
      have : j = 0 := by omega
      subst this
      rfl)

/-- C5: when the swap bitmap has a free slot, `swap_out` of a frame at `f`,
then `swap_in` with the returned index into a frame at `g` (whatever memory
holds by then) leaves the `PGSIZE` bytes at `g` equal to the bytes the frame at
`f` held, leaves memory outside the frame at `g` alone, leaves the bitmap as it
was before `swap_out`, and leaves every sector outside the slot as it was. -/
theorem swap_out_swap_in_roundtrip (spte : spt_entry) (k : Kernel) (b : List Bool)
    (f g : Nat) (m : Nat → Nat)
    (hb : k.swap_table = some b) (hlen : b.length < WORD)
    (hfree : ∃ j : Nat, b[j]? = some false) (hf : spte.frame = some f) :
    (swap_out spte k).1 ≠ BITMAP_ERROR ∧
    (∀ o, o < PGSIZE →
      (swap_in { spte with idx := (swap_out spte k).1, frame := some g }
        { (swap_out spte k).2 with mem := m }).mem (g + o) = k.mem (f + o)) ∧
    (∀ a, ¬ (g ≤ a ∧ a < g + PGSIZE) →
      (swap_in { spte with idx := (swap_out spte k).1, frame := some g }
        { (swap_out spte k).2 with mem := m }).mem a = m a) ∧
    (swap_in { spte with idx := (swap_out spte k).1, frame := some g }
        { (swap_out spte k).2 with mem := m }).swap_table = k.swap_table ∧
    (∀ s o, ¬ ((swap_out spte k).1 * SECTORS_PER_PAGE ≤ s ∧
          s < ((swap_out spte k).1 + 1) * SECTORS_PER_PAGE) →
      (swap_in { spte with idx := (swap_out spte k).1, frame := some g }
        { (swap_out spte k).2 with mem := m }).swap_disk s o = k.swap_disk s o) := by
  obtain ⟨i, hi, hlt⟩ := exists_first_free b hfree
  have hil : i < b.length := by
    by_contra hge
    rw [List.getElem?_eq_none (by omega)] at hi
    simp at hi
  rw [swap_out_eq_of_first spte k b i hb hlen hi hlt]
  have hS : SECTORS_PER_PAGE = 8 := rfl
  have hD : DISK_SECTOR_SIZE = 512 := rfl
  have hP : PGSIZE = 4096 := rfl
  refine ⟨?_, ?_, ?_, ?_, ?_⟩
  · show i ≠ BITMAP_ERROR
    unfold BITMAP_ERROR; omega
  · intro o ho
    simp only [swap_in, frame_addr, Option.getD_some]
    rw [swap_in_sectors_spec, if_pos (by rw [hS, hD]; omega), swap_out_sectors_spec,
      if_pos, hf]
    · simp only [Option.getD_some]
      rw [hD, hS] at *
      congr 1
      omega
    · rw [hD, hS] at *
      refine ⟨by omega, ?_, ?_⟩
      · have : (g + o - g) / 512 < 8 := by omega
        omega
      · exact Nat.mod_lt _ (by norm_num)
  · intro a ha
    simp only [swap_in, frame_addr, Option.getD_some]
    rw [swap_in_sectors_spec, if_neg (by rw [hS, hD]; rw [hP] at ha; omega)]
  · simp only [swap_in, bitmap_reset, List.set_set]
    rw [set_same_of_getElem? b i false hi, hb]
  · intro s o hs
    simp only [swap_in]
    rw [swap_out_sectors_spec, if_neg]
    intro hc
    apply hs
    rw [hS] at *
    omega

/-- Witness of C5: a page goes out to slot 1 and comes back into another
frame. -/
theorem swap_out_swap_in_roundtrip_witness :
    (swap_out c4_spte c4_state).1 ≠ BITMAP_ERROR ∧
    (∀ o, o < PGSIZE →
      (swap_in { c4_spte with idx := (swap_out c4_spte c4_state).1, frame := some 0x2000 }
        { (swap_out c4_spte c4_state).2 with mem := fun _ => 0 }).mem (0x2000 + o) =
        c4_state.mem (0x1000 + o)) ∧
    (∀ a, ¬ (0x2000 ≤ a ∧ a < 0x2000 + PGSIZE) →
      (swap_in { c4_spte with idx := (swap_out c4_spte c4_state).1, frame := some 0x2000 }
        { (swap_out c4_spte c4_state).2 with mem := fun _ => 0 }).mem a = (fun _ => 0) a) ∧
    (swap_in { c4_spte with idx := (swap_out c4_spte c4_state).1, frame := some 0x2000 }
        { (swap_out c4_spte c4_state).2 with mem := fun _ => 0 }).swap_table =
      c4_state.swap_table ∧
    (∀ s o, ¬ ((swap_out c4_spte c4_state).1 * SECTORS_PER_PAGE ≤ s ∧
          s < ((swap_out c4_spte c4_state).1 + 1) * SECTORS_PER_PAGE) →
      (swap_in { c4_spte with idx := (swap_out c4_spte c4_state).1, frame := some 0x2000 }
        { (swap_out c4_spte c4_state).2 with mem := fun _ => 0 }).swap_disk s o =
        c4_state.swap_disk s o) :=
  swap_out_swap_in_roundtrip c4_spte c4_state [true, false] 0x1000 0x2000 (fun _ => 0) rfl
    (by decide) ⟨1, rfl⟩ rfl

/-- C6 (the code departs from the claim): thread 0 has one CODE entry that is
swapped out to slot 0.  After `destroy_spt` the table is empty and slot 0 is
still marked used in the swap bitmap: `free_spte` never clears a swap slot. -/
theorem destroy_spt_keeps_swap_slots :
    uvaddr_to_spt_entry c6_state 0xBFFFF000 = some 0 ∧
    (c6_state.heap 0).type = spte_type.CODE ∧
    (c6_state.heap 0).is_in_swap = true ∧ (c6_state.heap 0).idx = 0 ∧
    c6_state.swap_table = some [true, false] ∧
    (destroy_spt 0 c6_state).supp_page_table 0 = [] ∧
    (destroy_spt 0 c6_state).swap_table = some [true, false] := by
  decide

/-- C7 (the code departs from the claim): a file of three pages is mapped at
0x10000000 while page 0x10001000 already has an entry of another file.
`create_spte_mmap` creates the entry of the first page, meets the existing
entry and calls `free_spte_mmap`, whose loop runs for the length of the file:
it removes the new entry, steps over the existing one and then looks up page
0x10002000, which has no entry, and dereferences `NULL`. -/
theorem create_spte_mmap_rollback_null_deref :
    uvaddr_to_spt_entry (one_lazy_page 0x10001000 12288) 0x10001000 = some 0 ∧
    uvaddr_to_spt_entry (one_lazy_page 0x10001000 12288) 0x10002000 = none ∧
    ∀ n : Nat,
      (match create_spte_mmap (n + 4) 9 12288 0x10000000 (one_lazy_page 0x10001000 12288) with
        | .error Fault.null_deref => true
        | _ => false) = true :=
  ⟨by decide, by decide, fun _ => rfl⟩

/-- C8 (the code departs from the claim): file 9 is 5000 bytes long and thread
0 has one entry, block 0 for page 0x08048000, and none for the two pages from
0x10000000 on.  `create_spte_mmap` maps the file there and returns the entry of
the first page, block 1; the table is then `[0, 1, 2]`.  `free_spte_mmap` on
that entry frees block 1 in its first turn.  In its second turn it compares
the file of the entry of page 0x10001000 with `first_spte->file`, which it
reads from the block it has just released: 9 against the fill pattern
0xcccccccc.  The entry of the second page is not freed, and the table is
`[0, 2]`, not `[0]` as before the mmap. -/
theorem free_spte_mmap_leaves_later_pages :
    (one_lazy_page 0x08048000 5000).supp_page_table 0 = [0] ∧
    file_length (one_lazy_page 0x08048000 5000) 9 = 5000 ∧
    uvaddr_to_spt_entry (one_lazy_page 0x08048000 5000) 0x10000000 = none ∧
    uvaddr_to_spt_entry (one_lazy_page 0x08048000 5000) 0x10001000 = none ∧
    create_spte_mmap 3 9 5000 0x10000000 (one_lazy_page 0x08048000 5000) =
      .ok (some 1, c8_mapped) ∧
    c8_mapped.supp_page_table 0 = [0, 1, 2] ∧ file_length c8_mapped 9 = 5000 ∧
    c8_mapped.freed 1 = false ∧ deref_file c8_mapped 1 = 9 ∧
    free_spte_mmap 3 (some 1) c8_mapped = .ok c8_unmapped ∧
    c8_unmapped.freed 1 = true ∧ deref_file c8_unmapped 1 = 0xCCCCCCCC ∧
    c8_unmapped.supp_page_table 0 = [0, 2] ∧
    uvaddr_to_spt_entry c8_unmapped 0x10001000 = some 2 ∧
    (c8_unmapped.heap 2).type = spte_type.MMAP ∧ (c8_unmapped.heap 2).file = 9 :=
  ⟨by decide, by decide, by decide, by decide, ok_entry_of _ _ _ (by decide), by decide,
    by decide, by decide, by decide, ok_kernel_of _ _ (by decide), by decide, by decide,
    by decide, by decide, by decide, by decide⟩

/-- C9: on well-formed tables, for `size >= 1` and a range that does not wrap,
a call of `validate` that returns has applied `valid_up` to the addresses of
`validate_trace`, one after the other, and every page that meets
`[ptr, ptr + size)` contains one of these addresses; every such page that has
an entry in the table on return is pinned and mapped in the page directory. -/
theorem validate_pins_every_page (esp ptr size : Nat) (k k1 : Kernel)
    (hsize : 1 ≤ size) (hwrap : ptr + size ≤ WORD) (hwf : vm_wf k)
    (h : validate esp ptr size k = .ok k1) :
    valid_up_all esp (validate_trace ptr size) k = .ok k1 ∧
    ∀ page, page % PGSIZE = 0 → ptr < page + PGSIZE → page < ptr + size →
      (∃ a, a ∈ validate_trace ptr size ∧ pg_round_down a = page) ∧
      ∀ p, uvaddr_to_spt_entry k1 page = some p →
        (k1.heap p).pinned = true ∧ (pagedir_get_page k1 k1.cur page).isSome = true := by
  have ht := validate_eq_trace esp ptr size k k1 h
  refine ⟨ht, ?_⟩
  intro page hal h1 h2
  have hcov := validate_trace_covers ptr size page hsize hwrap hal h1 h2
  refine ⟨hcov, ?_⟩
  intro p hp
  obtain ⟨a, ha, hpa⟩ := hcov
  obtain ⟨c, w, pr, _⟩ := valid_up_all_spec esp _ k k1 hwf ht
  have hpr := pr a ha
  rw [hpa] at hpr
  obtain ⟨hm, hu⟩ := uvaddr_to_spt_entry_some k1 page p hp
  have hrd : pg_round_down page = page := by
    unfold pg_round_down PGSIZE at *; omega
  rw [hrd] at hu
  rw [c] at hm
  obtain ⟨r1, r2⟩ := hpr p hm hu
  refine ⟨r1, ?_⟩
  unfold pagedir_get_page
  rw [hrd, c]
  cases hc : k1.pagedir k.cur page with
  | none => rw [hc] at r2; exact absurd r2 (by simp)
  | some _ => rfl

/-- The tables of `c9_state` are well formed. -/
theorem c9_state_wf : vm_wf c9_state := by
  refine ⟨?_, ?_, ?_, ?_⟩
  · intro fte hf
    simp only [c9_state, List.mem_singleton] at hf
    subst hf
    decide
  · intro t p q hp hq he
    simp only [c9_state] at hp hq he
    by_cases ht : t = 0
    · simp only [ht, if_true, List.mem_cons, List.mem_singleton, List.not_mem_nil,
        or_false] at hp hq
      rcases hp with rfl | rfl <;> rcases hq with rfl | rfl <;> simp at he ⊢
    · simp [ht] at hp
  · intro t p hp
    simp only [c9_state] at hp ⊢
    split at hp
    · simp only [List.mem_cons, List.mem_singleton, List.not_mem_nil, or_false] at hp
      rcases hp with rfl | rfl <;> decide
    · simp at hp
  · intro t p hp
    simp only [c9_state] at hp ⊢
    split at hp
    · simp only [List.mem_cons, List.mem_singleton, List.not_mem_nil, or_false] at hp
      rcases hp with rfl | rfl <;> decide
    · simp at hp

/-- Witness of C9: a system call passes four bytes of a stack page that is not
resident while the pool is empty; `validate` evicts the unpinned data page and
loads the stack page. -/
theorem validate_pins_every_page_witness :
    ∃ k1, validate 0xBFFFFFF0 0xBFFFF000 4 c9_state = .ok k1 ∧
      valid_up_all 0xBFFFFFF0 (validate_trace 0xBFFFF000 4) c9_state = .ok k1 ∧
      ∀ page, page % PGSIZE = 0 → 0xBFFFF000 < page + PGSIZE → page < 0xBFFFF000 + 4 →
        (∃ a, a ∈ validate_trace 0xBFFFF000 4 ∧ pg_round_down a = page) ∧
        ∀ p, uvaddr_to_spt_entry k1 page = some p →
          (k1.heap p).pinned = true ∧ (pagedir_get_page k1 k1.cur page).isSome = true :=
  ⟨_, rfl, validate_pins_every_page 0xBFFFFFF0 0xBFFFF000 4 c9_state _ (by decide) (by decide)
    c9_state_wf rfl⟩

/-- C10 (the code departs from the claim): a buffer of two bytes at 0x08048FFF
lies on two pages.  `validate` pins the entries of both pages; `unpin_buffer`
with the same arguments looks up `buffer + 0` only, so the entry of the second
page, 0x08049000, is still pinned afterwards. -/
theorem unpin_buffer_misses_last_page :
    (validate 0xBFFFFF00 0x08048FFF 2 (two_pages false false)).toOption.map
        (fun k => ((k.heap 0).pinned, (k.heap 1).pinned)) = some (true, true) ∧
    ((validate 0xBFFFFF00 0x08048FFF 2 (two_pages false false)).bind
        (unpin_buffer 0x08048FFF 2)).toOption.map
        (fun k => (uvaddr_to_spt_entry k 0x08049000, (k.heap 0).pinned, (k.heap 1).pinned)) =
      some (some 1, false, true) := by
  decide

/-- C12, counterexample: the arguments are page-aligned and
`read_bytes + zero_bytes` is one page, but the running thread already has an
entry for 0x08048000.  `file_supp_creation` returns true and has inserted
nothing: `hash_insert` keeps the old entry (that of file 5), and the table
still has one element although the block of a new entry was allocated. -/
theorem file_supp_creation_on_mapped_page :
    ((0 : Int) % (PGSIZE : Int) = 0 ∧ 0x08048000 % PGSIZE = 0 ∧ (4096 + 0) % PGSIZE = 0 ∧
      (4096 + 0) / PGSIZE = 1) ∧
    (one_lazy_page 0x08048000 0).supp_page_table 0 = [0] ∧
    file_supp_creation 2 7 0 0x08048000 4096 0 false (one_lazy_page 0x08048000 0) =
      .ok (true, c12_after) ∧
    c12_after.supp_page_table 0 = [0] ∧ (c12_after.heap 0).file = 5 ∧ c12_after.brk = 2 :=
  ⟨by decide, by decide, ok_state_of _ _ (by decide), by decide, by decide, by decide⟩

/-- C12 (as amended): for an `int` offset and a pointer that are page-aligned
and 32-bit sizes whose sum is a multiple of `PGSIZE`, if the region
`[upage, upage + read_bytes + zero_bytes)` lies within the address space and
none of its pages has an entry in the running thread's table (whose blocks lie
below the allocation mark), then `file_supp_creation` with enough fuel returns
true and appends exactly `(read_bytes + zero_bytes) / PGSIZE` entries to that
table and changes no other table or older block; the entry of page `j` has
key `upage + j * PGSIZE`, type `FILE`, no frame, is neither pinned nor in
swap, carries the given `writable` flag and has
`page_read_bytes + page_zero_bytes = PGSIZE`; the `page_read_bytes` of the new
entries add up to `read_bytes`. -/
theorem file_supp_creation_inserts (k : Kernel) (fuel file : Nat) (ofs : Int)
    (upage read_bytes zero_bytes : Nat) (writable : Bool)
    (hofs : ofs % (PGSIZE : Int) = 0 ∧ -(2 : Int) ^ 31 ≤ ofs ∧ ofs < (2 : Int) ^ 31)
    (hup : upage % PGSIZE = 0 ∧ upage < WORD)
    (hsum : (read_bytes + zero_bytes) % PGSIZE = 0)
    (hu32 : read_bytes < WORD ∧ zero_bytes < WORD)
    (hfit : upage + read_bytes + zero_bytes ≤ WORD)
    (hheap : ∀ p, p ∈ k.supp_page_table k.cur → p < k.brk)
    (hnone : ∀ j, j < (read_bytes + zero_bytes) / PGSIZE →
      uvaddr_to_spt_entry k (upage + j * PGSIZE) = none)
    (hfuel : (read_bytes + zero_bytes) / PGSIZE + 1 ≤ fuel) :
    ∃ k1, file_supp_creation fuel file ofs upage read_bytes zero_bytes writable k =
        .ok (true, k1) ∧
      k1.supp_page_table k.cur =
        k.supp_page_table k.cur ++ List.range' k.brk ((read_bytes + zero_bytes) / PGSIZE) ∧
      (∀ t, t ≠ k.cur → k1.supp_page_table t = k.supp_page_table t) ∧
      (∀ p, p < k.brk → k1.heap p = k.heap p) ∧
      (∀ j, j < (read_bytes + zero_bytes) / PGSIZE →
        (k1.heap (k.brk + j)).type = spte_type.FILE ∧
        (k1.heap (k.brk + j)).upage = upage + j * PGSIZE ∧
        (k1.heap (k.brk + j)).frame = none ∧
        (k1.heap (k.brk + j)).pinned = false ∧
        (k1.heap (k.brk + j)).is_in_swap = false ∧
        (k1.heap (k.brk + j)).writable = writable ∧
        (k1.heap (k.brk + j)).page_read_bytes + (k1.heap (k.brk + j)).page_zero_bytes = PGSIZE) ∧
      ((List.range ((read_bytes + zero_bytes) / PGSIZE)).map
        (fun j => (k1.heap (k.brk + j)).page_read_bytes)).sum = read_bytes := by
  have hP : PGSIZE = 4096 := rfl
  have hW : WORD = 4294967296 := rfl
  have h32 : to_int32 ofs = ofs := to_int32_of_range ofs hofs.2.1 hofs.2.2
  have hn : read_bytes + zero_bytes = (read_bytes + zero_bytes) / PGSIZE * PGSIZE := by
    unfold PGSIZE at *
    omega
  have hupw : upage < WORD := hup.2
  obtain ⟨k1, e1, e2, e3, e4, _, _, _, _, e9, _⟩ :=
    file_loop_blocks file writable ((read_bytes + zero_bytes) / PGSIZE) fuel ofs upage
      read_bytes zero_bytes k hn hu32.2 hupw h32 hfuel
  have htab := file_loop_table file writable ((read_bytes + zero_bytes) / PGSIZE) fuel ofs upage
    read_bytes zero_bytes k k1 hn hu32.2 hupw hup.1 (by unfold PGSIZE WORD at *; omega) h32 hheap hnone e1
  have hassert : ofs % (PGSIZE : Int) = 0 ∧ pg_ofs upage = 0 ∧
      ((read_bytes + zero_bytes) % WORD) % PGSIZE = 0 := by
    refine ⟨hofs.1, hup.1, ?_⟩
    unfold PGSIZE WORD at *
    omega
  refine ⟨k1, ?_, htab, e9, ?_, ?_, ?_⟩
  · rw [file_supp_creation, if_pos hassert]
    exact e1
  · intro p hp
    rw [e4 p, if_neg (by omega)]
  · intro j hj
    have hin : k.brk ≤ k.brk + j ∧ k.brk + j < k.brk + (read_bytes + zero_bytes) / PGSIZE := by
      omega
    rw [e4 (k.brk + j), if_pos hin, Nat.add_sub_cancel_left]
    refine ⟨rfl, ?_, rfl, rfl, rfl, rfl, ?_⟩
    · show (upage + j * PGSIZE) % WORD = upage + j * PGSIZE
      apply Nat.mod_eq_of_lt
      unfold PGSIZE WORD at *
      omega
    · show min (read_bytes - j * PGSIZE) PGSIZE + (PGSIZE - min (read_bytes - j * PGSIZE) PGSIZE)
        = PGSIZE
      omega
  · have hfun : (List.range ((read_bytes + zero_bytes) / PGSIZE)).map
        (fun j => (k1.heap (k.brk + j)).page_read_bytes) =
        (List.range ((read_bytes + zero_bytes) / PGSIZE)).map
        (fun j => min (read_bytes - j * PGSIZE) PGSIZE) := by
      apply List.map_congr_left
      intro j hj
      have hj1 := List.mem_range.mp hj
      have hin : k.brk ≤ k.brk + j ∧ k.brk + j < k.brk + (read_bytes + zero_bytes) / PGSIZE := by
        omega
      rw [e4 (k.brk + j), if_pos hin, Nat.add_sub_cancel_left]
      rfl
    rw [hfun, sum_page_read_bytes]
    unfold PGSIZE at *
    omega

/-- Witness of C12: a read-only segment of 12 KiB at 0x08048000 on an empty
machine gives three lazy `FILE` entries. -/
theorem file_supp_creation_inserts_witness :
    ∃ k1, file_supp_creation 4 7 0 0x08048000 12288 0 false k_empty = .ok (true, k1) ∧
      k1.supp_page_table 0 = [0, 1, 2] ∧
      (∀ j, j < 3 →
        (k1.heap j).type = spte_type.FILE ∧ (k1.heap j).upage = 0x08048000 + j * PGSIZE ∧
        (k1.heap j).frame = none ∧ (k1.heap j).writable = false) := by
  obtain ⟨k1, h1, h2, _, _, h5, _⟩ := file_supp_creation_inserts k_empty 4 7 0 0x08048000 12288 0
    false (by decide) (by decide) (by decide) (by decide) (by decide)
    (by intro p hp; cases hp) (by intro j _; rfl) (by decide)
  refine ⟨k1, h1, h2, ?_⟩
  intro j hj
  obtain ⟨a1, a2, a3, _, _, a6, _⟩ := h5 j hj
  have hz : k_empty.brk + j = j := Nat.zero_add j
  rw [hz] at a1 a2 a3 a6
  exact ⟨a1, a2, a3, a6⟩

/-- C13, counterexample: `file_supp_creation` is called with page-aligned `ofs`
and `upage` and with `read_bytes + zero_bytes` equal to two pages, for 100
bytes of the file.  Its second entry, the all-zero page at 0x08049000, records
`ofs` = 100, which is not a multiple of `PGSIZE`: `ofs` was advanced by the
100 bytes read for the first page. -/
theorem file_supp_creation_unaligned_ofs :
    ((0 : Int) % (PGSIZE : Int) = 0 ∧ 0x08048000 % PGSIZE = 0 ∧ (100 + 8092) % PGSIZE = 0) ∧
    file_supp_creation 3 7 0 0x08048000 100 8092 false k_empty = .ok (true, c13_after) ∧
    c13_after.supp_page_table 0 = [0, 1] ∧ (c13_after.heap 1).type = spte_type.FILE ∧
    (c13_after.heap 1).upage = 0x08049000 ∧ (c13_after.heap 1).page_read_bytes = 0 ∧
    (c13_after.heap 1).ofs = 100 ∧ (c13_after.heap 1).ofs % (PGSIZE : Int) = 100 :=
  ⟨by decide, ok_state_of _ _ (by decide), by decide, by decide, by decide, by decide,
    by decide, by decide⟩

/-- C13 (as amended): called with a page-aligned `int` offset and a
page-aligned pointer and 32-bit sizes whose sum is a multiple of `PGSIZE`,
`file_supp_creation` with enough fuel returns true, the blocks it allocated
are those from the old allocation mark up to the new one, every entry it added
to the table is one of them, and each of them is a `FILE` entry whose `upage`
is a multiple of `PGSIZE` and whose `ofs` is a multiple of `PGSIZE` if the
entry reads bytes from the file (`page_read_bytes > 0`) or if `read_bytes` is
a multiple of `PGSIZE`.  Called with a page-aligned `upage`, whatever the
other arguments and the fuel, a run of `create_spte_mmap` that returns has
allocated the blocks from the old allocation mark up to the new one, every
entry it added to the table is one of them, and each of them is an `MMAP`
entry whose `ofs` and `upage` are multiples of `PGSIZE`. -/
theorem created_entries_page_aligned (k : Kernel) (fuel file : Nat) (ofs : Int)
    (upage read_bytes zero_bytes : Nat) (writable : Bool)
    (hofs : ofs % (PGSIZE : Int) = 0 ∧ -(2 : Int) ^ 31 ≤ ofs ∧ ofs < (2 : Int) ^ 31)
    (hup : upage % PGSIZE = 0 ∧ upage < WORD)
    (hsum : (read_bytes + zero_bytes) % PGSIZE = 0)
    (hu32 : read_bytes < WORD ∧ zero_bytes < WORD)
    (hfuel : (read_bytes + zero_bytes) / PGSIZE + 1 ≤ fuel) :
    (∃ k1, file_supp_creation fuel file ofs upage read_bytes zero_bytes writable k =
        .ok (true, k1) ∧
      k1.brk = k.brk + (read_bytes + zero_bytes) / PGSIZE ∧
      (∀ p, p ∈ k1.supp_page_table k.cur →
        p ∈ k.supp_page_table k.cur ∨ (k.brk ≤ p ∧ p < k1.brk)) ∧
      ∀ p, k.brk ≤ p → p < k1.brk →
        (k1.heap p).type = spte_type.FILE ∧ (k1.heap p).upage % PGSIZE = 0 ∧
        (0 < (k1.heap p).page_read_bytes ∨ read_bytes % PGSIZE = 0 →
          (k1.heap p).ofs % (PGSIZE : Int) = 0)) ∧
    (∀ (mfuel f : Nat) (len : Int) (r : Option Nat) (k2 : Kernel),
      create_spte_mmap mfuel f len upage k = .ok (r, k2) →
      k.brk ≤ k2.brk ∧
      (∀ p, p ∈ k2.supp_page_table k.cur →
        p ∈ k.supp_page_table k.cur ∨ (k.brk ≤ p ∧ p < k2.brk)) ∧
      ∀ p, k.brk ≤ p → p < k2.brk →
        (k2.heap p).type = spte_type.MMAP ∧ (k2.heap p).ofs % (PGSIZE : Int) = 0 ∧
        (k2.heap p).upage % PGSIZE = 0) := by
  have h32 : to_int32 ofs = ofs := to_int32_of_range ofs hofs.2.1 hofs.2.2
  have hn : read_bytes + zero_bytes = (read_bytes + zero_bytes) / PGSIZE * PGSIZE := by
    unfold PGSIZE at *
    omega
  refine ⟨?_, ?_⟩
  · obtain ⟨k1, e1, e2, e3, e4, _, _, _, _, _, l, e10, e11⟩ :=
      file_loop_blocks file writable ((read_bytes + zero_bytes) / PGSIZE) fuel ofs upage
        read_bytes zero_bytes k hn hu32.2 hup.2 h32 hfuel
    have hassert : ofs % (PGSIZE : Int) = 0 ∧ pg_ofs upage = 0 ∧
        ((read_bytes + zero_bytes) % WORD) % PGSIZE = 0 := by
      refine ⟨hofs.1, hup.1, ?_⟩
      unfold PGSIZE WORD at *
      omega
    refine ⟨k1, ?_, e2, ?_, ?_⟩
    · rw [file_supp_creation, if_pos hassert]
      exact e1
    · intro p hp
      rw [e10] at hp
      rcases List.mem_append.mp hp with hp | hp
      · exact Or.inl hp
      · right
        rw [e2]
        exact e11 p hp
    · intro p h1 h2
      rw [e2] at h2
      rw [e4 p, if_pos ⟨h1, h2⟩]
      refine ⟨rfl, ?_, ?_⟩
      · show (upage + (p - k.brk) * PGSIZE) % WORD % PGSIZE = 0
        have := hup.1
        unfold PGSIZE WORD at *
        omega
      · intro hpos
        show to_int32 (ofs + ((min ((p - k.brk) * PGSIZE) read_bytes : Nat) : Int))
          % (PGSIZE : Int) = 0
        have hpos1 : 0 < min (read_bytes - (p - k.brk) * PGSIZE) PGSIZE ∨
            read_bytes % PGSIZE = 0 := hpos
        have ho := hofs.1
        unfold to_int32
        unfold PGSIZE at *
        omega
  · intro mfuel f len r k2 h
    obtain ⟨b1, b2, _, b4, b5⟩ := mmap_loop_blocks mfuel f mfuel len 0 upage 0 none r k k2 h
    refine ⟨b1, b5, fun p h1 h2 => ?_⟩
    obtain ⟨c1, _, _, c4⟩ := b4 p h1 h2
    obtain ⟨c5, c6⟩ := c4 hup.1 (Or.inr (by decide))
    exact ⟨c1, c5, c6⟩

/-- Witness of C13: the segment of the counterexample (100 bytes, then 8092
zero bytes) and a mapping of 5000 bytes, both at 0x08048000 on an empty
machine. -/
theorem created_entries_page_aligned_witness :
    (∃ k1, file_supp_creation 3 7 0 0x08048000 100 8092 false k_empty = .ok (true, k1) ∧
      (k1.heap 0).upage % PGSIZE = 0 ∧ (k1.heap 0).ofs % (PGSIZE : Int) = 0 ∧
      (k1.heap 1).upage % PGSIZE = 0) ∧
    (∃ r k2, create_spte_mmap 3 9 5000 0x08048000 k_empty = .ok (r, k2) ∧
      (k2.heap 1).type = spte_type.MMAP ∧ (k2.heap 1).ofs % (PGSIZE : Int) = 0 ∧
      (k2.heap 1).upage % PGSIZE = 0) := by
  obtain ⟨⟨k1, h1, h2, _, h4⟩, hm⟩ := created_entries_page_aligned k_empty 3 7 0 0x08048000 100
    8092 false (by decide) (by decide) (by decide) (by decide) (by decide)
  have hb : k1.brk = 2 := h2
  refine ⟨⟨k1, h1, ?_, ?_, ?_⟩, ?_⟩
  · exact (h4 0 (Nat.le_refl 0) (by rw [hb]; decide)).2.1
  · have h0 := h4 0 (Nat.le_refl 0) (by rw [hb]; decide)
    apply h0.2.2
    left
    have he : (match file_supp_creation 3 7 0 0x08048000 100 8092 false k_empty with
        | .ok (true, k) => decide (0 < (k.heap 0).page_read_bytes) | _ => false) = true := by
      decide
    rw [h1] at he
    simpa using he
  · exact (h4 1 (Nat.zero_le 1) (by rw [hb]; decide)).2.1
  · have hr : (match create_spte_mmap 3 9 5000 0x08048000 k_empty with
        | .ok (_, k) => decide (k.brk = 2) | _ => false) = true := by decide
    cases hc : create_spte_mmap 3 9 5000 0x08048000 k_empty with
    | error e => rw [hc] at hr; simp at hr
    | ok x =>
      obtain ⟨r, k2⟩ := x
      rw [hc] at hr
      have hb2 : k2.brk = 2 := by simpa using hr
      obtain ⟨_, _, m3⟩ := hm 3 9 5000 r k2 hc
      exact ⟨r, k2, rfl, m3 1 (Nat.zero_le 1) (by rw [hb2]; decide)⟩

/-- C14, counterexample: no entry of `c14_state` is in swap, so the predicate
holds.  `install_load_page` is called for the entry of block 0, a `FILE` entry
that is resident and not pinned.  The pool is empty, `frame_alloc` evicts that
same entry (`type = CODE`, `is_in_swap = true`, `frame = NULL`), and
`install_load_file` then stores the new frame in it: the call returns true and
the entry is in swap with a frame, so the predicate no longer holds. -/
theorem install_load_page_evicts_its_own_entry :
    swap_inv c14_state ∧ install_load_page 0 c14_state = .ok (true, c14_after) ∧
    (c14_after.heap 0).is_in_swap = true ∧ (c14_after.heap 0).frame = some 0x1000 ∧
    ¬ swap_inv c14_after := by
  refine ⟨?_, ok_state_of _ _ (by decide), by decide, by decide, ?_⟩
  · intro t p hp hsw
    simp only [c14_state, two_pages] at hp
    split at hp
    · simp only [List.mem_cons, List.mem_singleton, List.not_mem_nil, or_false] at hp
      rcases hp with rfl | rfl <;> exact absurd hsw (by decide)
    · simp at hp
  · intro h
    have h1 := (h 0 0 (by decide) (by decide)).2
    exact absurd h1 (by decide)

/-- C14 (as amended): an entry made by `create_spte_code`, a block allocated by
`create_spte_mmap` or by `file_supp_creation` is not in swap, so the predicate
`swap_inv` (an entry of a table that is in swap is a `CODE` entry without
frame) holds for it.  `evict_frame` preserves the predicate.
`install_load_page` preserves it, whether it returns true or false, when the
entry it is called for has no frame or is pinned, as in the calls of
`valid_up` and `stack_increase`.  `evict_frame` on a victim that is not a
memory-mapped page leaves the entry with type `CODE`, in swap, without frame
and with the index `swap_out` returned, which is not the error value.  An
`install_load_page` that returns true for an entry of a table that is in swap
leaves it out of swap and with a frame. -/
theorem swap_inv_preserved :
    (∀ (upage : Nat) (k : Kernel),
      ((create_spte_code upage k).2.heap (create_spte_code upage k).1).is_in_swap = false) ∧
    (∀ (fuel f : Nat) (len : Int) (upage : Nat) (k k1 : Kernel) (r : Option Nat),
      create_spte_mmap fuel f len upage k = .ok (r, k1) →
      ∀ p, k.brk ≤ p → p < k1.brk → (k1.heap p).is_in_swap = false) ∧
    (∀ (fuel file : Nat) (ofs : Int) (upage read_bytes zero_bytes : Nat) (w : Bool)
        (k k1 : Kernel) (b : Bool),
      file_supp_creation fuel file ofs upage read_bytes zero_bytes w k = .ok (b, k1) →
      ∀ p, k.brk ≤ p → p < k1.brk → (k1.heap p).is_in_swap = false) ∧
    (∀ (i : Nat) (k k1 : Kernel) (b : Bool),
      swap_inv k → evict_frame i k = .ok (b, k1) → swap_inv k1) ∧
    (∀ (p : Nat) (k k1 : Kernel) (b : Bool),
      swap_inv k → ((k.heap p).frame = none ∨ (k.heap p).pinned = true) →
      install_load_page p k = .ok (b, k1) → swap_inv k1) ∧
    (∀ (i : Nat) (k k1 : Kernel) (b : Bool) (fte : frame_table_entry),
      k.frame_table.get? i = some fte → (k.heap fte.spte).type ≠ spte_type.MMAP →
      evict_frame i k = .ok (b, k1) →
      (k1.heap fte.spte).type = spte_type.CODE ∧ (k1.heap fte.spte).is_in_swap = true ∧
      (k1.heap fte.spte).idx = (swap_out (k.heap fte.spte) k).1 ∧
      (k1.heap fte.spte).idx ≠ BITMAP_ERROR ∧ (k1.heap fte.spte).frame = none) ∧
    (∀ (t p : Nat) (k k1 : Kernel),
      swap_inv k → p ∈ k.supp_page_table t → (k.heap p).is_in_swap = true →
      install_load_page p k = .ok (true, k1) →
      (k1.heap p).is_in_swap = false ∧ ∃ f, (k1.heap p).frame = some f) := by
  refine ⟨?_, ?_, ?_, ?_, ?_, ?_, ?_⟩
  · intro upage k
    exact (stack_increase_entry_more k upage true).2.2.2.2.1
  · intro fuel f len upage k k1 r h p h1 h2
    exact ((mmap_loop_blocks fuel f fuel len 0 upage 0 none r k k1 h).2.2.2.1 p h1 h2).2.2.1
  · intro fuel file ofs upage read_bytes zero_bytes w k k1 b h p h1 h2
    unfold file_supp_creation at h
    split at h
    · exact ((file_loop_fresh_blocks file w fuel ofs upage read_bytes zero_bytes k k1 b h).2.2
        p h1 h2).2.2
    · simp at h
  · intro i k k1 b hinv h
    cases hget : k.frame_table.get? i with
    | none =>
      unfold evict_frame at h
      rw [hget] at h
      simp at h
    | some fte =>
      obtain ⟨_, _, c2, _, _, c5, c6, c7, _⟩ := evict_frame_ok i k k1 b fte hget h
      apply swap_inv_of_step hinv c2
      intro t q hq
      by_cases hqe : q = fte.spte
      · subst hqe
        right
        right
        intro hsw
        by_cases hty : (k.heap fte.spte).type = spte_type.MMAP
        · rw [c6 hty] at hsw
          have := (hinv t fte.spte hq hsw).1
          rw [hty] at this
          simp at this
        · rw [(c7 hty).2.2]
          exact ⟨rfl, rfl⟩
      · exact Or.inl (c5 q hqe)
  · intro p k k1 b hinv hp h
    obtain ⟨_, c2, _, c4, c5, c6⟩ := (install_load_page_result p k hp).2 b k1 h
    apply swap_inv_of_step hinv c2
    intro t q hq
    by_cases hqe : q = p
    · subst hqe
      cases b with
      | false => exact Or.inl (c5 rfl)
      | true =>
        right
        right
        obtain ⟨f, e1, _⟩ := c6 rfl
        intro hsw
        rw [e1] at hsw
        simp only [ne_eq, Bool.and_eq_true, decide_eq_true_eq] at hsw
        exact absurd (hinv t q hq hsw.2).1 hsw.1
    · rcases c4 q hqe with e | e
      · exact Or.inl e
      · exact Or.inr (Or.inl e)
  · intro i k k1 b fte hget hty h
    obtain ⟨_, _, _, _, _, _, _, c7, _⟩ := evict_frame_ok i k k1 b fte hget h
    obtain ⟨_, d2, d3⟩ := c7 hty
    rw [d3]
    exact ⟨rfl, rfl, rfl, d2, rfl⟩
  · intro t p k k1 hinv hp hsw h
    obtain ⟨i1, i2⟩ := hinv t p hp hsw
    obtain ⟨f, e1, _⟩ := ((install_load_page_result p k (Or.inl i2)).2 true k1 h).2.2.2.2.2 rfl
    rw [e1]
    refine ⟨?_, f, rfl⟩
    simp [i1]

/-- Witness of C14: in `c9_state` no entry is in swap; loading the stack page
of block 1 evicts the data page of block 0, and the predicate holds in the
state the call leaves, in which block 0 is in swap. -/
theorem swap_inv_preserved_witness :
    install_load_page 1 c9_state = .ok (true, c14_loaded) ∧ swap_inv c14_loaded ∧
    (c14_loaded.heap 0).is_in_swap = true := by
  have hinv : swap_inv c9_state := by
    intro t p hp hsw
    simp only [c9_state] at hp
    split at hp
    · simp only [List.mem_cons, List.mem_singleton, List.not_mem_nil, or_false] at hp
      rcases hp with rfl | rfl <;> exact absurd hsw (by decide)
    · simp at hp
  have hrun : install_load_page 1 c9_state = .ok (true, c14_loaded) :=
    ok_state_of _ _ (by decide)
  exact ⟨hrun, swap_inv_preserved.2.2.2.2.1 1 c9_state c14_loaded true hinv
    (Or.inl (by decide)) hrun, by decide⟩

/-- C15, counterexample.  In `c15_state` the only frame belongs to a `CODE`
entry that is not pinned and whose accessed bit is clear; its dirty bit is set.
The first loop of `get_victim_frame` does not return it (the frame is taken by
the third loop).  In `c15_short` the first frame belongs to a dirty `FILE`
entry that is not pinned; `write_to_disk` returns false for it, and after the
first loop the dirty bit of its page is still set. -/
theorem pass1_skips_dirty_code_frame :
    (c15_state.frame_table = [{ frame := 0x1000, spte := 0, t := 0 }] ∧
      (c15_state.heap 0).type = spte_type.CODE ∧ (c15_state.heap 0).pinned = false ∧
      pagedir_is_accessed c15_state 0 (c15_state.heap 0).upage = false ∧
      pagedir_is_dirty c15_state 0 (c15_state.heap 0).upage = true ∧
      (get_victim_pass1 c15_state.frame_table 0 c15_state).1 = none) ∧
    (c15_short.frame_table[0]? = some { frame := 0x1000, spte := 0, t := 0 } ∧
      (c15_short.heap 0).type = spte_type.FILE ∧ (c15_short.heap 0).pinned = false ∧
      pagedir_is_dirty c15_short 0 (c15_short.heap 0).upage = true ∧
      (write_to_disk 0 c15_short).1 = false ∧
      pagedir_is_dirty (get_victim_pass1 c15_short.frame_table 0 c15_short).2 0
        (c15_short.heap 0).upage = true) := by
  decide

/-- C15 (as amended): on a list whose entries hold different pages, the first
loop of `get_victim_frame` returns the first entry in list order that is not
pinned and whose dirty and accessed bits are both clear (`pass1_victim`), and
returns none if there is no such entry.  At an entry that is not pinned, not a
`CODE` entry and dirty, the loop calls `write_to_disk` and goes on with the
rest of the list; the dirty bit of the page is cleared if `write_to_disk`
returned true and the page directories are left as they are if it returned
false.  At a `CODE` entry that is not pinned and dirty the loop goes on with
the rest of the list and changes nothing, whatever the accessed bit is. -/
theorem get_victim_pass1_first_clean (k : Kernel) (l : List frame_table_entry)
    (hd : frames_distinct k l) :
    (∀ i, (get_victim_pass1 l 0 k).1 = some i →
      ∃ fte, l[i]? = some fte ∧ pass1_victim k fte = true ∧
        ∀ j g, j < i → l[j]? = some g → pass1_victim k g = false) ∧
    ((get_victim_pass1 l 0 k).1 = none → ∀ g, g ∈ l → pass1_victim k g = false) ∧
    (∀ (fte : frame_table_entry) (rest : List frame_table_entry) (i : Nat),
      (k.heap fte.spte).pinned = false → (k.heap fte.spte).type ≠ spte_type.CODE →
      pagedir_is_dirty k fte.t (k.heap fte.spte).upage = true →
      get_victim_pass1 (fte :: rest) i k =
        get_victim_pass1 rest (i + 1) (pass1_written k fte) ∧
      ((write_to_disk fte.spte k).1 = true →
        pagedir_is_dirty (pass1_written k fte) fte.t (k.heap fte.spte).upage = false) ∧
      ((write_to_disk fte.spte k).1 = false → (pass1_written k fte).pagedir = k.pagedir)) ∧
    (∀ (fte : frame_table_entry) (rest : List frame_table_entry) (i : Nat),
      (k.heap fte.spte).pinned = false → (k.heap fte.spte).type = spte_type.CODE →
      pagedir_is_dirty k fte.t (k.heap fte.spte).upage = true →
      get_victim_pass1 (fte :: rest) i k = get_victim_pass1 rest (i + 1) k) := by
  obtain ⟨a, b⟩ := pass1_first l 0 k hd
  refine ⟨fun i hi => ?_, b, fun fte rest i h1 h2 h3 => ?_, fun fte rest i h1 h2 h3 => ?_⟩
  · obtain ⟨j, fte, e1, e2, e3, e4⟩ := a i hi
    rw [Nat.zero_add] at e1
    subst e1
    exact ⟨fte, e2, e3, fun j1 g hj hg => e4 j1 g hj hg⟩
  · obtain ⟨_, _, w3, w4⟩ := pass1_written_spec k fte
    exact ⟨pass1_write_back k fte rest i h1 h2 h3, w3, w4⟩
  · apply pass1_skip k fte rest i
    · simp [pass1_victim, h1, h3]
    · intro hc
      exact hc.2.1 h2

/-- Witness of C15: the first of two frames is dirty and belongs to a `FILE`
entry, the second is clean; the loop writes the first page back and returns
the second frame. -/
theorem get_victim_pass1_first_clean_witness :
    (get_victim_pass1 c15_pages.frame_table 0 c15_pages).1 = some 1 ∧
    ∃ fte, c15_pages.frame_table[1]? = some fte ∧ pass1_victim c15_pages fte = true ∧
      ∀ j g, j < 1 → c15_pages.frame_table[j]? = some g → pass1_victim c15_pages g = false :=
  ⟨by decide,
    (get_victim_pass1_first_clean c15_pages c15_pages.frame_table
      (by unfold frames_distinct; decide)).1 1 (by decide)⟩

/-- C16 (the code departs from the claim): `file_supp_creation` makes one page
of file 7 at 0x08048000 with `writable = false`.  The first
`install_load_page` maps it read-only.  The page is evicted, which turns its
entry into a `CODE` entry in swap.  The next `install_load_page` goes through
`install_load_swap`, which passes `true` to `install_page`: the page is now
mapped writable although its entry still says `writable = false`. -/
theorem read_only_page_writable_after_reload :
    file_supp_creation 2 7 0 0x08048000 4096 0 false c16_boot = .ok (true, c16_created) ∧
    c16_created.supp_page_table 0 = [0] ∧
    (c16_created.heap 0).type = spte_type.FILE ∧ (c16_created.heap 0).writable = false ∧
    install_load_page 0 c16_created = .ok (true, c16_loaded) ∧
    (c16_loaded.pagedir 0 0x08048000).map (fun e => e.writable) = some false ∧
    evict_victim c16_loaded = .ok (true, c16_evicted) ∧
    (c16_evicted.heap 0).type = spte_type.CODE ∧ (c16_evicted.heap 0).is_in_swap = true ∧
    c16_evicted.pagedir 0 0x08048000 = none ∧
    install_load_page 0 c16_evicted = .ok (true, c16_reloaded) ∧
    (c16_reloaded.pagedir 0 0x08048000).map (fun e => e.writable) = some true ∧
    (c16_reloaded.heap 0).writable = false :=
  ⟨ok_state_of _ _ (by decide), by decide, by decide, by decide, ok_state_of _ _ (by decide),
    by decide, ok_state_of _ _ (by decide), by decide, by decide, by decide,
    ok_state_of _ _ (by decide), by decide, by decide⟩

end Pintos
